import Mathlib

/-!
Verification of the `json-rpc-service` RPC connector and lifecycle harness.

This file shallowly embeds the parts of the source that the checked claims
are about:

* `src/src/services/Connector.ts` — route compilation (`tryApplyConfigInherits`,
  `applyValidation`, `applyInherits`, `applyCustomValidationTypes`,
  `resolveCustomInnerTypes`, `resolveCustomTypesForValidation`,
  `resolveValidationType`, `resolveValidationTypeForDefinition`,
  `mergeTypeValidationProperties`, `compileValidation`), the dispatch pipeline
  (`handleWithOptions`), error classification (`handleHandlerError`) and the
  outbound-call parameter gate (`callService`);
* `src/src/services/Basic.js` — nested-service lifecycle
  (`addNested`, `startNested`, `stopNested`).

JavaScript values flowing through the connector are modelled by the `Json`
inductive below (JS `undefined` included, since the code distinguishes it from
`null`). JS objects are association lists that keep insertion order, mirroring
the iteration order of `Object.keys` / `Object.values` on string-keyed objects.
Mutation is modelled by explicit state passing; unbounded source loops
(the custom-type re-resolution loop genuinely diverges on cyclic definitions)
take a fuel argument and return `none` when the fuel runs out.
-/

/-- A JavaScript value as observed by the connector: JSON values plus
`undefined`. Numbers are modelled as integers (all numbers occurring in the
claims are integral). -/
inductive Json where
  | undef
  | null
  | bool (b : Bool)
  | num (n : Int)
  | str (s : String)
  | arr (elems : List Json)
  | obj (fields : List (String × Json))
deriving Inhabited

namespace Json

/-- JS `SameValueZero` equality, as used by `Set` (the `[...new Set(...)]`
deduplication in `resolveValidationType`): primitives compare by value;
objects and arrays compare by *reference*. In this value model distinct
array/object values stand for distinct references, so they never compare
equal (the type members deduplicated by the source are strings). -/
def sameValueZero : Json → Json → Bool
  | .undef, .undef => true
  | .null, .null => true
  | .bool a, .bool b => a == b
  | .num a, .num b => a == b
  | .str a, .str b => a == b
  | _, _ => false

/-- JS truthiness: `undefined`, `null`, `false`, `0` and `""` are falsy;
every object and array (even empty) is truthy. -/
def truthy : Json → Bool
  | .undef => false
  | .null => false
  | .bool b => b
  | .num n => n != 0
  | .str s => s ≠ ""
  | .arr _ => true
  | .obj _ => true

/-- The JS `typeof` operator on the modelled values. Note `typeof null`
and `typeof` of an array are both `"object"`. -/
def jsTypeof : Json → String
  | .undef => "undefined"
  | .null => "object"
  | .bool _ => "boolean"
  | .num _ => "number"
  | .str _ => "string"
  | .arr _ => "object"
  | .obj _ => "object"

/-- `deepmerge`'s `isMergeableObject` on our values: non-null objects,
arrays included. -/
def isMergeable : Json → Bool
  | .arr _ => true
  | .obj _ => true
  | _ => false

/-- Association-list lookup of an object field (first occurrence wins, as in
JS property access on objects, whose keys are unique). -/
def lookupField : List (String × Json) → String → Option Json
  | [], _ => none
  | (k, v) :: rest, key => if k = key then some v else lookupField rest key

/-- JS property read `o[key]`: `undefined` when the key is absent or the value
is not an object. (Array index reads and exotic string indexing are not needed
by any claim.) -/
def getProp (j : Json) (key : String) : Json :=
  match j with
  | .obj fields => (lookupField fields key).getD .undef
  | _ => (.undef)

/-- JS property write on an object's field list: updates the first occurrence
in place (keeping its position) or appends a new entry, as JS assignment does. -/
def setField : List (String × Json) → String → Json → List (String × Json)
  | [], key, v => [(key, v)]
  | (k, w) :: rest, key, v =>
      if k = key then (k, v) :: rest else (k, w) :: setField rest key v

/-- The keys of an object in insertion order (`Object.keys`); `[]` for
non-objects other than strings (string indexing is not exercised by the
claims). -/
def objKeys : Json → List String
  | .obj fields => fields.map Prod.fst
  | _ => []

end Json

/-! ## Service lifecycle (`src/src/services/Basic.js`)

A nested child is its identity plus its one-way `done` flag as observed at the
time of the call (`stop` itself never changes the flag; only user code calls
`done()`). `startNested`/`stopNested` return the list of children whose
`start`/`stop` methods are awaited, in order, together with the service state
after the call. -/

/-- One registered nested service: an identity and its `done` flag. -/
structure Child where
  id : Nat
  done : Bool
deriving Repr, DecidableEq

/-- The parent service's state: the `_nestedServices` array. -/
structure ServiceState where
  nested : List Child
deriving Repr, DecidableEq

/-- `addNested(...services)`: pushes the new children at the end. -/
def addNested (s : ServiceState) (cs : List Child) : ServiceState :=
  { nested := s.nested ++ cs }

/-- `startNested`: awaits `service.start()` for each child in stored order
(no `isDone` check in the source); the stored order is not changed. -/
def startNested (s : ServiceState) : List Nat × ServiceState :=
  (s.nested.map Child.id, s)

/-- `stopNested`: the source iterates `this._nestedServices.reverse()`, which
reverses the stored array **in place** and returns it; each child not marked
`done` has its `stop()` awaited. -/
def stopNested (s : ServiceState) : List Nat × ServiceState :=
  let rev := s.nested.reverse
  ((rev.filter (fun c => !c.done)).map Child.id, { nested := rev })

/-! ## `callService` parameter gate (`Connector.ts`, lines 330–341)

`callService` throws `{code: 500, message: 'Critical internal error'}` when
`typeof params !== 'object'`, and otherwise delegates to `sendTo`. -/

/-- Outcome of the parameter check at the top of `callService`. -/
inductive CallServiceGate where
  | rejected500
  | sentToRemote
deriving Repr, DecidableEq

/-- The `typeof params !== 'object'` check of `callService`: on failure the
call is rejected with `{code: 500, message: 'Critical internal error'}`
before any request is sent; otherwise `sendTo` is invoked. -/
def callServiceParamsGate (params : Json) : CallServiceGate :=
  if params.jsTypeof ≠ "object" then .rejected500 else .sentToRemote

/-! ## Error classification (`Connector.ts`, lines 757–784) -/

/-- The five well-known runtime error kinds checked first by
`handleHandlerError` (`EvalError`, `RangeError`, `ReferenceError`,
`SyntaxError`, `URIError`). -/
inductive RuntimeErrorKind where
  | evalError
  | rangeError
  | referenceError
  | syntaxError
  | uriError
deriving Repr, DecidableEq

/-- A thrown JS value as observed by `handleHandlerError`: whether it is an
instance of one of the five well-known runtime error kinds, whether it is an
`Error` instance at all, and its own fields (empty for thrown primitives).
Thrown `null`/`undefined` would make the classifier itself crash reading
`.code` and are outside this model. -/
structure ThrownValue where
  runtimeKind : Option RuntimeErrorKind
  isErrorInstance : Bool
  fields : List (String × Json)

/-- Property read on a thrown value (`error.code`, `error.message`). -/
def ThrownValue.getField (e : ThrownValue) (key : String) : Json :=
  (Json.lookupField e.fields key).getD (.undef)

/-- JS strict equality `===` against a string literal: true exactly for the
equal string (values of other types are never strictly equal to a string). -/
def strictEqStr (j : Json) (s : String) : Bool :=
  match j with
  | .str t => t == s
  | _ => false

/-- What the dispatcher's callback receives for a thrown value. -/
inductive ErrorReply where
  | deliveredAsIs
  | internalServer1001
  | emptyObject
deriving Repr, DecidableEq

/-- `handleHandlerError`: well-known runtime errors are logged and delivered
as-is; then `error.code === 'ECONNREFUSED'` maps to
`{code: 1001, message: 'Internal server error'}`; then
`!(error instanceof Error) && error.code && error.message` (JS truthiness)
delivers the value verbatim; everything else is logged and replied to
with `{}`. -/
def handleHandlerError (e : ThrownValue) : ErrorReply :=
  if e.runtimeKind.isSome then .deliveredAsIs
  else if strictEqStr (e.getField "code") "ECONNREFUSED" then .internalServer1001
  else if !e.isErrorInstance && (e.getField "code").truthy && (e.getField "message").truthy then
    .deliveredAsIs
  else .emptyObject

/-! ## Deep merge (the `deepmerge` npm package, default options)

`Connector.ts` imports `deepmerge` as `merge`. With default options:
if exactly one of target/source is an array the source is cloned; two arrays
concatenate (`target.concat(source)`); otherwise `mergeObject` copies the
target's fields when the target is mergeable and then walks the source's
fields, recursively merging a field that is present on the target and whose
source value is mergeable, and copying the source value otherwise. Cloning is
the identity in this value model. -/

namespace Json

/-- JS property write `o[key] = v` as a value: objects get the field updated
in place or appended; on non-objects the write is dropped (in the strict-mode
source such a write throws, and no claim reaches it). -/
def setProp (j : Json) (key : String) (v : Json) : Json :=
  match j with
  | .obj fields => .obj (setField fields key v)
  | _ => j

/-- The own enumerable fields a JS value exposes to `Object.keys` /
`Object.values` / `getKeys`: an object's fields; an array's indexed elements;
a string's character indices; `[]` for the remaining primitives. -/
def jsFields : Json → List (String × Json)
  | .obj fields => fields
  | .arr xs => xs.enum.map fun ix => (toString ix.1, ix.2)
  | .str s => s.toList.enum.map fun ic => (toString ic.1, Json.str ic.2.toString)
  | _ => []

/-- `propertyIsOnObject(target, key)`: `key in target`, with the `in` operator
throwing (hence `false`) on primitives. -/
def hasKey (j : Json) (key : String) : Bool :=
  match j with
  | .obj fields => (lookupField fields key).isSome
  | _ => false

end Json

/-- One step of `mergeObject`'s walk over the source fields: a field present
on the target whose source value is mergeable is merged recursively (`m` is
the next-level merge); any other field takes the source value. -/
def mergeObjectStep (m : Json → Json → Json) (t : Json)
    (d : List (String × Json)) (kv : String × Json) : List (String × Json) :=
  if t.hasKey kv.1 && kv.2.isMergeable then
    Json.setField d kv.1 (m (t.getProp kv.1) kv.2)
  else Json.setField d kv.1 kv.2

/-- `deepmerge(target, source)` with a fuel argument for the nested recursion;
with fuel `0` the source value is returned (lemmas below are stated for
whatever fuel they need). Only the recursive calls of `mergeObject` consume
fuel. -/
def deepmergeF : Nat → Json → Json → Json
  | 0, _, s => s
  | fuel + 1, t, s =>
    match t, s with
    | .arr ts, .arr ss => .arr (ts ++ ss)
    | _, .arr ss => .arr ss
    | .arr _, s => s
    | t, s =>
      .obj (s.jsFields.foldl
        (mergeObjectStep (fun a b => deepmergeF fuel a b) t)
        (if t.isMergeable then t.jsFields else []))

/-! ## Custom-type sibling merge (`Connector.ts`, lines 635–649)

`mergeTypeValidationProperties(customType, typeConfig)` iterates over
`Object.keys(customType)`; the key `type` is skipped; a key whose current
value on the node is falsy (`!typeConfig[key]`) gets the custom type's value;
a key whose current value has `typeof ... === 'object'` gets
`merge(customType[key], typeConfig[key])` (node entries on top); any other
key keeps the node's value ("save original value as override"). -/

/-- One iteration of the `mergeTypeValidationProperties` loop. -/
def mergeTypeStep (fuel : Nat) (tc : Json) (kv : String × Json) : Json :=
  if kv.1 = "type" then tc
  else if !(tc.getProp kv.1).truthy then tc.setProp kv.1 kv.2
  else if (tc.getProp kv.1).jsTypeof = "object" then
    tc.setProp kv.1 (deepmergeF fuel kv.2 (tc.getProp kv.1))
  else tc

/-- The `for (const key of Object.keys(customType))` loop. -/
def mergeTypeLoop (fuel : Nat) : List (String × Json) → Json → Json
  | [], tc => tc
  | kv :: rest, tc => mergeTypeLoop fuel rest (mergeTypeStep fuel tc kv)

/-- `mergeTypeValidationProperties` itself. -/
def mergeTypeValidationProperties (fuel : Nat) (customType typeConfig : Json) : Json :=
  mergeTypeLoop fuel customType.jsFields typeConfig

/-! ## Custom-type resolution (`Connector.ts`, lines 545–653)

The resolution loop `resolveValidationTypeForDefinition` rewinds its index
(`i--`) whenever the members just substituted still name a custom type; the
source has no bound on these re-resolutions, so the model takes fuel and
returns `none` when it runs out — `none` for *every* fuel is how the model
expresses divergence of the source loop. -/

/-- JS property-key coercion for `types[member]`: the key is `String(member)`.
Array members coerce through `Array.prototype.toString` (shallow here) and
objects to `"[object Object]"`; only string members occur in practice. -/
def jsPropKey : Json → String
  | .undef => "undefined"
  | .null => "null"
  | .bool b => if b then "true" else "false"
  | .num n => toString n
  | .str s => s
  | .arr xs => String.intercalate "," (xs.map fun x =>
      match x with
      | .str s => s
      | .num n => toString n
      | .bool b => if b then "true" else "false"
      | .null => ""
      | .undef => ""
      | _ => "")
  | .obj _ => "[object Object]"

/-- `types[typeDefinition[i]]` followed by the `if (!customType) continue`
truthiness test: the definition of a custom type named by a member, when
present and truthy. -/
def lookupCustom (types : List (String × Json)) (e : Json) : Option Json :=
  match Json.lookupField types (jsPropKey e) with
  | some v => if v.truthy then some v else none
  | none => none

/-- `currentTypes.some(type => types[type])`: the member still names a
(truthy) custom type after substitution. -/
def isCustomMember (types : List (String × Json)) (e : Json) : Bool :=
  (lookupCustom types e).isSome

/-- `resolveValidationTypeForDefinition` (lines 604–633). State: the node
`tc`, the type array `td` and the index `i`. One iteration: skip a member
that is no custom type; otherwise substitute the custom type's `type`
(splicing when it is an array), merge the sibling keywords into the node,
and when the substituted members still name a custom type stay at the same
index (`i--` plus the loop's `i++`). The map `types` is read-only during one
call (in the source a definition resolving through *itself* would observe its
own sibling merges; no such self-referential type occurs in the claims). -/
def resolveValidationTypeForDefinition (types : List (String × Json)) :
    Nat → Json → List Json → Nat → Option (Json × List Json)
  | 0, _, _, _ => none
  | fuel + 1, tc, td, i =>
    if h : i < td.length then
      match lookupCustom types (td.get ⟨i, h⟩) with
      | none => resolveValidationTypeForDefinition types fuel tc td (i + 1)
      | some customType =>
          match customType.getProp "type" with
          | .arr cur =>
              if cur.any (isCustomMember types) then
                resolveValidationTypeForDefinition types fuel
                  (mergeTypeValidationProperties fuel customType tc)
                  (td.take i ++ cur ++ td.drop (i + 1)) i
              else
                resolveValidationTypeForDefinition types fuel
                  (mergeTypeValidationProperties fuel customType tc)
                  (td.take i ++ cur ++ td.drop (i + 1)) (i + 1)
          | x =>
              if isCustomMember types x then
                resolveValidationTypeForDefinition types fuel
                  (mergeTypeValidationProperties fuel customType tc) (td.set i x) i
              else
                resolveValidationTypeForDefinition types fuel
                  (mergeTypeValidationProperties fuel customType tc) (td.set i x) (i + 1)
    else some (tc, td)

/-- `[...new Set(list)]`: first occurrences kept, `SameValueZero` equality. -/
def dedupSVZGo (seen : List Json) : List Json → List Json
  | [] => []
  | x :: xs =>
      if seen.any (fun y => Json.sameValueZero y x) then dedupSVZGo seen xs
      else x :: dedupSVZGo (x :: seen) xs

/-- Deduplication of the resolved type array. -/
def dedupSVZ (l : List Json) : List Json := dedupSVZGo [] l

/-- The initial `typeDefinition` of `resolveValidationType`: a scalar `type`
is wrapped into a one-member array. -/
def wrapTypeList : Json → List Json
  | .arr xs => xs
  | v => [v]

/-- The tail of `resolveValidationType`: deduplicate, collapse a
single-member array to a scalar, write the result back to the node's `type`
(the strict-mode source throws on a non-object node; the model gives
`none`). -/
def finishResolveValidationType : Json × List Json → Option Json
  | (.obj fs, td') =>
      some (.obj (Json.setField fs "type"
        (match dedupSVZ td' with
          | [x] => x
          | xs => .arr xs)))
  | _ => none

/-- `resolveValidationType` (lines 585–602): wrap a scalar `type` into an
array, run the resolution loop, then finish with deduplication, collapse and
write-back. -/
def resolveValidationType (types : List (String × Json)) (fuel : Nat) (tc : Json) :
    Option Json :=
  (resolveValidationTypeForDefinition types fuel tc (wrapTypeList (tc.getProp "type")) 0).bind
    finishResolveValidationType

/-- The fold of `resolveCustomInnerTypes` over the snapshot of the map's keys,
threading the map: each resolved definition is written back before the next
one is resolved, as the in-place mutation of the source does. -/
def resolveCustomInnerTypesGo (fuel : Nat) : List String → List (String × Json) →
    Option (List (String × Json))
  | [], m => some m
  | k :: ks, m =>
      match Json.lookupField m k with
      | none => resolveCustomInnerTypesGo fuel ks m
      | some tc =>
          match resolveValidationType m fuel tc with
          | none => none
          | some tc' => resolveCustomInnerTypesGo fuel ks (Json.setField m k tc')

/-- `resolveCustomInnerTypes` (lines 554–558): resolve every custom type
definition against the map itself. -/
def resolveCustomInnerTypes (fuel : Nat) (types : List (String × Json)) :
    Option (List (String × Json)) :=
  resolveCustomInnerTypesGo fuel (types.map Prod.fst) types

/-! ## The validation walker (`resolveCustomTypesForValidation`, lines 560–583)

The walker descends into the values of `properties`, `oneOf`, `allOf`,
`anyOf` and into `items`, resolving each node's `type` and recursing. Its
recursion is fuel-indexed (each nesting level consumes one unit); the
children of one level are traversed by `walkChildrenWith`, which takes the
resolver and the next-level walker as functions. -/

/-- `Object.values(inner)` traversal of one level's children: each child is
first passed to `resolveValidationType` and then to the recursive walk, as
the source does, threading the rebuilt children. -/
def walkChildrenWith (resolve1 walkChild : Json → Option Json) :
    List (String × Json) → Option (List (String × Json))
  | [] => some []
  | (k, tc) :: rest => do
      let tc1 ← resolve1 tc
      let tc2 ← walkChild tc1
      let rest' ← walkChildrenWith resolve1 walkChild rest
      some ((k, tc2) :: rest')

/-- The rebuilt value of one `properties`/`oneOf`/`allOf`/`anyOf` collection:
`some w` when the members of `Object.values` were resolved and walked and the
collection is rebuilt as `w`; `none` (inner) when the collection is left in
place untouched (truthy members-less primitives; a truthy string's members
are its characters, whose resolution always fails on the strict-mode
write-back, so a nonempty string never reaches the rebuild). -/
def processInnerValue (resolve1 walkChild : Json → Option Json) :
    Json → Option (Option Json)
  | .obj kvs =>
      (walkChildrenWith resolve1 walkChild kvs).bind fun kvs' =>
        some (some (.obj kvs'))
  | .arr xs =>
      (walkChildrenWith resolve1 walkChild ((Json.arr xs).jsFields)).bind fun kvs' =>
        some (some (.arr (kvs'.map Prod.snd)))
  | .str s =>
      (walkChildrenWith resolve1 walkChild ((Json.str s).jsFields)).bind fun _ =>
        some none
  | _ => some none

/-- Processing of one of the keys `properties`/`oneOf`/`allOf`/`anyOf`: when
`validation[key]` is truthy, every member of `Object.values` of it is
resolved and walked and the children are rebuilt in place. -/
def processValidationInner (resolve1 walkChild : Json → Option Json) (v : Json)
    (key : String) : Option Json :=
  if (v.getProp key).truthy then
    (processInnerValue resolve1 walkChild (v.getProp key)).map fun upd =>
      match upd with
      | some w => v.setProp key w
      | none => v
  else some v

/-- The rebuilt value of a truthy `items`: an array of schemas is resolved
and walked member-wise; a single `items` value is resolved and walked
itself. -/
def processItemsValue (resolve1 walkChild : Json → Option Json) : Json → Option Json
  | .arr xs =>
      (walkChildrenWith resolve1 walkChild ((Json.arr xs).jsFields)).bind fun kvs' =>
        some (.arr (kvs'.map Prod.snd))
  | item => (resolve1 item).bind fun item1 => walkChild item1

/-- Processing of `items` (lines 572–582). -/
def processValidationItems (resolve1 walkChild : Json → Option Json) (v : Json) :
    Option Json :=
  if (v.getProp "items").truthy then
    (processItemsValue resolve1 walkChild (v.getProp "items")).map fun w =>
      v.setProp "items" w
  else some v

/-- `resolveCustomTypesForValidation` itself: the four property collections in
source order, then `items`. -/
def resolveCustomTypesForValidation (types : List (String × Json)) :
    Nat → Json → Option Json
  | 0, _ => none
  | fuel + 1, v => do
      let v1 ← processValidationInner (resolveValidationType types (fuel + 1))
        (fun tc => resolveCustomTypesForValidation types fuel tc) v "properties"
      let v2 ← processValidationInner (resolveValidationType types (fuel + 1))
        (fun tc => resolveCustomTypesForValidation types fuel tc) v1 "oneOf"
      let v3 ← processValidationInner (resolveValidationType types (fuel + 1))
        (fun tc => resolveCustomTypesForValidation types fuel tc) v2 "allOf"
      let v4 ← processValidationInner (resolveValidationType types (fuel + 1))
        (fun tc => resolveCustomTypesForValidation types fuel tc) v3 "anyOf"
      processValidationItems (resolveValidationType types (fuel + 1))
        (fun tc => resolveCustomTypesForValidation types fuel tc) v4

/-- `applyCustomValidationTypes` (lines 545–552): a falsy `validationTypes`
short-circuits; otherwise the custom types are resolved against themselves
(mutating `serverDefaults.validationTypes`, here returned) and the route's
validation is walked. A truthy non-object `validationTypes` makes the source
crash while resolving; the model returns `none`. -/
def applyCustomValidationTypes (fuel : Nat) (validationTypes validation : Json) :
    Option (Json × Json) :=
  if !validationTypes.truthy then some (validationTypes, validation)
  else
    match validationTypes with
    | .obj tys => do
        let tys' ← resolveCustomInnerTypes fuel tys
        let v' ← resolveCustomTypesForValidation tys' fuel validation
        some (.obj tys', v')
    | _ => none

/-! ## Route compilation (`Connector.ts`, lines 497–543, 651–653) -/

/-- A parent config under `serverDefaults.parents`: pipeline stages are
abstract identities; `parents[alias].before || []` collapses an absent list
to `[]`, so the lists are modelled directly; `validation` keeps JS absence
(`Json.undef`) because the source tests it with `|| {}`. -/
structure ParentConfig where
  before : List Nat
  after : List Nat
  validation : Json

/-- `serverDefaults`: the `parents` map and the `validationTypes` value
(`Json.undef` when the user did not configure custom types). -/
structure ServerDefaults where
  parents : List (String × ParentConfig)
  validationTypes : Json

/-- Lookup of `parents[alias]`. -/
def lookupParent : List (String × ParentConfig) → String → Option ParentConfig
  | [], _ => none
  | (k, v) :: rest, key => if k = key then some v else lookupParent rest key

/-- A structured route config: handler and scope are abstract identities;
`before`/`after`/`inherits` keep their JS absence as `Option`; `validation`
keeps JS absence as `Json.undef`; `validator` is the compiled schema
(`compileValidation` stores `ajv.compile(config.validation)`, modelled by the
schema itself). -/
structure RouteRecord where
  handler : Nat
  scope : Option Nat
  before : Option (List Nat)
  after : Option (List Nat)
  validation : Json
  inherits : Option (List String)
  validator : Option Json

/-- A route config value: a bare callable or a structured record. -/
inductive RouteConfig where
  | bare (handler : Nat)
  | structured (r : RouteRecord)

/-- `getDefaultValidationInherits` (lines 720–725). -/
def getDefaultValidationInherits : Json :=
  .obj [("type", .str "object"), ("additionalProperties", .bool false)]

/-- `applyValidation` (lines 518–520): merge the route's validation over the
strict-object default. -/
def applyValidation (fuel : Nat) (r : RouteRecord) : RouteRecord :=
  { r with validation := deepmergeF fuel getDefaultValidationInherits r.validation }

/-- The accumulation loop of `applyInherits` over the `inherits` aliases:
concatenate the parents' `before`/`after` and merge their validations (later
parents over earlier); a missing alias makes the source throw
(`parents[alias].before` on `undefined`), modelled as `none`. -/
def applyInheritsGo (fuel : Nat) (parents : List (String × ParentConfig)) :
    List String → List Nat → List Nat → Json → Option (List Nat × List Nat × Json)
  | [], ib, ia, iv => some (ib, ia, iv)
  | a :: rest, ib, ia, iv =>
      match lookupParent parents a with
      | none => none
      | some p =>
          applyInheritsGo fuel parents rest (ib ++ p.before) (ia ++ p.after)
            (deepmergeF fuel iv (if p.validation.truthy then p.validation else .obj []))

/-- `applyInherits` (lines 522–543): prepend the accumulated `before`/`after`
to the route's own (absent lists first defaulted to `[]`) and merge the
accumulated validation *under* the route's validation. -/
def applyInherits (fuel : Nat) (sd : ServerDefaults) (r : RouteRecord) :
    Option RouteRecord := do
  let acc ← applyInheritsGo fuel sd.parents (r.inherits.getD []) [] [] (.obj [])
  some { r with
    before := some (acc.1 ++ r.before.getD []),
    after := some (acc.2.1 ++ r.after.getD []),
    validation := deepmergeF fuel acc.2.2
      (if r.validation.truthy then r.validation else .obj []) }

/-- `tryApplyConfigInherits` (lines 497–516): bare callables pass through;
otherwise a truthy `validation` is merged over the strict default, `inherits`
is applied when present, and when the resulting validation is truthy and
non-empty (`Object.keys(config.validation).length > 0`) the custom types are
resolved (mutating `serverDefaults.validationTypes`, threaded here) and the
validator compiled from the final validation. `compileRouteValidation` is the
final guard-plus-compile step of `tryApplyConfigInherits`. -/
def compileRouteValidation (fuel : Nat) (sd : ServerDefaults) (r2 : RouteRecord) :
    Option (ServerDefaults × RouteConfig) :=
  if r2.validation.truthy && decide (0 < r2.validation.objKeys.length) then
    (applyCustomValidationTypes fuel sd.validationTypes r2.validation).bind fun p =>
      some ({ sd with validationTypes := p.1 },
        .structured { r2 with validation := p.2, validator := some p.2 })
  else some (sd, .structured r2)

def tryApplyConfigInherits (fuel : Nat) (sd : ServerDefaults) (c : RouteConfig) :
    Option (ServerDefaults × RouteConfig) :=
  match c with
  | .bare h => some (sd, .bare h)
  | .structured r =>
      let r1 := if r.validation.truthy then applyValidation fuel r else r
      (match r1.inherits with
        | some _ => applyInherits fuel sd r1
        | none => some r1).bind (compileRouteValidation fuel sd)

/-! ## Claim C1: divergence on a cyclic `validationTypes` mapping -/

/-- The malformed cyclic mapping of the claim:
`{a: {type: 'b'}, b: {type: 'a'}}`. -/
def cyclicTypes : List (String × Json) :=
  [("a", .obj [("type", .str "b")]), ("b", .obj [("type", .str "a")])]

/-- Server defaults carrying the cyclic mapping. -/
def cyclicDefaults : ServerDefaults :=
  { parents := [], validationTypes := .obj cyclicTypes }

/-- A route whose validation uses the custom type `a`. -/
def cyclicRoute : RouteConfig :=
  .structured {
    handler := 0, scope := none, before := none, after := none,
    validation := .obj [("properties", .obj [("m", .obj [("type", .str "a")])])],
    inherits := none, validator := none }

/-! ## Claim C4: concrete custom-type expansion -/

/-- The server defaults of the claim's example:
`validationTypes = {message: {type: 'stringOrNull', maxLength: 100},
stringOrNull: {type: ['string', 'null']}}`. -/
def c4Defaults : ServerDefaults :=
  { parents := [],
    validationTypes := .obj [
      ("message", .obj [("type", .str "stringOrNull"), ("maxLength", .num 100)]),
      ("stringOrNull", .obj [("type", .arr [.str "string", .str "null"])])] }

/-- The route of the claim's example: `validation = {properties: {m: {type:
'message'}}}`. -/
def c4Route : RouteConfig :=
  .structured {
    handler := 0, scope := none, before := none, after := none,
    validation := .obj [("properties", .obj [("m", .obj [("type", .str "message")])])],
    inherits := none, validator := none }

/-! ## Dispatch pipeline (`handleWithOptions`, lines 692–718)

Handlers are identities; their behavior is an environment
`env : handler → scope → data → result`, with `none` standing for a JS
`undefined` result and for an absent/falsy scope (`scope || null`). The claim
concerns dispatches in which no stage throws. -/

/-- One pipeline stage `{handler, scope}`. -/
structure Stage where
  handler : Nat
  scope : Option Nat
deriving Repr, DecidableEq

/-- A structured route config as destructured by `handleWithOptions`:
`validator` is the compiled predicate (absent when the route had no
validation). -/
structure HandlerConfig where
  handler : Nat
  scope : Option Nat
  validator : Option (Option Json → Bool)
  before : Option (List Stage)
  after : Option (List Stage)

/-- Outcome of one dispatch through `handleWithOptions`. -/
inductive DispatchResult where
  | failed400
  | ok (data : Option Json)

/-- One queue iteration: `resultData` replaces the accumulator when it is not
`undefined` **or** the stage's handler is (reference-equal to) the original
handler. -/
def pipelineStep (env : Nat → Option Nat → Option Json → Option Json) (original : Nat)
    (acc : Option Json) (st : Stage) : Option Json :=
  let r := env st.handler st.scope acc
  if r.isSome || st.handler == original then r else acc

/-- `handleWithOptions`: run the validator (a rejection throws
`{code: 400, message: ajv.errorsText(...)}`), build the queue
`[...before, {handler, scope}, ...after]` and fold `pipelineStep` over it
starting from `params`; the final accumulator is the response. -/
def handleWithOptions (env : Nat → Option Nat → Option Json → Option Json)
    (cfg : HandlerConfig) (params : Option Json) : DispatchResult :=
  if (match cfg.validator with
      | some validate => !validate params
      | none => false) then
    .failed400
  else
    .ok ((cfg.before.getD [] ++ [(Stage.mk cfg.handler cfg.scope)] ++
        cfg.after.getD []).foldl
      (pipelineStep env cfg.handler) params)

/-- The claim's description of a pre/post chain: a stage whose result is
`undefined` leaves the accumulator unchanged; any other result replaces it. -/
def chainPass (env : Nat → Option Nat → Option Json → Option Json) :
    List Stage → Option Json → Option Json
  | [], acc => acc
  | st :: rest, acc =>
      chainPass env rest
        (match env st.handler st.scope acc with
          | some v => some v
          | none => acc)

/-! ## The compiled validator (ajv, draft-07 subset)

`compileValidation` stores `ajv.compile(config.validation)`. The claims
exercise the keywords `type`, `required`, `properties`,
`additionalProperties`, `items` and `maxLength`; `validateAjv` implements
exactly their draft-07 semantics (each applies only to instances of its
type: `required`/`properties`/`additionalProperties` only to objects,
`maxLength` only to strings, `items` only to arrays). Keywords outside this
subset are ignored, so the model accepts a superset of what ajv accepts —
sound for the invariant direction, and the concrete schemas evaluated below
use only the modelled keywords. (`useDefaults: true` is irrelevant here: no
schema in the claims carries a `default`.) -/

/-- One draft-07 `type` name against an instance. Unknown names validate
nothing (ajv rejects such a schema at compile time). -/
def typeNameMatches (t : String) (x : Json) : Bool :=
  if t = "object" then (match x with | .obj _ => true | _ => false)
  else if t = "array" then (match x with | .arr _ => true | _ => false)
  else if t = "string" then (match x with | .str _ => true | _ => false)
  else if t = "number" then (match x with | .num _ => true | _ => false)
  else if t = "integer" then (match x with | .num _ => true | _ => false)
  else if t = "boolean" then (match x with | .bool _ => true | _ => false)
  else if t = "null" then (match x with | .null => true | _ => false)
  else false

/-- A schema `type` value: a name or an array of names (`undefined` is
treated as absent by ajv; other shapes are schema compile errors and are not
modelled as constraints). -/
def typeMatches (tv : Json) (x : Json) : Bool :=
  match tv with
  | .str t => typeNameMatches t x
  | .arr ts => ts.any fun t =>
      match t with
      | .str s => typeNameMatches s x
      | _ => false
  | _ => true

/-- The `type` keyword check (`undefined` is treated as absent by ajv). -/
def checkType (schema x : Json) : Bool :=
  match schema.getProp "type" with
  | .undef => true
  | tv => typeMatches tv x

/-- The `required` keyword check: applies only to object instances. -/
def checkRequired (schema x : Json) : Bool :=
  match schema.getProp "required", x with
  | .arr rs, .obj kvs => rs.all fun r =>
      match r with
      | .str s => (Json.lookupField kvs s).isSome
      | _ => true
  | _, _ => true

/-- The `properties` keyword check: each present member with a declared
subschema validates against it (`validate` is the next-level validator). -/
def checkProperties (validate : Json → Json → Bool) (schema x : Json) : Bool :=
  match schema.getProp "properties", x with
  | .obj ps, .obj kvs => kvs.all fun kv =>
      match Json.lookupField ps kv.1 with
      | some sub => validate sub kv.2
      | none => true
  | _, _ => true

/-- The `additionalProperties` keyword check: `false` bans every key not
declared under `properties`; a subschema validates the undeclared members
(`patternProperties` is not modelled — no claim uses it). -/
def checkAdditional (validate : Json → Json → Bool) (schema x : Json) : Bool :=
  match schema.getProp "additionalProperties", x with
  | .bool false, .obj kvs => kvs.all fun kv =>
      match schema.getProp "properties" with
      | .obj ps => (Json.lookupField ps kv.1).isSome
      | _ => false
  | .obj aps, .obj kvs => kvs.all fun kv =>
      (match schema.getProp "properties" with
        | .obj ps => (Json.lookupField ps kv.1).isSome
        | _ => false) || validate (.obj aps) kv.2
  | _, _ => true

/-- The `maxLength` keyword check: applies only to string instances (counted
in code points, as ajv does). -/
def checkMaxLength (schema x : Json) : Bool :=
  match schema.getProp "maxLength", x with
  | .num mx, .str s => decide ((s.length : Int) ≤ mx)
  | _, _ => true

/-- The `items` keyword check: one schema for every member, or a tuple of
positional schemas (extra members unconstrained). -/
def checkItems (validate : Json → Json → Bool) (schema x : Json) : Bool :=
  match schema.getProp "items", x with
  | .obj sub, .arr xs => xs.all fun it => validate (.obj sub) it
  | .arr subs, .arr xs => (List.zip subs xs).all fun p => validate p.1 p.2
  | _, _ => true

/-- The compiled validator on the modelled keyword subset. Fuel bounds the
schema nesting (out of fuel accepts; every lemma supplies at least one
level). -/
def validateAjv : Nat → Json → Json → Bool
  | 0, _, _ => true
  | fuel + 1, schema, x =>
      checkType schema x && checkRequired schema x &&
      checkProperties (fun a b => validateAjv fuel a b) schema x &&
      checkAdditional (fun a b => validateAjv fuel a b) schema x &&
      checkMaxLength schema x &&
      checkItems (fun a b => validateAjv fuel a b) schema x

/-- The parent config `auth` of the claim C2 counterexample. -/
def c2AuthParent : ParentConfig :=
  { before := [], after := [],
    validation := .obj [("required", .arr [.str "secret"]),
      ("properties", .obj [("secret", .obj [("type", .str "string")])])] }

/-- The server defaults of the claim C2 counterexample: one parent `auth`
contributing validation, no custom types. -/
def c2Defaults : ServerDefaults :=
  { parents := [("auth", c2AuthParent)], validationTypes := .undef }

/-- A route with *no* validation of its own that inherits `auth`. -/
def c2RouteRecord : RouteRecord :=
  { handler := 0, scope := none, before := none, after := none,
    validation := .undef, inherits := some ["auth"], validator := none }

/-- The route config of the claim C2 counterexample. -/
def c2Route : RouteConfig := .structured c2RouteRecord

/-- The schema the counterexample route compiles to. -/
def c2CompiledSchema : Json :=
  .obj [("required", .arr [.str "secret"]),
    ("properties", .obj [("secret", .obj [("type", .str "string")])])]

/-! ## Well-formedness predicates for claim C8

Recompilation is a fixed point only on well-formed inputs: JS objects have
unique keys at every nesting level, and a `type` value never nests an array
inside the type array (the source flattens such a member on the first pass
and dedups it differently on the second). `deepWFF` checks this to a given
depth (a fuel, so concrete instances evaluate by `decide`); the proposition
`DeepOK` closes over the depth. -/

/-- The value is not a JS array. -/
def jsonNonArr : Json → Bool
  | .arr _ => false
  | _ => true

/-- A `type` value whose array members are themselves non-arrays (a nested
array would be flattened by the splice of the resolution loop). -/
def typeMembersNonArr : Json → Bool
  | .arr xs => xs.all jsonNonArr
  | _ => true

/-- Well-formed JS value up to the given depth: every object has unique keys
and a `type` field without nested-array members; depth `0` accepts
nothing. -/
def deepWFF : Nat → Json → Bool
  | 0, _ => false
  | fuel + 1, v =>
      match v with
      | .obj fs =>
          decide ((fs.map Prod.fst).Nodup) &&
            typeMembersNonArr ((Json.obj fs).getProp "type") &&
            fs.all (fun kv => deepWFF fuel kv.2)
      | .arr xs => xs.all (fun x => deepWFF fuel x)
      | _ => true

/-- Well-formed at some depth. -/
def DeepOK (v : Json) : Prop := ∃ f, deepWFF f v = true

/-- A custom type's `type` value as the resolution loop may splice it: either
a scalar, or a *nonempty* array of non-array members (an empty member list
would make the splice skip the next member of the definition being
resolved). -/
def typeFieldOk : Json → Bool
  | .arr xs => !xs.isEmpty && xs.all jsonNonArr
  | _ => true

/-- A well-formed `validationTypes` map: every value is an object whose
`type` field is `typeFieldOk` and which is well-formed to depth `W`. -/
def typesOkB (W : Nat) (tys : List (String × Json)) : Bool :=
  tys.all fun kv =>
    match kv.2 with
    | .obj fs =>
        typeFieldOk ((Json.obj fs).getProp "type") && deepWFF W (Json.obj fs)
    | _ => false

/-- The propositional form of `typesOkB`, closed over the depth. -/
def TypesOkP (m : List (String × Json)) : Prop :=
  ∀ kv ∈ m, (∃ fs, kv.2 = Json.obj fs) ∧
    typeFieldOk (kv.2.getProp "type") = true ∧ DeepOK kv.2

/-- A `type` value the resolution leaves unchanged with respect to the key
set `ks` of the map: no member (after wrapping) names a key, and an array
value is already deduplicated and not single-membered. -/
def typeValueFixed (ks : List String) (t : Json) : Prop :=
  (∀ e ∈ wrapTypeList t, jsPropKey e ∉ ks) ∧
  (∀ xs, t = .arr xs → dedupSVZ xs = xs ∧ xs.length ≠ 1)

/-- A node `resolveValidationType` maps to itself (up to fuel): an object
carrying a `type` binding that is fixed for the key set `ks`. -/
def ResolvedVal (ks : List String) (tc : Json) : Prop :=
  ∃ fs T, tc = Json.obj fs ∧ Json.lookupField fs "type" = some T ∧
    typeValueFixed ks T

/-- The parent of the claim C8 counterexample: one `before` stage. -/
def c8Parent : ParentConfig :=
  { before := [7], after := [], validation := .undef }

/-- Server defaults for the claim C8 counterexample. -/
def c8Defaults : ServerDefaults :=
  { parents := [("p", c8Parent)], validationTypes := .undef }

/-- A route that inherits `p` and has no validation of its own. -/
def c8RouteRecord : RouteRecord :=
  { handler := 0, scope := none, before := none, after := none,
    validation := .undef, inherits := some ["p"], validator := none }

/-- The route config of the claim C8 counterexample. -/
def c8Route : RouteConfig := .structured c8RouteRecord

/-- Server defaults of the claim C8 witness: one custom type `message`. -/
def c8WDefaults : ServerDefaults :=
  { parents := [],
    validationTypes := .obj [("message", .obj [("type", .str "string")])] }

/-- Route of the claim C8 witness: no `inherits`, one property of the custom
type `message`. -/
def c8WRoute : RouteRecord :=
  { handler := 0, scope := none, before := none, after := none,
    validation := .obj [("properties", .obj [("m", .obj [("type", .str "message")])])],
    inherits := none, validator := none }

/-- The compiled validation of the claim C8 witness route: merged over the
strict-object default, custom type resolved. -/
def c8WValidationOut : Json :=
  .obj [("type", .str "object"), ("additionalProperties", .bool false),
    ("properties", .obj [("m", .obj [("type", .str "string")])])]

/-- The compiled route config of the claim C8 witness. -/
def c8WConfigOut : RouteConfig :=
  .structured
    { handler := 0, scope := none, before := none, after := none,
      validation := c8WValidationOut, inherits := none,
      validator := some c8WValidationOut }

/-! ## Theorems -/

/-! ## Theorems for claims C6, C7, C9, C10 -/

/-- Claim C6 counterexample: the thrown value `{code: 0, message: "boom"}` is a
plain record (not an `Error` instance) with a numeric `code` and a string
`message`, and it is not `ECONNREFUSED`; the claim says the callback receives
it verbatim, but `handleHandlerError` replies with the empty object because
the truthiness test `error.code && error.message` fails on `code === 0`. -/
theorem c6_counterexample :
    handleHandlerError ⟨none, false, [("code", .num 0), ("message", .str "boom")]⟩ =
        .emptyObject ∧
      handleHandlerError ⟨none, false, [("code", .num 0), ("message", .str "boom")]⟩ ≠
        .deliveredAsIs :=
  ⟨rfl, by decide⟩

/-- Claim C6 (amended): for every thrown value that is not one of the
well-known runtime error kinds: `code === 'ECONNREFUSED'` yields the
`{code: 1001, message: 'Internal server error'}` reply; otherwise a value that
is not an `Error` instance and whose `code` and `message` fields are both
*truthy* (not merely numeric/string — `0` and `""` fall through) is delivered
verbatim; in every remaining case the callback receives an empty object. -/
theorem c6_error_classification (e : ThrownValue) (h : e.runtimeKind = none) :
    (strictEqStr (e.getField "code") "ECONNREFUSED" = true →
        handleHandlerError e = .internalServer1001) ∧
    (strictEqStr (e.getField "code") "ECONNREFUSED" = false →
        e.isErrorInstance = false →
        (e.getField "code").truthy = true →
        (e.getField "message").truthy = true →
        handleHandlerError e = .deliveredAsIs) ∧
    (strictEqStr (e.getField "code") "ECONNREFUSED" = false →
        (e.isErrorInstance = true ∨ (e.getField "code").truthy = false ∨
          (e.getField "message").truthy = false) →
        handleHandlerError e = .emptyObject) := by
  refine ⟨fun h1 => ?_, fun h1 h2 h3 h4 => ?_, fun h1 h2 => ?_⟩
  · simp [handleHandlerError, h, h1]
  · simp [handleHandlerError, h, h1, h2, h3, h4]
  · rcases h2 with h2 | h2 | h2 <;> simp [handleHandlerError, h, h1, h2]

/-- Witness for `c6_error_classification` at the concrete thrown value
`{code: 404, message: "nope"}` (plain record, truthy fields): delivered
verbatim. -/
theorem c6_error_classification_witness :
    handleHandlerError ⟨none, false, [("code", .num 404), ("message", .str "nope")]⟩ =
      .deliveredAsIs :=
  (c6_error_classification ⟨none, false, [("code", .num 404), ("message", .str "nope")]⟩
    rfl).2.1 rfl rfl rfl rfl

/-- Claim C7 counterexample: `callService` with an array or with `null` as
`params` is *not* rejected with the 500 error (contrary to the claim, which
says every array and every primitive including `null` is rejected):
`typeof` of an array and of `null` is `"object"`, so the request proceeds
to `sendTo`. -/
theorem c7_counterexample :
    callServiceParamsGate (Json.arr []) = .sentToRemote ∧
      callServiceParamsGate Json.null = .sentToRemote :=
  ⟨rfl, rfl⟩

/-- Claim C7 (amended): `callService` rejects with
`{code: 500, message: 'Critical internal error'}`, without sending anything,
exactly when `typeof params !== 'object'`: strings, numbers, booleans and
`undefined` are rejected; `null`, arrays and JSON objects all pass the gate
and are sent to the remote service. -/
theorem c7_params_typeof_gate (p : Json) :
    callServiceParamsGate p = .rejected500 ↔
      ((∃ s, p = Json.str s) ∨ (∃ n, p = Json.num n) ∨
        (∃ b, p = Json.bool b) ∨ p = Json.undef) := by
  cases p <;> simp [callServiceParamsGate, Json.jsTypeof]

/-- Claim C9: one call to `stopNested` on a freshly registered child list
awaits `stop` of exactly the children not marked `done`, in reverse
registration order; with distinct children none is stopped twice; and
`startNested` awaits `start` in registration order. -/
theorem c9_stop_reverse_skip_done_start_forward (l : List Child)
    (hnd : (l.map Child.id).Nodup) :
    (stopNested ⟨l⟩).1 = ((l.reverse).filter (fun c => !c.done)).map Child.id ∧
    (stopNested ⟨l⟩).1.Nodup ∧
    (startNested ⟨l⟩).1 = l.map Child.id := by
  refine ⟨rfl, ?_, rfl⟩
  have hrev : (l.reverse.map Child.id).Nodup := by
    rw [List.map_reverse]
    exact List.nodup_reverse.mpr hnd
  have hsub : ((l.reverse.filter (fun c => !c.done)).map Child.id).Sublist
      (l.reverse.map Child.id) :=
    (List.filter_sublist _).map Child.id
  exact hrev.sublist hsub

/-- Witness for `c9_stop_reverse_skip_done_start_forward` on three children
`1, 2, 3` registered in order with child `2` marked `done`: `stopNested`
awaits `stop` for `3` then `1`; `startNested` awaits `start` for `1, 2, 3`. -/
theorem c9_stop_reverse_skip_done_start_forward_witness :
    (stopNested ⟨[⟨1, false⟩, ⟨2, true⟩, ⟨3, false⟩]⟩).1 = [3, 1] ∧
      (startNested ⟨[⟨1, false⟩, ⟨2, true⟩, ⟨3, false⟩]⟩).1 = [1, 2, 3] := by
  have h := c9_stop_reverse_skip_done_start_forward
    [⟨1, false⟩, ⟨2, true⟩, ⟨3, false⟩] (by decide)
  exact ⟨h.1.trans (by decide), h.2.2.trans (by decide)⟩

/-- Claim C10: `stopNested` permanently reverses the stored child list in
place, so after one `stopNested` a `startNested` starts the children in
reverse registration order and a second `stopNested` stops them (the ones not
`done`) in the *original* registration order, while `addNested` appends and
`startNested` never changes the stored order. -/
theorem c10_stopNested_reverses_in_place (l cs : List Child) :
    (stopNested ⟨l⟩).2 = ⟨l.reverse⟩ ∧
    (startNested (stopNested ⟨l⟩).2).1 = (l.reverse).map Child.id ∧
    (stopNested (stopNested ⟨l⟩).2).1 = (l.filter (fun c => !c.done)).map Child.id ∧
    (addNested ⟨l⟩ cs).nested = l ++ cs ∧
    (startNested ⟨l⟩).2 = ⟨l⟩ := by
  refine ⟨rfl, rfl, ?_, rfl, rfl⟩
  simp [stopNested]

/-! ## Field-update lemmas -/

theorem Json.lookupField_setField (fs : List (String × Json)) (k k' : String) (v : Json) :
    Json.lookupField (Json.setField fs k v) k' =
      if k = k' then some v else Json.lookupField fs k' := by
  induction fs with
  | nil => by_cases h : k = k' <;> simp [Json.setField, Json.lookupField, h]
  | cons kv rest ih =>
      obtain ⟨a, w⟩ := kv
      by_cases hak : a = k
      · subst hak
        by_cases hk' : a = k' <;> simp [Json.setField, Json.lookupField, hk']
      · by_cases hak' : a = k'
        · subst hak'
          simp [Json.setField, Json.lookupField, hak, Ne.symm hak]
        · simp [Json.setField, Json.lookupField, hak, hak', ih]

theorem Json.getProp_setProp_ne (j : Json) (k k' : String) (v : Json) (h : k ≠ k') :
    (j.setProp k v).getProp k' = j.getProp k' := by
  cases j <;> simp [Json.setProp, Json.getProp, Json.lookupField_setField, h]

theorem Json.getProp_setProp_self (fs : List (String × Json)) (k : String) (v : Json) :
    ((Json.obj fs).setProp k v).getProp k = v := by
  simp [Json.setProp, Json.getProp, Json.lookupField_setField]

/-- A `mergeTypeValidationProperties` iteration at one key leaves every other
key of the node unchanged. -/
theorem mergeTypeStep_getProp_ne (fuel : Nat) (tc : Json) (kv : String × Json) (k : String)
    (h : kv.1 ≠ k) : (mergeTypeStep fuel tc kv).getProp k = tc.getProp k := by
  unfold mergeTypeStep
  split_ifs <;> simp [Json.getProp_setProp_ne _ _ _ _ h]

/-- A `mergeTypeValidationProperties` iteration keeps the node an object and
every key the iteration does not own. -/
theorem mergeTypeStep_obj (fuel : Nat) (tfs : List (String × Json)) (kv : String × Json) :
    ∃ tfs', mergeTypeStep fuel (.obj tfs) kv = .obj tfs' := by
  unfold mergeTypeStep
  split_ifs <;> exact ⟨_, rfl⟩

/-- Keys of the custom type not mentioning `k` leave the node's `k` alone. -/
theorem mergeTypeLoop_getProp_notmem (fuel : Nat) (cfs : List (String × Json)) (tc : Json)
    (k : String) (h : k ∉ cfs.map Prod.fst) :
    (mergeTypeLoop fuel cfs tc).getProp k = tc.getProp k := by
  induction cfs generalizing tc with
  | nil => rfl
  | cons kv rest ih =>
      rw [List.map_cons, List.mem_cons] at h
      push_neg at h
      rw [mergeTypeLoop, ih _ h.2, mergeTypeStep_getProp_ne _ _ _ _ (Ne.symm h.1)]

/-- The per-key description of the `mergeTypeValidationProperties` loop. -/
theorem mergeTypeLoop_getProp (fuel : Nat) (k : String) (hk : k ≠ "type")
    (cfs : List (String × Json)) (tfs : List (String × Json))
    (hnd : (cfs.map Prod.fst).Nodup) :
    (mergeTypeLoop fuel cfs (.obj tfs)).getProp k =
      match Json.lookupField cfs k with
      | none => (Json.obj tfs).getProp k
      | some cv =>
          if !((Json.obj tfs).getProp k).truthy then cv
          else if ((Json.obj tfs).getProp k).jsTypeof = "object" then
            deepmergeF fuel cv ((Json.obj tfs).getProp k)
          else (Json.obj tfs).getProp k := by
  induction cfs generalizing tfs with
  | nil => rfl
  | cons kv rest ih =>
      obtain ⟨a, cv⟩ := kv
      rw [List.map_cons, List.nodup_cons] at hnd
      by_cases hak : a = k
      · subst hak
        have hrest : a ∉ rest.map Prod.fst := hnd.1
        rw [mergeTypeLoop]
        have hstep : mergeTypeStep fuel (.obj tfs) (a, cv) =
            if !((Json.obj tfs).getProp a).truthy then (Json.obj tfs).setProp a cv
            else if ((Json.obj tfs).getProp a).jsTypeof = "object" then
              (Json.obj tfs).setProp a (deepmergeF fuel cv ((Json.obj tfs).getProp a))
            else (Json.obj tfs) := by
          unfold mergeTypeStep
          rw [if_neg hk]
        rw [hstep]
        split_ifs with h1 h2
        · rw [mergeTypeLoop_getProp_notmem fuel rest _ _ hrest]
          simp [Json.lookupField, Json.getProp_setProp_self, h1]
        · rw [mergeTypeLoop_getProp_notmem fuel rest _ _ hrest]
          simp [Json.lookupField, Json.getProp_setProp_self, h1, h2]
        · rw [mergeTypeLoop_getProp_notmem fuel rest _ _ hrest]
          simp [Json.lookupField, h1, h2]
      · rw [mergeTypeLoop]
        obtain ⟨tfs', hstepObj⟩ := mergeTypeStep_obj fuel tfs (a, cv)
        have hpres : (Json.obj tfs').getProp k = (Json.obj tfs).getProp k := by
          rw [← hstepObj]
          exact mergeTypeStep_getProp_ne fuel _ (a, cv) k hak
        rw [hstepObj, ih tfs' hnd.2]
        simp [Json.lookupField, hak, hpres]

/-- Claim C3 counterexample: the node `{type: 'x', minimum: 0}` *does* define
the keyword `minimum` (with the non-object value `0`), yet substituting the
custom type `{type: 'number', minimum: 5}` overwrites it with `5`, because the
source's guard is JS truthiness (`!typeConfig[key]`), not definedness. -/
theorem c3_counterexample :
    mergeTypeValidationProperties 5
        (.obj [("type", .str "number"), ("minimum", .num 5)])
        (.obj [("type", .str "x"), ("minimum", .num 0)]) =
      .obj [("type", .str "x"), ("minimum", .num 5)] := rfl

/-- Claim C3 (amended): during custom-type substitution, for every sibling
keyword `k ≠ type` of the custom type: the custom value is copied into the
node exactly when the node's current value for `k` is *falsy* (absent, or a
defined `false`/`0`/`""`/`null`); when the node's value is truthy of JS object
type the custom value is deep-merged under it; a keyword the node defines with
a *truthy* non-object value is never overwritten. -/
theorem c3_merge_sibling_semantics (fuel : Nat) (cfs tfs : List (String × Json))
    (hnd : (cfs.map Prod.fst).Nodup) (k : String) (hk : k ≠ "type") :
    (mergeTypeValidationProperties fuel (.obj cfs) (.obj tfs)).getProp k =
      match Json.lookupField cfs k with
      | none => (Json.obj tfs).getProp k
      | some cv =>
          if !((Json.obj tfs).getProp k).truthy then cv
          else if ((Json.obj tfs).getProp k).jsTypeof = "object" then
            deepmergeF fuel cv ((Json.obj tfs).getProp k)
          else (Json.obj tfs).getProp k :=
  mergeTypeLoop_getProp fuel k hk cfs tfs hnd

/-- Witness for `c3_merge_sibling_semantics`: with custom type
`{type: 'number', maxLength: 100}` and node `{type: 'msg', note: 'n'}`, the
absent keyword `maxLength` is copied (value `100`) and the truthy non-object
keyword `note` of the node survives substitution (the custom type does not
define it). -/
theorem c3_merge_sibling_witness :
    (mergeTypeValidationProperties 5
        (.obj [("type", .str "number"), ("maxLength", .num 100)])
        (.obj [("type", .str "msg"), ("note", .str "n")])).getProp "maxLength" = .num 100 :=
  (c3_merge_sibling_semantics 5
      [("type", .str "number"), ("maxLength", .num 100)]
      [("type", .str "msg"), ("note", .str "n")]
      (by decide) "maxLength" (by decide)).trans rfl

/-- On the cyclic mapping the resolution loop flips a one-member definition
between `['a']` and `['b']` forever (each substitution still names a custom
type, so the index is rewound every time); whatever the fuel, it runs out. -/
theorem cyclic_loop_diverges (fuel : Nat) (tc : Json) :
    resolveValidationTypeForDefinition cyclicTypes fuel tc [.str "a"] 0 = none ∧
    resolveValidationTypeForDefinition cyclicTypes fuel tc [.str "b"] 0 = none := by
  induction fuel generalizing tc with
  | zero => exact ⟨rfl, rfl⟩
  | succ n ih => exact ⟨(ih tc).2, (ih tc).1⟩

/-- Divergence propagates through `resolveValidationType` for the definition
of type `a` (whose `type` member is `'b'`). -/
theorem cyclic_resolveValidationType_diverges (fuel : Nat) :
    resolveValidationType cyclicTypes fuel (.obj [("type", .str "b")]) = none := by
  show (resolveValidationTypeForDefinition cyclicTypes fuel (.obj [("type", .str "b")])
      [.str "b"] 0).bind finishResolveValidationType = none
  rw [(cyclic_loop_diverges fuel _).2]
  rfl

/-- `resolveCustomInnerTypes` diverges on the cyclic mapping: it hangs while
resolving the very first definition. -/
theorem cyclic_inner_types_diverges (fuel : Nat) :
    resolveCustomInnerTypes fuel cyclicTypes = none := by
  have h := cyclic_resolveValidationType_diverges fuel
  simp [resolveCustomInnerTypes, resolveCustomInnerTypesGo, cyclicTypes,
    Json.lookupField] at h ⊢
  simp [h]

/-- `applyCustomValidationTypes` diverges on the cyclic mapping for every
route validation. -/
theorem cyclic_acvt_diverges (fuel : Nat) (v : Json) :
    applyCustomValidationTypes fuel (.obj cyclicTypes) v = none := by
  have h := cyclic_inner_types_diverges fuel
  simp [applyCustomValidationTypes, Json.truthy, h]

/-- Claim C1: the claim says custom-type resolution terminates for every
`validationTypes` mapping, the re-resolutions being bounded, with the residual
name left in place on overflow — in particular that compiling a route using
type `a` under the cyclic mapping `{a: {type: 'b'}, b: {type: 'a'}}` still
terminates. The code has no such bound: `resolveValidationTypeForDefinition`
rewinds its index unconditionally whenever the substituted member still names
a custom type, so on this mapping route compilation diverges — for *every*
fuel the model returns `none` (the fuel is exhausted), never a compiled
route. -/
theorem c1_cycle_resolution_diverges (fuel : Nat) :
    tryApplyConfigInherits fuel cyclicDefaults cyclicRoute = none := by
  cases fuel with
  | zero => rfl
  | succ n =>
      have h := cyclic_acvt_diverges (n + 1)
      simp [tryApplyConfigInherits, cyclicRoute, cyclicDefaults, applyValidation,
        getDefaultValidationInherits, deepmergeF, mergeObjectStep, Json.truthy,
        compileRouteValidation, Json.jsFields, Json.hasKey, Json.lookupField,
        Json.isMergeable, Json.setField, Json.objKeys, h]

/-- Claim C4: compiling the example route rewrites the schema node at `m` to
exactly `{type: ['string', 'null'], maxLength: 100}` — `message` resolved
through `stringOrNull`, the sibling keyword `maxLength` merged in, and the
type array deduplicated and kept as a (two-member) array. -/
theorem c4_custom_type_expansion :
    (tryApplyConfigInherits 10 c4Defaults c4Route).map
        (fun p => match p.2 with
          | .structured r => (r.validation.getProp "properties").getProp "m"
          | .bare _ => .undef) =
      some (.obj [("type", .arr [.str "string", .str "null"]), ("maxLength", .num 100)]) := rfl

/-- On a chain none of whose stages aliases the original handler, the queue
fold is exactly the pass-through chain. -/
theorem foldl_pipelineStep_eq_chainPass
    (env : Nat → Option Nat → Option Json → Option Json) (original : Nat) :
    ∀ (stages : List Stage) (acc : Option Json),
      (∀ st ∈ stages, st.handler ≠ original) →
      stages.foldl (pipelineStep env original) acc = chainPass env stages acc
  | [], acc, _ => rfl
  | st :: rest, acc, h => by
      have hst : st.handler ≠ original := h st (List.mem_cons_self st rest)
      have hstep : pipelineStep env original acc st =
          (match env st.handler st.scope acc with
            | some v => some v
            | none => acc) := by
        unfold pipelineStep
        rcases hr : env st.handler st.scope acc with _ | v <;>
          simp [hr, Nat.beq_eq_true_eq, hst]
      rw [List.foldl_cons, hstep, chainPass]
      exact foldl_pipelineStep_eq_chainPass env original rest _
        (fun s hs => h s (List.mem_cons_of_mem st hs))

/-- Claim C5: for a dispatch of a structured route that passes validation
(and in which no before/after stage aliases the original handler function —
the source distinguishes the original by reference equality), the response is
obtained by running the before-chain as a pass-through fold on `params`, then
the original handler — whose result *always* replaces the accumulator, even
`undefined` — then the after-chain as a pass-through fold; the final
accumulator is the response. -/
theorem c5_pipeline_order (env : Nat → Option Nat → Option Json → Option Json)
    (cfg : HandlerConfig) (params : Option Json)
    (hval : ∀ validate, cfg.validator = some validate → validate params = true)
    (hno : ∀ st ∈ cfg.before.getD [] ++ cfg.after.getD [], st.handler ≠ cfg.handler) :
    handleWithOptions env cfg params =
      .ok (chainPass env (cfg.after.getD [])
        (env cfg.handler cfg.scope (chainPass env (cfg.before.getD []) params))) := by
  have hb : ∀ st ∈ cfg.before.getD [], st.handler ≠ cfg.handler :=
    fun st hs => hno st (List.mem_append_left _ hs)
  have ha : ∀ st ∈ cfg.after.getD [], st.handler ≠ cfg.handler :=
    fun st hs => hno st (List.mem_append_right _ hs)
  have hcond : (match cfg.validator with
      | some validate => !validate params
      | none => false) = false := by
    rcases hv : cfg.validator with _ | validate
    · rfl
    · simp [hval validate hv]
  unfold handleWithOptions
  rw [hcond]
  simp only [Bool.false_eq_true, if_false]
  rw [List.foldl_append, List.foldl_append,
    foldl_pipelineStep_eq_chainPass env cfg.handler _ params hb]
  congr 1
  have horig : ∀ acc, List.foldl (pipelineStep env cfg.handler) acc [⟨cfg.handler, cfg.scope⟩] =
      env cfg.handler cfg.scope acc := by
    intro acc
    simp [pipelineStep]
  rw [horig]
  exact foldl_pipelineStep_eq_chainPass env cfg.handler _ _ ha

/-- Witness for `c5_pipeline_order`: before-stage `1` returns `undefined`
(pass-through), the original handler `0` returns `7`, after-stage `2` returns
`undefined` (pass-through): the response is `7`. -/
theorem c5_pipeline_order_witness :
    handleWithOptions (fun h _ _ => if h = 0 then some (.num 7) else none)
      { handler := 0, scope := none, validator := some (fun _ => true),
        before := some [⟨1, none⟩], after := some [⟨2, none⟩] }
      (some (.obj [])) = .ok (some (.num 7)) :=
  (c5_pipeline_order (fun h _ _ => if h = 0 then some (.num 7) else none)
    { handler := 0, scope := none, validator := some (fun _ => true),
      before := some [⟨1, none⟩], after := some [⟨2, none⟩] }
    (some (.obj []))
    (fun validate hv => by cases hv; rfl)
    (by decide)).trans rfl

/-! ## Lookup and key-set lemmas for `deepmerge`'s object fold -/

/-- A key not named by any source field keeps its destination binding through
the `mergeObject` fold. -/
theorem mergeObjectFold_lookup_notmem (m : Json → Json → Json) (t : Json) (k : String) :
    ∀ (src d : List (String × Json)), k ∉ src.map Prod.fst →
      Json.lookupField (src.foldl (mergeObjectStep m t) d) k = Json.lookupField d k
  | [], _, _ => rfl
  | kv :: rest, d, h => by
      rw [List.map_cons, List.mem_cons] at h
      push_neg at h
      rw [List.foldl_cons,
        mergeObjectFold_lookup_notmem m t k rest _ h.2]
      unfold mergeObjectStep
      split_ifs <;> rw [Json.lookupField_setField] <;> simp [h.1, Ne.symm h.1]

/-- The binding a key receives from the `mergeObject` fold: its (unique)
source value, merged recursively when the key is on the target and the value
is mergeable; keys without a source binding keep the destination's. -/
theorem mergeObjectFold_lookup (m : Json → Json → Json) (t : Json) (k : String) :
    ∀ (src d : List (String × Json)), (src.map Prod.fst).Nodup →
      Json.lookupField (src.foldl (mergeObjectStep m t) d) k =
        match Json.lookupField src k with
        | some v => some (if t.hasKey k && v.isMergeable then m (t.getProp k) v else v)
        | none => Json.lookupField d k
  | [], _, _ => rfl
  | (a, v) :: rest, d, hnd => by
      rw [List.map_cons, List.nodup_cons] at hnd
      by_cases hak : a = k
      · subst hak
        rw [List.foldl_cons, mergeObjectFold_lookup_notmem m t a rest _ hnd.1]
        have hv : Json.lookupField ((a, v) :: rest) a = some v := by
          simp [Json.lookupField]
        rw [hv]
        unfold mergeObjectStep
        split_ifs with hc
        · rw [Json.lookupField_setField, if_pos rfl]
          simp only at hc
          simp [hc]
        · rw [Json.lookupField_setField, if_pos rfl]
          simp only at hc
          have hcf : (t.hasKey a && v.isMergeable) = false := by
            revert hc
            cases t.hasKey a && v.isMergeable <;> simp
          simp [hcf]
      · rw [List.foldl_cons, mergeObjectFold_lookup m t k rest _ hnd.2]
        have hv : Json.lookupField ((a, v) :: rest) k = Json.lookupField rest k := by
          simp [Json.lookupField, hak]
        rw [hv]
        rcases hr : Json.lookupField rest k with _ | w
        · simp only [hr]
          unfold mergeObjectStep
          split_ifs <;> rw [Json.lookupField_setField] <;> simp [hak]
        · simp [hr]

/-- `setField` can only introduce the written key. -/
theorem keys_setField_subset (fs : List (String × Json)) (k : String) (v : Json) :
    ∀ x ∈ (Json.setField fs k v).map Prod.fst, x ∈ fs.map Prod.fst ∨ x = k := by
  induction fs with
  | nil => simp [Json.setField]
  | cons kv rest ih =>
      obtain ⟨a, w⟩ := kv
      by_cases hak : a = k
      · subst hak
        rw [Json.setField, if_pos rfl]
        intro x hx
        exact Or.inl hx
      · intro x hx
        simp only [Json.setField, if_neg hak, List.map_cons, List.mem_cons] at hx
        rcases hx with hx | hx
        · exact Or.inl (by simp [hx])
        · rcases ih x hx with h | h
          · exact Or.inl (by simp [h])
          · exact Or.inr h

/-- `setField` preserves key uniqueness. -/
theorem keys_setField_nodup (fs : List (String × Json)) (k : String) (v : Json)
    (h : (fs.map Prod.fst).Nodup) : ((Json.setField fs k v).map Prod.fst).Nodup := by
  induction fs with
  | nil => simp [Json.setField]
  | cons kv rest ih =>
      obtain ⟨a, w⟩ := kv
      rw [List.map_cons, List.nodup_cons] at h
      by_cases hak : a = k
      · subst hak
        simpa [Json.setField, List.nodup_cons] using h
      · rw [Json.setField, if_neg hak, List.map_cons, List.nodup_cons]
        refine ⟨fun hmem => ?_, ih h.2⟩
        rcases keys_setField_subset rest k v a hmem with hz | hz
        · exact h.1 hz
        · exact hak hz

/-- The `mergeObject` fold preserves key uniqueness of the destination. -/
theorem mergeObjectFold_nodup (m : Json → Json → Json) (t : Json) :
    ∀ (src d : List (String × Json)), (d.map Prod.fst).Nodup →
      ((src.foldl (mergeObjectStep m t) d).map Prod.fst).Nodup
  | [], _, hd => hd
  | kv :: rest, d, hd => by
      rw [List.foldl_cons]
      refine mergeObjectFold_nodup m t rest _ ?_
      unfold mergeObjectStep
      split_ifs <;> exact keys_setField_nodup _ _ _ hd

/-- A schema carrying `type: 'object'` and `additionalProperties: false`
accepts only objects all of whose keys are declared under `properties`. -/
theorem validateAjv_strict_object (g : Nat) (S x : Json)
    (ht : S.getProp "type" = .str "object")
    (ha : S.getProp "additionalProperties" = .bool false)
    (h : validateAjv (g + 1) S x = true) :
    ∃ kvs, x = .obj kvs ∧ ∀ kv ∈ kvs,
      (match S.getProp "properties" with
        | .obj ps => (Json.lookupField ps kv.1).isSome
        | _ => false) = true := by
  unfold validateAjv at h
  simp only [Bool.and_eq_true] at h
  have hty : typeMatches (.str "object") x = true := by
    have := h.1.1.1.1.1
    unfold checkType at this
    rw [ht] at this
    exact this
  obtain ⟨kvs, rfl⟩ : ∃ kvs, x = .obj kvs := by
    cases x <;> simp [typeMatches, typeNameMatches] at hty <;> exact ⟨_, rfl⟩
  refine ⟨kvs, rfl, ?_⟩
  have hap := h.1.1.2
  unfold checkAdditional at hap
  rw [ha] at hap
  simpa [List.all_eq_true] using hap

/-! ## The walker only touches the five collection keys -/

/-- `processValidationInner` returns the node unchanged or with the processed
key rebound. -/
theorem processValidationInner_shape (r1 wc : Json → Option Json) (v v' : Json)
    (key : String) (h : processValidationInner r1 wc v key = some v') :
    v' = v ∨ ∃ w, v' = v.setProp key w := by
  unfold processValidationInner at h
  split_ifs at h
  · rcases hp : processInnerValue r1 wc (v.getProp key) with _ | upd
    · rw [hp] at h
      cases h
    · rw [hp] at h
      cases upd with
      | some w => exact Or.inr ⟨w, (Option.some.inj h).symm⟩
      | none => exact Or.inl (Option.some.inj h).symm
  · exact Or.inl (Option.some.inj h).symm

/-- `processValidationItems` returns the node unchanged or with `items`
rebound. -/
theorem processValidationItems_shape (r1 wc : Json → Option Json) (v v' : Json)
    (h : processValidationItems r1 wc v = some v') :
    v' = v ∨ ∃ w, v' = v.setProp "items" w := by
  unfold processValidationItems at h
  split_ifs at h
  · rcases hp : processItemsValue r1 wc (v.getProp "items") with _ | w
    · rw [hp] at h
      cases h
    · rw [hp] at h
      exact Or.inr ⟨w, (Option.some.inj h).symm⟩
  · exact Or.inl (Option.some.inj h).symm

/-- Keys other than the processed one are untouched by
`processValidationInner`. -/
theorem processValidationInner_getProp_ne (r1 wc : Json → Option Json) (v v' : Json)
    (key k : String) (hk : key ≠ k) (h : processValidationInner r1 wc v key = some v') :
    v'.getProp k = v.getProp k := by
  rcases processValidationInner_shape r1 wc v v' key h with rfl | ⟨w, rfl⟩
  · rfl
  · exact Json.getProp_setProp_ne v key k w hk

/-- Keys other than `items` are untouched by `processValidationItems`. -/
theorem processValidationItems_getProp_ne (r1 wc : Json → Option Json) (v v' : Json)
    (k : String) (hk : "items" ≠ k) (h : processValidationItems r1 wc v = some v') :
    v'.getProp k = v.getProp k := by
  rcases processValidationItems_shape r1 wc v v' h with rfl | ⟨w, rfl⟩
  · rfl
  · exact Json.getProp_setProp_ne v "items" k w hk

/-- The walker leaves every key outside
`properties`/`oneOf`/`allOf`/`anyOf`/`items` unchanged — in particular the
top-level `type` and `additionalProperties`. -/
theorem resolveWalk_getProp_ne (types : List (String × Json)) (fuel : Nat)
    (v v' : Json) (k : String)
    (h1 : "properties" ≠ k) (h2 : "oneOf" ≠ k) (h3 : "allOf" ≠ k)
    (h4 : "anyOf" ≠ k) (h5 : "items" ≠ k)
    (h : resolveCustomTypesForValidation types fuel v = some v') :
    v'.getProp k = v.getProp k := by
  cases fuel with
  | zero => cases h
  | succ n =>
      unfold resolveCustomTypesForValidation at h
      rcases e1 : processValidationInner (resolveValidationType types (n + 1))
          (fun tc => resolveCustomTypesForValidation types n tc) v "properties"
        with _ | v1
      · rw [e1] at h; cases h
      rw [e1] at h
      simp only [Option.bind_eq_bind, Option.some_bind] at h
      rcases e2 : processValidationInner (resolveValidationType types (n + 1))
          (fun tc => resolveCustomTypesForValidation types n tc) v1 "oneOf"
        with _ | v2
      · rw [e2] at h; cases h
      rw [e2] at h
      simp only [Option.bind_eq_bind, Option.some_bind] at h
      rcases e3 : processValidationInner (resolveValidationType types (n + 1))
          (fun tc => resolveCustomTypesForValidation types n tc) v2 "allOf"
        with _ | v3
      · rw [e3] at h; cases h
      rw [e3] at h
      simp only [Option.bind_eq_bind, Option.some_bind] at h
      rcases e4 : processValidationInner (resolveValidationType types (n + 1))
          (fun tc => resolveCustomTypesForValidation types n tc) v3 "anyOf"
        with _ | v4
      · rw [e4] at h; cases h
      rw [e4] at h
      simp only [Option.bind_eq_bind, Option.some_bind] at h
      calc v'.getProp k
          = v4.getProp k := processValidationItems_getProp_ne _ _ v4 v' k h5 h
        _ = v3.getProp k := processValidationInner_getProp_ne _ _ v3 v4 _ k h4 e4
        _ = v2.getProp k := processValidationInner_getProp_ne _ _ v2 v3 _ k h3 e3
        _ = v1.getProp k := processValidationInner_getProp_ne _ _ v1 v2 _ k h2 e2
        _ = v.getProp k := processValidationInner_getProp_ne _ _ v v1 _ k h1 e1

/-! ## The strict-object default survives compilation -/

theorem Json.lookupField_of_getProp (l : List (String × Json)) (k : String) (w : Json)
    (h : (Json.obj l).getProp k = w) (hw : w ≠ .undef) :
    Json.lookupField l k = some w := by
  rcases hl : Json.lookupField l k with _ | u
  · simp only [Json.getProp, hl, Option.getD_none] at h
    exact absurd h.symm hw
  · simp only [Json.getProp, hl, Option.getD_some] at h
    rw [h]

theorem objKeys_pos_of_lookup (l : List (String × Json)) (k : String) (w : Json)
    (h : Json.lookupField l k = some w) : 0 < ((Json.obj l).objKeys).length := by
  cases l with
  | nil => cases h
  | cons kv rest => simp [Json.objKeys]

/-- `applyValidation` Merges the route's validation over the strict default:
when the route does not define `type`/`additionalProperties` itself, the
merged validation carries the default `'object'`/`false`. -/
theorem applyValidation_default_keys (f : Nat) (vfs : List (String × Json))
    (hnd : (vfs.map Prod.fst).Nodup) :
    (Json.lookupField vfs "type" = none →
      (deepmergeF (f + 1) getDefaultValidationInherits (.obj vfs)).getProp "type" =
        .str "object") ∧
    (Json.lookupField vfs "additionalProperties" = none →
      (deepmergeF (f + 1) getDefaultValidationInherits (.obj vfs)).getProp
        "additionalProperties" = .bool false) := by
  have hred : deepmergeF (f + 1) getDefaultValidationInherits (.obj vfs) =
      .obj (vfs.foldl
        (mergeObjectStep (fun a b => deepmergeF f a b) getDefaultValidationInherits)
        [("type", .str "object"), ("additionalProperties", .bool false)]) := rfl
  constructor <;> intro hnone <;>
    rw [hred] <;>
    simp only [Json.getProp] <;>
    rw [mergeObjectFold_lookup _ _ _ vfs _ hnd, hnone] <;>
    simp [Json.lookupField]

/-- The merged validation is an object with unique keys. -/
theorem applyValidation_default_obj (f : Nat) (vfs : List (String × Json)) :
    ∃ l, deepmergeF (f + 1) getDefaultValidationInherits (.obj vfs) = .obj l ∧
      (l.map Prod.fst).Nodup :=
  ⟨_, rfl, mergeObjectFold_nodup _ _ vfs _ (by decide)⟩

/-- Merging anything *under* an object keeps a non-mergeable binding of the
object (inherited validations cannot displace the route's scalar
`type`/`additionalProperties`). -/
theorem deepmerge_scalar_source_getProp (f : Nat) (t : Json) (sfs : List (String × Json))
    (k : String) (sv : Json) (hnd : (sfs.map Prod.fst).Nodup)
    (hsv : Json.lookupField sfs k = some sv) (hnm : sv.isMergeable = false) :
    (deepmergeF (f + 1) t (.obj sfs)).getProp k = sv := by
  rcases t with _ | _ | b | n | s | ts | tfs
  case arr =>
    show (Json.obj sfs).getProp k = sv
    simp [Json.getProp, hsv]
  all_goals
    simp only [deepmergeF, Json.getProp, Json.jsFields]
    rw [mergeObjectFold_lookup _ _ _ sfs _ hnd, hsv]
    simp [hnm]

/-- Merging an object source into any target yields an object. -/
theorem deepmergeF_obj_source_isObj (f : Nat) (t : Json) (sfs : List (String × Json)) :
    ∃ l, deepmergeF (f + 1) t (.obj sfs) = .obj l := by
  rcases t with _ | _ | b | n | s | ts | tfs <;> exact ⟨_, rfl⟩

/-- `applyCustomValidationTypes` leaves the top-level keys outside the five
walked collections unchanged. -/
theorem applyCustomValidationTypes_getProp (fuel : Nat) (vt v : Json) (p : Json × Json)
    (h : applyCustomValidationTypes fuel vt v = some p) (k : String)
    (h1 : "properties" ≠ k) (h2 : "oneOf" ≠ k) (h3 : "allOf" ≠ k)
    (h4 : "anyOf" ≠ k) (h5 : "items" ≠ k) :
    p.2.getProp k = v.getProp k := by
  unfold applyCustomValidationTypes at h
  split_ifs at h
  · cases h
    rfl
  · rcases vt with _ | _ | b | n | s | xs | tys
    · cases h
    · cases h
    · cases h
    · cases h
    · cases h
    · cases h
    · replace h : (do
          let tys' ← resolveCustomInnerTypes fuel tys
          let v' ← resolveCustomTypesForValidation tys' fuel v
          some (Json.obj tys', v')) = some p := h
      rcases hin : resolveCustomInnerTypes fuel tys with _ | tys'
      · rw [hin] at h
        cases h
      rw [hin] at h
      simp only [Option.bind_eq_bind, Option.some_bind] at h
      rcases hw : resolveCustomTypesForValidation tys' fuel v with _ | v'
      · rw [hw] at h
        cases h
      rw [hw] at h
      simp only [Option.bind_eq_bind, Option.some_bind, Option.some.injEq] at h
      rw [← h]
      exact resolveWalk_getProp_ne tys' fuel v v' k h1 h2 h3 h4 h5 hw

/-- The final compile step keeps the strict-object keys and stores the final
validation as the compiled validator. -/
theorem compileRouteValidation_strict (fuel : Nat) (sd : ServerDefaults)
    (r2 : RouteRecord) (l2 : List (String × Json))
    (hobj : r2.validation = .obj l2)
    (ht2 : r2.validation.getProp "type" = .str "object")
    (ha2 : r2.validation.getProp "additionalProperties" = .bool false)
    (sd' : ServerDefaults) (r' : RouteRecord)
    (hc : compileRouteValidation fuel sd r2 = some (sd', .structured r')) :
    r'.validator = some r'.validation ∧
    r'.validation.getProp "type" = .str "object" ∧
    r'.validation.getProp "additionalProperties" = .bool false := by
  unfold compileRouteValidation at hc
  have htr : r2.validation.truthy = true := by rw [hobj]; rfl
  have hlk : Json.lookupField l2 "type" = some (.str "object") := by
    refine Json.lookupField_of_getProp l2 "type" _ ?_ (by simp)
    rw [← hobj]
    exact ht2
  have hpos : 0 < r2.validation.objKeys.length := by
    rw [hobj]
    exact objKeys_pos_of_lookup l2 "type" _ hlk
  have hcond : (r2.validation.truthy && decide (0 < r2.validation.objKeys.length)) = true := by
    rw [htr]
    simpa using hpos
  rw [if_pos hcond] at hc
  rcases hacvt : applyCustomValidationTypes fuel sd.validationTypes r2.validation
    with _ | p
  · rw [hacvt] at hc
    cases hc
  · rw [hacvt] at hc
    simp only [Option.bind_eq_bind, Option.some_bind, Option.some.injEq,
      Prod.mk.injEq, RouteConfig.structured.injEq] at hc
    have hval : p.2.getProp "type" = r2.validation.getProp "type" :=
      applyCustomValidationTypes_getProp fuel sd.validationTypes r2.validation p hacvt
        "type" (by decide) (by decide) (by decide) (by decide) (by decide)
    have hadd : p.2.getProp "additionalProperties" =
        r2.validation.getProp "additionalProperties" :=
      applyCustomValidationTypes_getProp fuel sd.validationTypes r2.validation p hacvt
        "additionalProperties" (by decide) (by decide) (by decide) (by decide) (by decide)
    rw [← hc.2]
    refine ⟨rfl, ?_, ?_⟩
    · show p.2.getProp "type" = Json.str "object"
      rw [hval]
      exact ht2
    · show p.2.getProp "additionalProperties" = Json.bool false
      rw [hadd]
      exact ha2

/-- Claim C2 counterexample: the compiled config of `c2Route` carries a
validation schema (inherited from `auth`), yet the strict-object default was
never merged in — `applyValidation` runs only when the route's *own*
`validation` is truthy — so the compiled validator accepts the number `5`,
which does not satisfy `{type: 'object', additionalProperties: false}`. -/
theorem c2_counterexample :
    (match tryApplyConfigInherits 5 c2Defaults c2Route with
      | some (_, .structured r) => r.validator
      | _ => none) = some c2CompiledSchema ∧
    validateAjv 5 c2CompiledSchema (.num 5) = true ∧
    validateAjv 5 (.obj [("type", .str "object"), ("additionalProperties", .bool false)])
      (.num 5) = false :=
  ⟨rfl, rfl, rfl⟩

/-- Claim C2 (amended): the strict-object guarantee holds exactly when the
route's *own* `validation` is a truthy object — then, whether or not parents
are inherited, the compiled schema keeps `type: 'object'` and
`additionalProperties: false` (unless the route's own validation defines
those keys), and every request the compiled validator accepts is an object
all of whose keys are declared under `properties`. When the schema comes
*only* from inherited parents the defaults are not merged
(`c2_counterexample`). -/
theorem c2_strict_object_when_own_validation
    (fuel : Nat) (sd : ServerDefaults)
    (hdl : Nat) (sc : Option Nat) (bf af : Option (List Nat))
    (inh : Option (List String)) (vl : Option Json)
    (vfs : List (String × Json))
    (hnd : (vfs.map Prod.fst).Nodup)
    (htk : Json.lookupField vfs "type" = none)
    (hak : Json.lookupField vfs "additionalProperties" = none)
    (sd' : ServerDefaults) (r' : RouteRecord)
    (hc : tryApplyConfigInherits (fuel + 1) sd
        (.structured ⟨hdl, sc, bf, af, .obj vfs, inh, vl⟩) = some (sd', .structured r')) :
    r'.validator = some r'.validation ∧
    r'.validation.getProp "type" = .str "object" ∧
    r'.validation.getProp "additionalProperties" = .bool false ∧
    ∀ (g : Nat) (x : Json), validateAjv (g + 1) r'.validation x = true →
      ∃ kvs, x = .obj kvs ∧ ∀ kv ∈ kvs,
        (match r'.validation.getProp "properties" with
          | .obj ps => (Json.lookupField ps kv.1).isSome
          | _ => false) = true := by
  obtain ⟨l1, hl1, hl1nd⟩ := applyValidation_default_obj fuel vfs
  have ht1 := (applyValidation_default_keys fuel vfs hnd).1 htk
  have ha1 := (applyValidation_default_keys fuel vfs hnd).2 hak
  have hlt1 : Json.lookupField l1 "type" = some (.str "object") :=
    Json.lookupField_of_getProp l1 "type" _ (by rw [← hl1]; exact ht1) (by simp)
  have hla1 : Json.lookupField l1 "additionalProperties" = some (.bool false) :=
    Json.lookupField_of_getProp l1 "additionalProperties" _
      (by rw [← hl1]; exact ha1) (by simp)
  replace hc :
      (match inh with
        | some _ => applyInherits (fuel + 1) sd
            ⟨hdl, sc, bf, af,
              deepmergeF (fuel + 1) getDefaultValidationInherits (.obj vfs), inh, vl⟩
        | none => some ⟨hdl, sc, bf, af,
            deepmergeF (fuel + 1) getDefaultValidationInherits (.obj vfs), inh, vl⟩).bind
        (compileRouteValidation (fuel + 1) sd) = some (sd', .structured r') := hc
  have hmain : r'.validator = some r'.validation ∧
      r'.validation.getProp "type" = .str "object" ∧
      r'.validation.getProp "additionalProperties" = .bool false := by
    rcases inh with _ | als
    · replace hc : compileRouteValidation (fuel + 1) sd
          ⟨hdl, sc, bf, af,
            deepmergeF (fuel + 1) getDefaultValidationInherits (.obj vfs), none, vl⟩ =
          some (sd', .structured r') := hc
      exact compileRouteValidation_strict (fuel + 1) sd _ l1 hl1 ht1 ha1 sd' r' hc
    · rcases happ : applyInherits (fuel + 1) sd
          ⟨hdl, sc, bf, af,
            deepmergeF (fuel + 1) getDefaultValidationInherits (.obj vfs),
            some als, vl⟩ with _ | r2
      · rw [happ] at hc
        cases hc
      rw [happ] at hc
      simp only [Option.bind_eq_bind, Option.some_bind] at hc
      unfold applyInherits at happ
      rcases hacc : applyInheritsGo (fuel + 1) sd.parents als [] [] (.obj [])
        with _ | acc
      · rw [show ((some als : Option (List String)).getD [] : List String) = als from rfl,
          hacc] at happ
        cases happ
      rw [show ((some als : Option (List String)).getD [] : List String) = als from rfl,
        hacc] at happ
      simp only [Option.bind_eq_bind, Option.some_bind, Option.some.injEq] at happ
      have hval2 : r2.validation =
          deepmergeF (fuel + 1) acc.2.2 (.obj l1) := by
        rw [← happ]
        show deepmergeF (fuel + 1) acc.2.2
            (if (deepmergeF (fuel + 1) getDefaultValidationInherits (.obj vfs)).truthy
              then deepmergeF (fuel + 1) getDefaultValidationInherits (.obj vfs)
              else .obj []) = _
        rw [hl1]
        rfl
      obtain ⟨l2, hl2⟩ := deepmergeF_obj_source_isObj fuel acc.2.2 l1
      have ht2 : r2.validation.getProp "type" = .str "object" := by
        rw [hval2]
        exact deepmerge_scalar_source_getProp fuel acc.2.2 l1 "type" _ hl1nd hlt1 rfl
      have ha2 : r2.validation.getProp "additionalProperties" = .bool false := by
        rw [hval2]
        exact deepmerge_scalar_source_getProp fuel acc.2.2 l1 "additionalProperties" _
          hl1nd hla1 rfl
      exact compileRouteValidation_strict (fuel + 1) sd r2 l2 (hval2.trans hl2) ht2 ha2
        sd' r' hc
  refine ⟨hmain.1, hmain.2.1, hmain.2.2, fun g x hx => ?_⟩
  exact validateAjv_strict_object g r'.validation x hmain.2.1 hmain.2.2 hx

/-- Witness for `c2_strict_object_when_own_validation`: a route whose own
validation declares one string property `name`, compiled with empty defaults
at fuel 3; the compiled schema keeps the strict-object keys and the accepted
request `{name: "a"}` is an object whose single key is declared. -/
theorem c2_strict_object_witness :
    ∃ kvs, (Json.obj [("name", .str "a")]) = Json.obj kvs ∧ ∀ kv ∈ kvs,
      (match (Json.obj [("type", .str "object"), ("additionalProperties", .bool false),
          ("properties", .obj [("name", .obj [("type", .str "string")])])]).getProp
            "properties" with
        | .obj ps => (Json.lookupField ps kv.1).isSome
        | _ => false) = true :=
  (c2_strict_object_when_own_validation 2 { parents := [], validationTypes := .undef }
      0 none none none none none
      [("properties", .obj [("name", .obj [("type", .str "string")])])]
      (by decide) rfl rfl
      { parents := [], validationTypes := .undef }
      ⟨0, none, none, none,
        .obj [("type", .str "object"), ("additionalProperties", .bool false),
          ("properties", .obj [("name", .obj [("type", .str "string")])])],
        none, some (.obj [("type", .str "object"), ("additionalProperties", .bool false),
          ("properties", .obj [("name", .obj [("type", .str "string")])])])⟩
      rfl).2.2.2 1 (.obj [("name", .str "a")]) rfl

/-! ## Toward claim C8: recompilation as a fixed point

The lemmas below characterize the second run of each compilation stage on the
first run's output. -/

theorem Json.setField_same (fs : List (String × Json)) (k : String) (v : Json)
    (h : Json.lookupField fs k = some v) : Json.setField fs k v = fs := by
  induction fs with
  | nil => cases h
  | cons kv rest ih =>
      obtain ⟨a, w⟩ := kv
      by_cases hak : a = k
      · subst hak
        rw [Json.lookupField, if_pos rfl] at h
        rw [Json.setField, if_pos rfl, Option.some.inj h]
      · rw [Json.lookupField, if_neg hak] at h
        rw [Json.setField, if_neg hak, ih h]

theorem Json.lookupField_mem (fs : List (String × Json)) (k : String) (v : Json)
    (h : Json.lookupField fs k = some v) : (k, v) ∈ fs := by
  induction fs with
  | nil => cases h
  | cons kv rest ih =>
      obtain ⟨a, w⟩ := kv
      by_cases hak : a = k
      · subst hak
        rw [Json.lookupField, if_pos rfl] at h
        rw [← Option.some.inj h]
        exact List.mem_cons_self _ _
      · rw [Json.lookupField, if_neg hak] at h
        exact List.mem_cons_of_mem _ (ih h)

theorem Json.setField_append (fs : List (String × Json)) (k : String) (v : Json)
    (h : k ∉ fs.map Prod.fst) : Json.setField fs k v = fs ++ [(k, v)] := by
  induction fs with
  | nil => rfl
  | cons kv rest ih =>
      rw [List.map_cons, List.mem_cons] at h
      push_neg at h
      rw [Json.setField, if_neg (Ne.symm h.1), ih h.2]
      rfl

theorem Json.lookupField_isSome_of_mem_keys (fs : List (String × Json)) (k : String)
    (h : k ∈ fs.map Prod.fst) : ∃ v, Json.lookupField fs k = some v := by
  induction fs with
  | nil => cases h
  | cons kv rest ih =>
      by_cases hak : kv.1 = k
      · exact ⟨kv.2, by obtain ⟨a, w⟩ := kv; cases hak; rw [Json.lookupField, if_pos rfl]⟩
      · rw [List.map_cons, List.mem_cons] at h
        rcases h with h | h
        · exact absurd h.symm hak
        · obtain ⟨v, hv⟩ := ih h
          exact ⟨v, by obtain ⟨a, w⟩ := kv; rw [Json.lookupField, if_neg hak, hv]⟩

theorem Json.lookupField_of_mem_nodup (fs : List (String × Json)) (k : String) (v : Json)
    (hnd : (fs.map Prod.fst).Nodup) (h : (k, v) ∈ fs) :
    Json.lookupField fs k = some v := by
  induction fs with
  | nil => cases h
  | cons kv rest ih =>
      obtain ⟨a, w⟩ := kv
      rw [List.map_cons, List.nodup_cons] at hnd
      rcases List.mem_cons.mp h with h1 | h1
      · cases h1
        rw [Json.lookupField, if_pos rfl]
      · have hak : a ≠ k := by
          rintro rfl
          have hm := List.mem_map_of_mem Prod.fst h1
          exact hnd.1 hm
        rw [Json.lookupField, if_neg hak]
        exact ih hnd.2 h1

/-- Members of the deduplicated list come from the original list. -/
theorem dedupSVZGo_subset (x : Json) :
    ∀ (seen l : List Json), x ∈ dedupSVZGo seen l → x ∈ l
  | _, [], h => absurd h (List.not_mem_nil x)
  | seen, y :: ys, h => by
      rw [dedupSVZGo] at h
      split_ifs at h with hy
      · exact List.mem_cons_of_mem _ (dedupSVZGo_subset x seen ys h)
      · rcases List.mem_cons.mp h with h | h
        · exact h ▸ List.mem_cons_self _ _
        · exact List.mem_cons_of_mem _ (dedupSVZGo_subset x (y :: seen) ys h)

/-- Deduplication is idempotent. -/
theorem dedupSVZGo_idem : ∀ (l seen : List Json),
    dedupSVZGo seen (dedupSVZGo seen l) = dedupSVZGo seen l
  | [], _ => rfl
  | x :: xs, seen => by
      rw [dedupSVZGo]
      split_ifs with hx
      · exact dedupSVZGo_idem xs seen
      · rw [dedupSVZGo, if_neg hx, dedupSVZGo_idem xs (x :: seen)]

/-- Deduplication keeps a nonempty list nonempty. -/
theorem dedupSVZ_ne_nil (x : Json) (xs : List Json) : dedupSVZ (x :: xs) ≠ [] := by
  rw [dedupSVZ, dedupSVZGo]
  simp only [List.any_nil]
  simp

/-- `setField` at a key that is present keeps the key list exactly. -/
theorem Json.keys_setField_of_lookup (fs : List (String × Json)) (k : String)
    (v w : Json) (h : Json.lookupField fs k = some w) :
    (Json.setField fs k v).map Prod.fst = fs.map Prod.fst := by
  induction fs with
  | nil => cases h
  | cons kv rest ih =>
      obtain ⟨a, u⟩ := kv
      by_cases hak : a = k
      · subst hak
        rw [Json.setField, if_pos rfl, List.map_cons, List.map_cons]
      · rw [Json.lookupField, if_neg hak] at h
        rw [Json.setField, if_neg hak, List.map_cons, List.map_cons, ih h]

/-- A key is absent from the association list iff its lookup fails. -/
theorem Json.lookupField_eq_none_iff (fs : List (String × Json)) (k : String) :
    Json.lookupField fs k = none ↔ k ∉ fs.map Prod.fst := by
  induction fs with
  | nil => simp [Json.lookupField]
  | cons kv rest ih =>
      obtain ⟨a, u⟩ := kv
      by_cases hak : a = k
      · subst hak
        rw [Json.lookupField, if_pos rfl]
        simp
      · rw [Json.lookupField, if_neg hak, List.map_cons]
        rw [ih]
        constructor
        · intro h hmem
          rcases List.mem_cons.mp hmem with h' | h'
          · exact hak h'.symm
          · exact h h'
        · intro h hmem
          exact h (List.mem_cons_of_mem _ hmem)

/-- Every entry of `setField` is the written pair or an original entry. -/
theorem Json.mem_setField (fs : List (String × Json)) (k : String) (v : Json) :
    ∀ kv ∈ Json.setField fs k v, kv = (k, v) ∨ kv ∈ fs := by
  induction fs with
  | nil =>
      intro kv hkv
      rw [Json.setField] at hkv
      exact Or.inl (List.mem_singleton.mp hkv)
  | cons hd rest ih =>
      obtain ⟨a, u⟩ := hd
      by_cases hak : a = k
      · subst hak
        rw [Json.setField, if_pos rfl]
        intro kv hkv
        rcases List.mem_cons.mp hkv with h | h
        · exact Or.inl h
        · exact Or.inr (List.mem_cons_of_mem _ h)
      · rw [Json.setField, if_neg hak]
        intro kv hkv
        rcases List.mem_cons.mp hkv with h | h
        · exact Or.inr (h ▸ List.mem_cons_self _ _)
        · rcases ih kv h with h' | h'
          · exact Or.inl h'
          · exact Or.inr (List.mem_cons_of_mem _ h')

/-- Deduplicating a one-member list keeps it. -/
theorem dedupSVZ_singleton (x : Json) : dedupSVZ [x] = [x] := by
  simp [dedupSVZ, dedupSVZGo]

/-- The values of an array's enumerable fields are its elements. -/
theorem Json.jsFields_arr_map_snd (xs : List Json) :
    ((Json.arr xs).jsFields).map Prod.snd = xs := by
  show (xs.enum.map fun ix => (toString ix.1, ix.2)).map Prod.snd = xs
  rw [List.map_map]
  exact List.enum_map_snd xs

/-- `deepWFF` is monotone in the depth. -/
theorem deepWFF_mono : ∀ (f g : Nat), f ≤ g → ∀ (v : Json),
    deepWFF f v = true → deepWFF g v = true := by
  intro f
  induction f with
  | zero => intro g _ v h; cases h
  | succ f ih =>
      intro g hg v h
      obtain ⟨g', rfl⟩ : ∃ g', g = g' + 1 := by
        cases g with
        | zero => omega
        | succ g' => exact ⟨g', rfl⟩
      have hfg : f ≤ g' := by omega
      cases v with
      | obj fs =>
          rw [deepWFF] at h ⊢
          simp only [Bool.and_eq_true, List.all_eq_true] at h ⊢
          exact ⟨h.1, fun kv hkv => ih g' hfg kv.2 (h.2 kv hkv)⟩
      | arr xs =>
          rw [deepWFF] at h ⊢
          simp only [List.all_eq_true] at h ⊢
          exact fun x hx => ih g' hfg x (h x hx)
      | undef => rfl
      | null => rfl
      | bool b => rfl
      | num n => rfl
      | str s => rfl

/-- A common depth bound for finitely many well-formed values. -/
theorem DeepOK_list_bound {α : Type} (l : List α) (g : α → Json)
    (h : ∀ x ∈ l, DeepOK (g x)) : ∃ F, ∀ x ∈ l, deepWFF F (g x) = true := by
  induction l with
  | nil => exact ⟨0, by simp⟩
  | cons a rest ih =>
      obtain ⟨f1, hf1⟩ := h a (List.mem_cons_self _ _)
      obtain ⟨F, hF⟩ := ih (fun x hx => h x (List.mem_cons_of_mem _ hx))
      refine ⟨max f1 F, fun x hx => ?_⟩
      rcases List.mem_cons.mp hx with rfl | hx
      · exact deepWFF_mono f1 _ (le_max_left _ _) _ hf1
      · exact deepWFF_mono F _ (le_max_right _ _) _ (hF x hx)

theorem DeepOK_prim_undef : DeepOK .undef := ⟨1, rfl⟩

theorem DeepOK_prim_null : DeepOK .null := ⟨1, rfl⟩

theorem DeepOK_prim_bool (b : Bool) : DeepOK (.bool b) := ⟨1, rfl⟩

theorem DeepOK_prim_num (n : Int) : DeepOK (.num n) := ⟨1, rfl⟩

theorem DeepOK_prim_str (s : String) : DeepOK (.str s) := ⟨1, rfl⟩

/-- Unfolding a well-formed object. -/
theorem DeepOK_obj_iff (fs : List (String × Json)) :
    DeepOK (.obj fs) ↔ (fs.map Prod.fst).Nodup ∧
      typeMembersNonArr ((Json.obj fs).getProp "type") = true ∧
      ∀ kv ∈ fs, DeepOK kv.2 := by
  constructor
  · rintro ⟨f, hf⟩
    cases f with
    | zero => cases hf
    | succ f =>
        rw [deepWFF] at hf
        simp only [Bool.and_eq_true, List.all_eq_true, decide_eq_true_eq] at hf
        exact ⟨hf.1.1, hf.1.2, fun kv hkv => ⟨f, hf.2 kv hkv⟩⟩
  · rintro ⟨h1, h2, h3⟩
    obtain ⟨F, hF⟩ := DeepOK_list_bound fs Prod.snd h3
    refine ⟨F + 1, ?_⟩
    rw [deepWFF]
    simp only [Bool.and_eq_true, List.all_eq_true, decide_eq_true_eq]
    exact ⟨⟨h1, h2⟩, hF⟩

/-- Unfolding a well-formed array. -/
theorem DeepOK_arr_iff (xs : List Json) :
    DeepOK (.arr xs) ↔ ∀ x ∈ xs, DeepOK x := by
  constructor
  · rintro ⟨f, hf⟩
    cases f with
    | zero => cases hf
    | succ f =>
        rw [deepWFF] at hf
        simp only [List.all_eq_true] at hf
        exact fun x hx => ⟨f, hf x hx⟩
  · intro h
    obtain ⟨F, hF⟩ := DeepOK_list_bound xs id h
    refine ⟨F + 1, ?_⟩
    rw [deepWFF]
    simp only [List.all_eq_true]
    exact hF

/-- Property reads descend through well-formedness. -/
theorem DeepOK_getProp (v : Json) (k : String) (h : DeepOK v) :
    DeepOK (v.getProp k) := by
  cases v with
  | obj fs =>
      show DeepOK ((Json.lookupField fs k).getD .undef)
      rcases hl : Json.lookupField fs k with _ | w
      · exact DeepOK_prim_undef
      · exact ((DeepOK_obj_iff fs).mp h).2.2 _ (Json.lookupField_mem fs k w hl)
  | undef => exact DeepOK_prim_undef
  | null => exact DeepOK_prim_undef
  | bool b => exact DeepOK_prim_undef
  | num n => exact DeepOK_prim_undef
  | str s => exact DeepOK_prim_undef
  | arr xs => exact DeepOK_prim_undef

/-- Field updates preserve well-formedness (a new `type` value must keep its
members non-array). -/
theorem DeepOK_setField (fs : List (String × Json)) (k : String) (w : Json)
    (h : DeepOK (.obj fs)) (hw : DeepOK w)
    (ht : k = "type" → typeMembersNonArr w = true) :
    DeepOK (.obj (Json.setField fs k w)) := by
  obtain ⟨h1, h2, h3⟩ := (DeepOK_obj_iff fs).mp h
  refine (DeepOK_obj_iff _).mpr ⟨keys_setField_nodup fs k w h1, ?_, ?_⟩
  · show typeMembersNonArr
      ((Json.lookupField (Json.setField fs k w) "type").getD .undef) = true
    rw [Json.lookupField_setField]
    by_cases hk : k = "type"
    · rw [if_pos hk]
      exact ht hk
    · rw [if_neg hk]
      exact h2
  · intro kv hkv
    rcases Json.mem_setField fs k w kv hkv with rfl | hkv'
    · exact hw
    · exact h3 kv hkv'

/-- Members of a wrapped `type` value are well-formed when the value is. -/
theorem DeepOK_wrap (t : Json) (h : DeepOK t) : ∀ e ∈ wrapTypeList t, DeepOK e := by
  cases t with
  | arr xs =>
      intro e he
      exact (DeepOK_arr_iff xs).mp h e he
  | undef => intro e he; rw [List.mem_singleton.mp he]; exact h
  | null => intro e he; rw [List.mem_singleton.mp he]; exact h
  | bool b => intro e he; rw [List.mem_singleton.mp he]; exact h
  | num n => intro e he; rw [List.mem_singleton.mp he]; exact h
  | str s => intro e he; rw [List.mem_singleton.mp he]; exact h
  | obj fs => intro e he; rw [List.mem_singleton.mp he]; exact h

/-! ## `deepmerge` preserves well-formedness -/

/-- Merging two values without nested-array type members yields one. -/
theorem typeMembersNonArr_merge (fm : Nat) (x y : Json)
    (hx : typeMembersNonArr x = true) (hy : typeMembersNonArr y = true) :
    typeMembersNonArr (deepmergeF fm x y) = true := by
  cases fm with
  | zero => exact hy
  | succ fm =>
      cases x <;> cases y <;>
        first
        | rfl
        | exact hy
        | (show typeMembersNonArr (.arr (_ ++ _)) = true
           simp only [typeMembersNonArr, List.all_append, Bool.and_eq_true]
           exact ⟨hx, hy⟩)

/-- Values surviving the `mergeObject` fold satisfy any predicate holding of
the destination values, the source values, and the recursively merged
values. -/
theorem mergeObjectFold_values (P : Json → Prop) (m : Json → Json → Json) (t : Json) :
    ∀ (src d : List (String × Json)),
      (∀ kv ∈ d, P kv.2) → (∀ kv ∈ src, P kv.2) →
      (∀ kv ∈ src, (t.hasKey kv.1 && kv.2.isMergeable) = true →
        P (m (t.getProp kv.1) kv.2)) →
      ∀ kv ∈ src.foldl (mergeObjectStep m t) d, P kv.2
  | [], _, hd, _, _ => hd
  | kv0 :: rest, d, hd, hs, hm => by
      rw [List.foldl_cons]
      refine mergeObjectFold_values P m t rest _ ?_
        (fun kv hkv => hs kv (List.mem_cons_of_mem _ hkv))
        (fun kv hkv hc => hm kv (List.mem_cons_of_mem _ hkv) hc)
      intro kv hkv
      unfold mergeObjectStep at hkv
      split_ifs at hkv with hc
      · rcases Json.mem_setField d kv0.1 _ kv hkv with rfl | h'
        · exact hm kv0 (List.mem_cons_self _ _) hc
        · exact hd kv h'
      · rcases Json.mem_setField d kv0.1 _ kv hkv with rfl | h'
        · exact hs kv0 (List.mem_cons_self _ _)
        · exact hd kv h'

/-- The `mergeObject` fold builds a well-formed object from well-formed
pieces. -/
theorem deepWFF_mergeFold (f : Nat) (m : Json → Json → Json) (a : Json)
    (sfs d0 : List (String × Json))
    (hsnd : (sfs.map Prod.fst).Nodup)
    (hd0 : (d0.map Prod.fst).Nodup)
    (hd0tm : typeMembersNonArr ((Json.lookupField d0 "type").getD .undef) = true)
    (hd0v : ∀ kv ∈ d0, deepWFF f kv.2 = true)
    (hsv : ∀ kv ∈ sfs, deepWFF f kv.2 = true)
    (hstm : ∀ v, Json.lookupField sfs "type" = some v → typeMembersNonArr v = true)
    (hmtm : ∀ v, Json.lookupField sfs "type" = some v →
        (a.hasKey "type" && v.isMergeable) = true →
        typeMembersNonArr (m (a.getProp "type") v) = true)
    (hmv : ∀ kv ∈ sfs, (a.hasKey kv.1 && kv.2.isMergeable) = true →
        deepWFF f (m (a.getProp kv.1) kv.2) = true) :
    deepWFF (f + 1) (.obj (sfs.foldl (mergeObjectStep m a) d0)) = true := by
  rw [deepWFF]
  simp only [Bool.and_eq_true, List.all_eq_true, decide_eq_true_eq]
  refine ⟨⟨mergeObjectFold_nodup m a sfs d0 hd0, ?_⟩, ?_⟩
  · show typeMembersNonArr
      ((Json.lookupField (sfs.foldl (mergeObjectStep m a) d0) "type").getD .undef) = true
    rw [mergeObjectFold_lookup m a "type" sfs d0 hsnd]
    rcases hl : Json.lookupField sfs "type" with _ | v
    · exact hd0tm
    · show typeMembersNonArr
        ((some (if a.hasKey "type" && v.isMergeable then m (a.getProp "type") v else v)).getD
          .undef) = true
      rw [Option.getD_some]
      split_ifs with hc
      · exact hmtm v hl hc
      · exact hstm v hl
  · exact mergeObjectFold_values (fun w => deepWFF f w = true) m a sfs d0 hd0v hsv hmv

/-- `deepmerge` of well-formed values (the source mergeable, as every merge in
the connector is) is well-formed at the same depth. -/
theorem deepWFF_merge : ∀ (f fm : Nat) (a b : Json),
    deepWFF f a = true → deepWFF f b = true → b.isMergeable = true →
    deepWFF f (deepmergeF fm a b) = true := by
  intro f
  induction f with
  | zero => intro fm a b ha _ _; cases ha
  | succ f ih =>
      intro fm a b ha hb hbm
      cases fm with
      | zero => exact hb
      | succ fm =>
          cases b with
          | arr ss =>
              cases a with
              | arr ts =>
                  show deepWFF (f + 1) (.arr (ts ++ ss)) = true
                  rw [deepWFF] at ha hb ⊢
                  simp only [List.all_eq_true] at ha hb ⊢
                  intro x hx
                  rcases List.mem_append.mp hx with h | h
                  · exact ha x h
                  · exact hb x h
              | obj afs => exact hb
              | undef => exact hb
              | null => exact hb
              | bool c => exact hb
              | num n => exact hb
              | str s => exact hb
          | obj sfs =>
              have hb' := hb
              rw [deepWFF] at hb'
              simp only [Bool.and_eq_true, List.all_eq_true, decide_eq_true_eq] at hb'
              obtain ⟨⟨hsnd, hstm0⟩, hsv⟩ := hb'
              have hstm : ∀ v, Json.lookupField sfs "type" = some v →
                  typeMembersNonArr v = true := by
                intro v hv
                have : ((Json.lookupField sfs "type").getD .undef) = v := by rw [hv]; rfl
                rw [← this]
                exact hstm0
              cases a with
              | arr ts => exact hb
              | obj afs =>
                  have ha' := ha
                  rw [deepWFF] at ha'
                  simp only [Bool.and_eq_true, List.all_eq_true, decide_eq_true_eq] at ha'
                  obtain ⟨⟨hand, hatm⟩, hav⟩ := ha'
                  exact deepWFF_mergeFold f (fun x y => deepmergeF fm x y) (.obj afs) sfs afs
                    hsnd hand hatm hav hsv hstm
                    (fun v hv _ => typeMembersNonArr_merge fm _ v hatm (hstm v hv))
                    (fun kv hkv hc => by
                      have hkey : ((Json.obj afs).hasKey kv.1) = true :=
                        (Bool.and_eq_true _ _).mp hc |>.1
                      have hmg : kv.2.isMergeable = true :=
                        (Bool.and_eq_true _ _).mp hc |>.2
                      show deepWFF f (deepmergeF fm ((Json.obj afs).getProp kv.1) kv.2) = true
                      rcases hw : Json.lookupField afs kv.1 with _ | w
                      · rw [Json.hasKey, hw] at hkey
                        cases hkey
                      · have : (Json.obj afs).getProp kv.1 = w := by
                          show (Json.lookupField afs kv.1).getD .undef = w
                          rw [hw]; rfl
                        rw [this]
                        exact ih fm w kv.2 (hav _ (Json.lookupField_mem afs kv.1 w hw))
                          (hsv kv hkv) hmg)
              | undef =>
                  refine deepWFF_mergeFold f (fun x y => deepmergeF fm x y) .undef sfs []
                    hsnd (by simp) rfl (by simp) hsv hstm ?_ ?_
                  · intro v _ hc
                    rw [show (Json.undef.hasKey "type") = false from rfl] at hc
                    cases hc
                  · intro kv _ hc
                    rw [show (Json.undef.hasKey kv.1) = false from rfl] at hc
                    cases hc
              | null =>
                  refine deepWFF_mergeFold f (fun x y => deepmergeF fm x y) .null sfs []
                    hsnd (by simp) rfl (by simp) hsv hstm ?_ ?_
                  · intro v _ hc
                    rw [show (Json.null.hasKey "type") = false from rfl] at hc
                    cases hc
                  · intro kv _ hc
                    rw [show (Json.null.hasKey kv.1) = false from rfl] at hc
                    cases hc
              | bool c =>
                  refine deepWFF_mergeFold f (fun x y => deepmergeF fm x y) (.bool c) sfs []
                    hsnd (by simp) rfl (by simp) hsv hstm ?_ ?_
                  · intro v _ hc
                    rw [show ((Json.bool c).hasKey "type") = false from rfl] at hc
                    cases hc
                  · intro kv _ hc
                    rw [show ((Json.bool c).hasKey kv.1) = false from rfl] at hc
                    cases hc
              | num n =>
                  refine deepWFF_mergeFold f (fun x y => deepmergeF fm x y) (.num n) sfs []
                    hsnd (by simp) rfl (by simp) hsv hstm ?_ ?_
                  · intro v _ hc
                    rw [show ((Json.num n).hasKey "type") = false from rfl] at hc
                    cases hc
                  · intro kv _ hc
                    rw [show ((Json.num n).hasKey kv.1) = false from rfl] at hc
                    cases hc
              | str s =>
                  refine deepWFF_mergeFold f (fun x y => deepmergeF fm x y) (.str s) sfs []
                    hsnd (by simp) rfl (by simp) hsv hstm ?_ ?_
                  · intro v _ hc
                    rw [show ((Json.str s).hasKey "type") = false from rfl] at hc
                    cases hc
                  · intro kv _ hc
                    rw [show ((Json.str s).hasKey kv.1) = false from rfl] at hc
                    cases hc
          | undef => cases hbm
          | null => cases hbm
          | bool c => cases hbm
          | num n => cases hbm
          | str s => cases hbm

/-- `DeepOK` version of `deepWFF_merge`. -/
theorem DeepOK_merge (fm : Nat) (a b : Json) (ha : DeepOK a) (hb : DeepOK b)
    (hbm : b.isMergeable = true) : DeepOK (deepmergeF fm a b) := by
  obtain ⟨fa, hfa⟩ := ha
  obtain ⟨fb, hfb⟩ := hb
  exact ⟨max fa fb,
    deepWFF_merge (max fa fb) fm a b
      (deepWFF_mono fa _ (le_max_left _ _) a hfa)
      (deepWFF_mono fb _ (le_max_right _ _) b hfb) hbm⟩

/-! ## Re-merging the strict-object default is the identity -/

/-- Source fields whose keys are fresh to the target and the destination are
appended verbatim by the `mergeObject` fold. -/
theorem mergeObjectFold_append (m : Json → Json → Json) (t : Json) :
    ∀ (src d : List (String × Json)), (src.map Prod.fst).Nodup →
      (∀ kv ∈ src, t.hasKey kv.1 = false) →
      (∀ kv ∈ src, kv.1 ∉ d.map Prod.fst) →
      src.foldl (mergeObjectStep m t) d = d ++ src
  | [], d, _, _, _ => by simp
  | kv0 :: rest, d, hnd, hk, hd => by
      rw [List.map_cons, List.nodup_cons] at hnd
      rw [List.foldl_cons]
      have hstep : mergeObjectStep m t d kv0 = d ++ [kv0] := by
        unfold mergeObjectStep
        rw [hk kv0 (List.mem_cons_self _ _)]
        simp only [Bool.false_and, Bool.false_eq_true, if_false]
        exact (Json.setField_append d kv0.1 kv0.2
          (hd kv0 (List.mem_cons_self _ _))).trans (by rw [show ((kv0.1, kv0.2) : String × Json) = kv0 from rfl])
      rw [hstep, mergeObjectFold_append m t rest (d ++ [kv0]) hnd.2
        (fun kv hkv => hk kv (List.mem_cons_of_mem _ hkv))
        (fun kv hkv => by
          rw [List.map_append, List.mem_append]
          push_neg
          refine ⟨hd kv (List.mem_cons_of_mem _ hkv), ?_⟩
          simp only [List.map_cons, List.map_nil, List.mem_singleton]
          intro hkk
          exact hnd.1 (hkk ▸ List.mem_map_of_mem Prod.fst hkv)),
        List.append_assoc]
      rfl

/-- Merging an array over a non-mergeable target yields the array. -/
theorem deepmergeF_scalar_target_arr (t : Json) (ht : t.isMergeable = false)
    (ss : List Json) : ∀ f, deepmergeF f t (.arr ss) = .arr ss := by
  intro f
  cases f with
  | zero => rfl
  | succ f => cases t <;> first | rfl | (rw [Json.isMergeable] at ht; cases ht)

/-- Merging an object with unique keys over a non-mergeable target yields the
object. -/
theorem deepmergeF_scalar_target_obj (t : Json) (ht : t.isMergeable = false)
    (sfs : List (String × Json)) (hnd : (sfs.map Prod.fst).Nodup) :
    ∀ f, deepmergeF f t (.obj sfs) = .obj sfs := by
  intro f
  cases f with
  | zero => rfl
  | succ f =>
      have hfold : ∀ (tv : Json), tv.isMergeable = false →
          (∀ k, tv.hasKey k = false) →
          sfs.foldl (mergeObjectStep (fun a b => deepmergeF f a b) tv) [] = sfs := by
        intro tv _ hkeys
        rw [mergeObjectFold_append _ tv sfs [] hnd (fun kv _ => hkeys kv.1) (by simp)]
        rfl
      cases t with
      | undef => exact congrArg Json.obj (hfold .undef rfl (fun _ => rfl))
      | null => exact congrArg Json.obj (hfold .null rfl (fun _ => rfl))
      | bool b => exact congrArg Json.obj (hfold (.bool b) rfl (fun _ => rfl))
      | num n => exact congrArg Json.obj (hfold (.num n) rfl (fun _ => rfl))
      | str s => exact congrArg Json.obj (hfold (.str s) rfl (fun _ => rfl))
      | arr ts => rw [Json.isMergeable] at ht; cases ht
      | obj tfs => rw [Json.isMergeable] at ht; cases ht

/-- The `mergeObject` fold keeps the two-field head structure of its
destination. -/
theorem mergeObjectFold_two_head (m : Json → Json → Json) (t : Json)
    (k1 k2 : String) :
    ∀ (src : List (String × Json)) (x y : Json) (Z : List (String × Json)),
      ∃ x' y' Z', src.foldl (mergeObjectStep m t) ((k1, x) :: (k2, y) :: Z) =
        (k1, x') :: (k2, y') :: Z' := by
  intro src
  induction src with
  | nil => exact fun x y Z => ⟨x, y, Z, rfl⟩
  | cons kv0 rest ih =>
      intro x y Z
      rw [List.foldl_cons]
      have hset : ∀ (X : Json), ∃ x1 y1 Z1,
          Json.setField ((k1, x) :: (k2, y) :: Z) kv0.1 X = (k1, x1) :: (k2, y1) :: Z1 := by
        intro X
        by_cases h1 : k1 = kv0.1
        · exact ⟨X, y, Z, by rw [Json.setField, if_pos h1]⟩
        · by_cases h2 : k2 = kv0.1
          · exact ⟨x, X, Z, by rw [Json.setField, if_neg h1, Json.setField, if_pos h2]⟩
          · exact ⟨x, y, Json.setField Z kv0.1 X,
              by rw [Json.setField, if_neg h1, Json.setField, if_neg h2]⟩
      have hstep : ∃ x1 y1 Z1, mergeObjectStep m t ((k1, x) :: (k2, y) :: Z) kv0 =
          (k1, x1) :: (k2, y1) :: Z1 := by
        unfold mergeObjectStep
        split_ifs
        · exact hset _
        · exact hset _
      obtain ⟨x1, y1, Z1, hstep⟩ := hstep
      rw [hstep]
      exact ih x1 y1 Z1

/-- Merging a validation object over the strict default yields an object whose
first two fields are `type` and `additionalProperties`. -/
theorem mergeDefaults_shape (f : Nat) (vfs : List (String × Json)) :
    ∃ tv av Z, deepmergeF (f + 1) getDefaultValidationInherits (.obj vfs) =
      .obj (("type", tv) :: ("additionalProperties", av) :: Z) := by
  obtain ⟨tv, av, Z, hZ⟩ := mergeObjectFold_two_head
    (fun a b => deepmergeF f a b) getDefaultValidationInherits
    "type" "additionalProperties" vfs (.str "object") (.bool false) []
  exact ⟨tv, av, Z, congrArg Json.obj hZ⟩

/-- Re-merging the strict-object default under an already-merged validation is
the identity: the merged validation starts with scalar-or-well-formed `type`
and `additionalProperties` bindings that win the merge, and every other field
is appended verbatim. -/
theorem mergeDefaults_fixed (tv av : Json) (Z : List (String × Json))
    (hnd : ((("type", tv) :: ("additionalProperties", av) :: Z).map Prod.fst).Nodup)
    (htv : tv.isMergeable = true →
      (∃ ws, tv = .arr ws) ∨ ∃ wfs, tv = .obj wfs ∧ (wfs.map Prod.fst).Nodup)
    (hav : av.isMergeable = true →
      (∃ ws, av = .arr ws) ∨ ∃ wfs, av = .obj wfs ∧ (wfs.map Prod.fst).Nodup) :
    ∀ f2, deepmergeF f2 getDefaultValidationInherits
        (.obj (("type", tv) :: ("additionalProperties", av) :: Z)) =
      .obj (("type", tv) :: ("additionalProperties", av) :: Z) := by
  intro f2
  cases f2 with
  | zero => rfl
  | succ g =>
      rw [List.map_cons, List.map_cons, List.nodup_cons, List.nodup_cons] at hnd
      obtain ⟨ht1, ht2, hZnd⟩ := hnd
      have htne : "type" ∉ Z.map Prod.fst := fun h => ht1 (List.mem_cons_of_mem _ h)
      have hane : "additionalProperties" ∉ Z.map Prod.fst := ht2
      show Json.obj
          ((("type", tv) :: ("additionalProperties", av) :: Z).foldl
            (mergeObjectStep (fun a b => deepmergeF g a b) getDefaultValidationInherits)
            [("type", Json.str "object"), ("additionalProperties", Json.bool false)]) =
        Json.obj (("type", tv) :: ("additionalProperties", av) :: Z)
      have hmtv : tv.isMergeable = true →
          deepmergeF g (.str "object") tv = tv := by
        intro hm
        rcases htv hm with ⟨ws, rfl⟩ | ⟨wfs, rfl, hwnd⟩
        · exact deepmergeF_scalar_target_arr (.str "object") rfl ws g
        · exact deepmergeF_scalar_target_obj (.str "object") rfl wfs hwnd g
      have hmav : av.isMergeable = true →
          deepmergeF g (.bool false) av = av := by
        intro hm
        rcases hav hm with ⟨ws, rfl⟩ | ⟨wfs, rfl, hwnd⟩
        · exact deepmergeF_scalar_target_arr (.bool false) rfl ws g
        · exact deepmergeF_scalar_target_obj (.bool false) rfl wfs hwnd g
      have hstep1 : mergeObjectStep (fun a b => deepmergeF g a b)
          getDefaultValidationInherits
          [("type", Json.str "object"), ("additionalProperties", Json.bool false)]
          ("type", tv) = [("type", tv), ("additionalProperties", Json.bool false)] := by
        unfold mergeObjectStep
        cases hm : tv.isMergeable with
        | false => rfl
        | true =>
            rw [if_pos (show (getDefaultValidationInherits.hasKey ("type", tv).1 && true)
              = true from rfl)]
            show Json.setField _ "type" (deepmergeF g (.str "object") tv) = _
            rw [hmtv hm]
            rfl
      have hstep2 : mergeObjectStep (fun a b => deepmergeF g a b)
          getDefaultValidationInherits
          [("type", tv), ("additionalProperties", Json.bool false)]
          ("additionalProperties", av) = [("type", tv), ("additionalProperties", av)] := by
        unfold mergeObjectStep
        cases hm : av.isMergeable with
        | false => rfl
        | true =>
            rw [if_pos (show (getDefaultValidationInherits.hasKey
              ("additionalProperties", av).1 && true) = true from rfl)]
            show Json.setField _ "additionalProperties"
              (deepmergeF g (.bool false) av) = _
            rw [hmav hm]
            rfl
      rw [List.foldl_cons, hstep1, List.foldl_cons, hstep2]
      rw [mergeObjectFold_append (fun a b => deepmergeF g a b)
        getDefaultValidationInherits Z [("type", tv), ("additionalProperties", av)] hZnd
        (fun kv hkv => by
          have h1 : ¬("type" = kv.1) := fun h =>
            htne (h ▸ List.mem_map_of_mem Prod.fst hkv)
          have h2 : ¬("additionalProperties" = kv.1) := fun h =>
            hane (h ▸ List.mem_map_of_mem Prod.fst hkv)
          show ((Json.lookupField [("type", Json.str "object"),
            ("additionalProperties", Json.bool false)] kv.1).isSome) = false
          rw [Json.lookupField, if_neg h1, Json.lookupField, if_neg h2]
          rfl)
        (fun kv hkv => by
          have h1 : ¬("type" = kv.1) := fun h =>
            htne (h ▸ List.mem_map_of_mem Prod.fst hkv)
          have h2 : ¬("additionalProperties" = kv.1) := fun h =>
            hane (h ▸ List.mem_map_of_mem Prod.fst hkv)
          simp only [List.map_cons, List.map_nil, List.mem_cons, List.mem_singleton]
          push_neg
          exact ⟨fun h => h1 h.symm, fun h => h2 h.symm, List.not_mem_nil _⟩)]
      rfl

/-! ## Non-objects fail `resolveValidationType`; helper list lemmas -/

/-- Property writes on non-objects are dropped. -/
theorem Json.setProp_nonobj (tc : Json) (h : ∀ fs, tc ≠ .obj fs) (k : String) (v : Json) :
    tc.setProp k v = tc := by
  cases tc <;> first | rfl | exact absurd rfl (h _)

/-- A sibling-merge iteration keeps a non-object node exactly. -/
theorem mergeTypeStep_nonobj (fuel : Nat) (tc : Json) (kv : String × Json)
    (h : ∀ fs, tc ≠ .obj fs) : mergeTypeStep fuel tc kv = tc := by
  unfold mergeTypeStep
  split_ifs <;> first | rfl | exact Json.setProp_nonobj tc h _ _

/-- The sibling-merge loop keeps a non-object node exactly. -/
theorem mergeTypeLoop_nonobj (fuel : Nat) :
    ∀ (cfs : List (String × Json)) (tc : Json), (∀ fs, tc ≠ .obj fs) →
      mergeTypeLoop fuel cfs tc = tc
  | [], _, _ => rfl
  | kv :: rest, tc, h => by
      rw [mergeTypeLoop, mergeTypeStep_nonobj fuel tc kv h,
        mergeTypeLoop_nonobj fuel rest tc h]

/-- The resolution loop threads a non-object node through unchanged. -/
theorem resolveDefn_nonobj (m : List (String × Json)) :
    ∀ (fuel : Nat) (tc : Json) (td : List Json) (i : Nat), (∀ fs, tc ≠ .obj fs) →
      resolveValidationTypeForDefinition m fuel tc td i = none ∨
      ∃ td', resolveValidationTypeForDefinition m fuel tc td i = some (tc, td') := by
  intro fuel
  induction fuel with
  | zero => intro tc td i _; exact Or.inl rfl
  | succ fuel ih =>
      intro tc td i h
      rcases hres : resolveValidationTypeForDefinition m (fuel + 1) tc td i with _ | p
      · exact Or.inl rfl
      · rw [resolveValidationTypeForDefinition] at hres
        by_cases hi : i < td.length
        · rw [dif_pos hi] at hres
          have hfin : ∀ (tc2 : Json) (td2 : List Json) (i2 : Nat), tc2 = tc →
              resolveValidationTypeForDefinition m fuel tc2 td2 i2 = some p →
              some p = none ∨ ∃ td', some p = some (tc, td') := by
            rintro tc2 td2 i2 rfl h2
            rcases ih tc2 td2 i2 h with h' | ⟨td', h'⟩
            · rw [h'] at h2
              cases h2
            · rw [h'] at h2
              exact Or.inr ⟨td', by rw [← h2]⟩
          split at hres
          · exact hfin tc td (i + 1) rfl hres
          · rename_i ct hl
            have hmg : mergeTypeValidationProperties fuel ct tc = tc :=
              mergeTypeLoop_nonobj fuel ct.jsFields tc h
            split at hres
            · split_ifs at hres
              · exact hfin _ _ i hmg hres
              · exact hfin _ _ (i + 1) hmg hres
            · split_ifs at hres
              · exact hfin _ _ i hmg hres
              · exact hfin _ _ (i + 1) hmg hres
        · rw [dif_neg hi] at hres
          exact Or.inr ⟨td, by rw [← hres]⟩

/-- `resolveValidationType` fails on every non-object node (the strict-mode
write-back `typeConfig.type = ...` throws on primitives; `finishResolveValidationType`
rejects arrays). -/
theorem resolveValidationType_nonobj (m : List (String × Json)) (fuel : Nat) (tc : Json)
    (h : ∀ fs, tc ≠ .obj fs) : resolveValidationType m fuel tc = none := by
  unfold resolveValidationType
  rcases resolveDefn_nonobj m fuel tc (wrapTypeList (tc.getProp "type")) 0 h with h' | ⟨td', h'⟩
  · rw [h']
    rfl
  · rw [h']
    show finishResolveValidationType (tc, td') = none
    cases tc with
    | obj fs => exact absurd rfl (h fs)
    | undef => rfl
    | null => rfl
    | bool b => rfl
    | num n => rfl
    | str s => rfl
    | arr xs => rfl

/-- `take` before the written index ignores a `set`. -/
theorem list_set_take (l : List Json) :
    ∀ (i : Nat) (x : Json), (l.set i x).take i = l.take i := by
  induction l with
  | nil => intro i x; rfl
  | cons a t ih =>
      intro i x
      cases i with
      | zero => rfl
      | succ i => simpa [List.set, List.take] using ih i x

/-- `take` just past the written index of a `set` appends the new member. -/
theorem list_set_take_succ (l : List Json) :
    ∀ (i : Nat) (x : Json), i < l.length → (l.set i x).take (i + 1) = l.take i ++ [x] := by
  induction l with
  | nil => intro i x h; cases h
  | cons a t ih =>
      intro i x h
      cases i with
      | zero => rfl
      | succ i =>
          have := ih i x (by simpa using h)
          simpa [List.set, List.take] using this

/-- Members of a `set` come from the written value or the original list. -/
theorem list_mem_set (l : List Json) :
    ∀ (i : Nat) (x e : Json), e ∈ l.set i x → e = x ∨ e ∈ l := by
  induction l with
  | nil => intro i x e h; cases h
  | cons a t ih =>
      intro i x e h
      cases i with
      | zero =>
          rcases List.mem_cons.mp h with h | h
          · exact Or.inl h
          · exact Or.inr (List.mem_cons_of_mem _ h)
      | succ i =>
          rcases List.mem_cons.mp h with h | h
          · exact Or.inr (h ▸ List.mem_cons_self _ _)
          · rcases ih i x e h with h' | h'
            · exact Or.inl h'
            · exact Or.inr (List.mem_cons_of_mem _ h')

/-! ## Custom membership is key membership (over a well-formed map) -/

/-- Extracting the underlying lookup of a successful `lookupCustom`. -/
theorem lookupCustom_some (m : List (String × Json)) (e ct : Json)
    (h : lookupCustom m e = some ct) :
    Json.lookupField m (jsPropKey e) = some ct := by
  unfold lookupCustom at h
  rcases hl : Json.lookupField m (jsPropKey e) with _ | v
  · rw [hl] at h
    replace h : (none : Option Json) = some ct := h
    cases h
  · rw [hl] at h
    replace h : (if v.truthy = true then some v else none) = some ct := h
    split_ifs at h
    exact h

/-- The well-formedness facts of a map value. -/
theorem TypesOkP_lookup (m : List (String × Json)) (hm : TypesOkP m) (k : String)
    (v : Json) (h : Json.lookupField m k = some v) :
    (∃ fs, v = .obj fs) ∧ typeFieldOk (v.getProp "type") = true ∧ DeepOK v :=
  hm (k, v) (Json.lookupField_mem m k v h)

/-- Over a map whose values are all (truthy) objects, being a custom member is
exactly naming a key of the map. -/
theorem isCustomMember_iff_mem (m : List (String × Json)) (hm : TypesOkP m) (e : Json) :
    isCustomMember m e = true ↔ jsPropKey e ∈ m.map Prod.fst := by
  constructor
  · intro h
    unfold isCustomMember at h
    rcases hl : lookupCustom m e with _ | ct
    · rw [hl] at h
      cases h
    · exact List.mem_map_of_mem Prod.fst
        (Json.lookupField_mem m _ ct (lookupCustom_some m e ct hl))
  · intro h
    obtain ⟨v, hv⟩ := Json.lookupField_isSome_of_mem_keys m (jsPropKey e) h
    obtain ⟨⟨fs, rfl⟩, _, _⟩ := TypesOkP_lookup m hm _ v hv
    show (lookupCustom m e).isSome = true
    unfold lookupCustom
    rw [hv]
    rfl

/-- The `false` form of `isCustomMember_iff_mem`. -/
theorem isCustomMember_eq_false_iff (m : List (String × Json)) (hm : TypesOkP m)
    (e : Json) : isCustomMember m e = false ↔ jsPropKey e ∉ m.map Prod.fst := by
  rw [← isCustomMember_iff_mem m hm e]
  cases isCustomMember m e <;> simp

/-! ## The sibling merge preserves well-formedness and objects -/

/-- The sibling-merge loop keeps the node an object. -/
theorem mergeTypeLoop_obj (fuel : Nat) :
    ∀ (cfs : List (String × Json)) (tfs : List (String × Json)),
      ∃ tfs', mergeTypeLoop fuel cfs (.obj tfs) = .obj tfs'
  | [], tfs => ⟨tfs, rfl⟩
  | kv :: rest, tfs => by
      obtain ⟨tfs2, h2⟩ := mergeTypeStep_obj fuel tfs kv
      rw [mergeTypeLoop, h2]
      exact mergeTypeLoop_obj fuel rest tfs2

/-- One sibling-merge iteration preserves well-formedness. -/
theorem DeepOK_mergeTypeStep (fuel : Nat) (tc : Json) (kv : String × Json)
    (hkv : DeepOK kv.2) (htc : DeepOK tc) : DeepOK (mergeTypeStep fuel tc kv) := by
  unfold mergeTypeStep
  split_ifs with h1 h2 h3
  · exact htc
  · cases tc with
    | obj fs => exact DeepOK_setField fs kv.1 kv.2 htc hkv (fun hk => absurd hk h1)
    | undef => exact htc
    | null => exact htc
    | bool b => exact htc
    | num n => exact htc
    | str s => exact htc
    | arr xs => exact htc
  · have htr : (tc.getProp kv.1).truthy = true := by
      revert h2
      cases (tc.getProp kv.1).truthy <;> simp
    have hmg : (tc.getProp kv.1).isMergeable = true := by
      rcases hv : tc.getProp kv.1 with _ | _ | b | n | s | xs | fs
      · rw [hv] at h3
        simp [Json.jsTypeof] at h3
      · rw [hv] at htr
        cases htr
      · rw [hv] at h3
        simp [Json.jsTypeof] at h3
      · rw [hv] at h3
        simp [Json.jsTypeof] at h3
      · rw [hv] at h3
        simp [Json.jsTypeof] at h3
      · rfl
      · rfl
    have hmerged : DeepOK (deepmergeF fuel kv.2 (tc.getProp kv.1)) :=
      DeepOK_merge fuel kv.2 (tc.getProp kv.1) hkv (DeepOK_getProp tc kv.1 htc) hmg
    cases tc with
    | obj fs => exact DeepOK_setField fs kv.1 _ htc hmerged (fun hk => absurd hk h1)
    | undef => exact htc
    | null => exact htc
    | bool b => exact htc
    | num n => exact htc
    | str s => exact htc
    | arr xs => exact htc
  · exact htc

/-- The sibling-merge loop preserves well-formedness. -/
theorem DeepOK_mergeTypeLoop (fuel : Nat) :
    ∀ (cfs : List (String × Json)) (tc : Json),
      (∀ kv ∈ cfs, DeepOK kv.2) → DeepOK tc → DeepOK (mergeTypeLoop fuel cfs tc)
  | [], _, _, htc => htc
  | kv :: rest, tc, hall, htc => by
      rw [mergeTypeLoop]
      exact DeepOK_mergeTypeLoop fuel rest _
        (fun kv' hkv' => hall kv' (List.mem_cons_of_mem _ hkv'))
        (DeepOK_mergeTypeStep fuel tc kv (hall kv (List.mem_cons_self _ _)) htc)

/-- The enumerable field values of a well-formed value are well-formed. -/
theorem DeepOK_jsFields (v : Json) (hv : DeepOK v) :
    ∀ kv ∈ v.jsFields, DeepOK kv.2 := by
  cases v with
  | obj fs => exact fun kv hkv => ((DeepOK_obj_iff fs).mp hv).2.2 kv hkv
  | arr xs =>
      intro kv hkv
      have : kv.2 ∈ ((Json.arr xs).jsFields).map Prod.snd :=
        List.mem_map_of_mem Prod.snd hkv
      rw [Json.jsFields_arr_map_snd] at this
      exact (DeepOK_arr_iff xs).mp hv kv.2 this
  | str s =>
      intro kv hkv
      obtain ⟨ic, _, rfl⟩ := List.mem_map.mp hkv
      exact DeepOK_prim_str _
  | undef => intro kv hkv; cases hkv
  | null => intro kv hkv; cases hkv
  | bool b => intro kv hkv; cases hkv
  | num n => intro kv hkv; cases hkv

/-- `mergeTypeValidationProperties` preserves well-formedness. -/
theorem DeepOK_mergeTypeValidationProperties (fuel : Nat) (ct tc : Json)
    (hct : DeepOK ct) (htc : DeepOK tc) :
    DeepOK (mergeTypeValidationProperties fuel ct tc) :=
  DeepOK_mergeTypeLoop fuel ct.jsFields tc (DeepOK_jsFields ct hct) htc

/-- `mergeTypeValidationProperties` keeps objects objects. -/
theorem mergeTypeValidationProperties_obj (fuel : Nat) (ct : Json)
    (tfs : List (String × Json)) :
    ∃ tfs', mergeTypeValidationProperties fuel ct (.obj tfs) = .obj tfs' :=
  mergeTypeLoop_obj fuel ct.jsFields tfs

/-- `take` at the length of the left factor of an append. -/
theorem list_take_append_self (A B : List Json) :
    ∀ (i : Nat), A.length = i → (A ++ B).take i = A := by
  induction A with
  | nil => intro i h; rw [← h]; rfl
  | cons a t ih =>
      intro i h
      cases i with
      | zero => cases h
      | succ i =>
          have := ih i (by simpa using h)
          simpa [List.take] using this

/-- `take` one past the length of the left factor of an append. -/
theorem list_take_append_succ (A : List Json) (c0 : Json) (B : List Json) :
    ∀ (i : Nat), A.length = i → (A ++ (c0 :: B)).take (i + 1) = A ++ [c0] := by
  induction A with
  | nil => intro i h; rw [← h]; rfl
  | cons a t ih =>
      intro i h
      cases i with
      | zero => cases h
      | succ i =>
          have := ih i (by simpa using h)
          simpa [List.take] using this

/-- The invariant of the resolution loop: members already passed are not
custom, every member stays a non-array well-formed value, a nonempty
definition stays nonempty, and an object node stays a well-formed object. -/
theorem resolveDefn_invariant (m : List (String × Json)) (hm : TypesOkP m) :
    ∀ (fuel : Nat) (tc : Json) (td : List Json) (i : Nat) (tc' : Json) (td' : List Json),
      resolveValidationTypeForDefinition m fuel tc td i = some (tc', td') →
      (∀ e ∈ td, jsonNonArr e = true ∧ DeepOK e) →
      (∀ e ∈ td.take i, isCustomMember m e = false) →
      (∀ e ∈ td', jsonNonArr e = true ∧ DeepOK e) ∧
      (∀ e ∈ td', isCustomMember m e = false) ∧
      (td ≠ [] → td' ≠ []) ∧
      (∀ fs, tc = .obj fs → DeepOK tc → ∃ fs', tc' = .obj fs' ∧ DeepOK tc') := by
  intro fuel
  induction fuel with
  | zero => intro tc td i tc' td' h _ _; cases h
  | succ fuel ih =>
      intro tc td i tc' td' h hQ hP
      rw [resolveValidationTypeForDefinition] at h
      by_cases hi : i < td.length
      · rw [dif_pos hi] at h
        have hAlen : (td.take i).length = i := by
          rw [List.length_take]
          omega
        split at h
        · rename_i hl
          refine ih tc td (i + 1) tc' td' h hQ ?_
          intro e he
          rw [List.take_succ] at he
          rcases List.mem_append.mp he with he | he
          · exact hP e he
          · rw [List.getElem?_eq_getElem hi] at he
            simp only [Option.toList_some, List.mem_singleton] at he
            subst he
            show (lookupCustom m (td.get ⟨i, hi⟩)).isSome = false
            rw [hl]
            rfl
        · rename_i ct hl
          have hlk := lookupCustom_some m _ ct hl
          obtain ⟨⟨cfs, hctobj⟩, hctf, hctok⟩ := TypesOkP_lookup m hm _ ct hlk
          have hdct : DeepOK (ct.getProp "type") := DeepOK_getProp ct "type" hctok
          have htrans : ∀ (td2 : List Json) (i2 : Nat),
              resolveValidationTypeForDefinition m fuel
                (mergeTypeValidationProperties fuel ct tc) td2 i2 = some (tc', td') →
              (∀ e ∈ td2, jsonNonArr e = true ∧ DeepOK e) →
              (∀ e ∈ td2.take i2, isCustomMember m e = false) →
              (td ≠ [] → td2 ≠ []) →
              (∀ e ∈ td', jsonNonArr e = true ∧ DeepOK e) ∧
              (∀ e ∈ td', isCustomMember m e = false) ∧
              (td ≠ [] → td' ≠ []) ∧
              (∀ fs, tc = .obj fs → DeepOK tc →
                ∃ fs', tc' = .obj fs' ∧ DeepOK tc') := by
            intro td2 i2 h2 hQ2 hP2 hne2
            obtain ⟨c1, c2, c3, c4⟩ := ih _ td2 i2 tc' td' h2 hQ2 hP2
            refine ⟨c1, c2, fun hne => c3 (hne2 hne), ?_⟩
            rintro fs rfl htc
            obtain ⟨fs2, hfs2⟩ := mergeTypeValidationProperties_obj fuel ct fs
            have hd2 : DeepOK (mergeTypeValidationProperties fuel ct (.obj fs)) :=
              DeepOK_mergeTypeValidationProperties fuel ct _ hctok htc
            obtain ⟨fs', hfs', hd'⟩ := c4 fs2 hfs2 (hfs2 ▸ hd2)
            exact ⟨fs', hfs', hd'⟩
          split at h
          · rename_i cur hty
            have hcne : cur ≠ [] := by
              intro hc
              rw [hty, hc] at hctf
              cases hctf
            have hcurA : ∀ e ∈ cur, jsonNonArr e = true := by
              rw [hty, typeFieldOk] at hctf
              simp only [Bool.and_eq_true, List.all_eq_true] at hctf
              exact hctf.2
            have hcurD : ∀ e ∈ cur, DeepOK e := by
              rw [hty] at hdct
              exact (DeepOK_arr_iff cur).mp hdct
            have hQ2 : ∀ e ∈ td.take i ++ cur ++ td.drop (i + 1),
                jsonNonArr e = true ∧ DeepOK e := by
              intro e he
              rcases List.mem_append.mp he with he | he
              · rcases List.mem_append.mp he with he | he
                · exact hQ e (List.take_subset i td he)
                · exact ⟨hcurA e he, hcurD e he⟩
              · exact hQ e (List.drop_subset _ td he)
            have hne2 : td ≠ [] → td.take i ++ cur ++ td.drop (i + 1) ≠ [] := by
              intro _ hcon
              rw [List.append_eq_nil, List.append_eq_nil] at hcon
              exact hcne hcon.1.2
            split_ifs at h with hany
            · refine htrans _ i h hQ2 ?_ hne2
              intro e he
              rw [List.append_assoc, list_take_append_self _ _ i hAlen] at he
              exact hP e he
            · have hallnc : ∀ e ∈ cur, isCustomMember m e = false := by
                intro e he
                rcases hbe : isCustomMember m e with _ | _
                · rfl
                · exact absurd (List.any_eq_true.mpr ⟨e, he, hbe⟩) hany
              obtain ⟨c0, cur', rfl⟩ := List.exists_cons_of_ne_nil hcne
              refine htrans _ (i + 1) h hQ2 ?_ hne2
              intro e he
              rw [List.append_assoc, List.cons_append,
                list_take_append_succ _ _ _ i hAlen] at he
              rcases List.mem_append.mp he with he | he
              · exact hP e he
              · rw [List.mem_singleton.mp he]
                exact hallnc c0 (List.mem_cons_self _ _)
          · rename_i hnotarr
            have hxna : jsonNonArr (ct.getProp "type") = true := by
              rcases hx : ct.getProp "type" with _ | _ | b | n | s | xs | fs
              · rfl
              · rfl
              · rfl
              · rfl
              · rfl
              · exact absurd hx (fun hc => hnotarr xs hc)
              · rfl
            have hxD : DeepOK (ct.getProp "type") := hdct
            have hQ2 : ∀ e ∈ td.set i (ct.getProp "type"),
                jsonNonArr e = true ∧ DeepOK e := by
              intro e he
              rcases list_mem_set td i (ct.getProp "type") e he with rfl | he
              · exact ⟨hxna, hxD⟩
              · exact hQ e he
            have hne2 : td ≠ [] → td.set i (ct.getProp "type") ≠ [] := by
              intro hne hcon
              cases td with
              | nil => exact hne rfl
              | cons a t =>
                  cases i with
                  | zero => cases hcon
                  | succ i => cases hcon
            split_ifs at h with hcust
            · refine htrans _ i h hQ2 ?_ hne2
              intro e he
              rw [list_set_take td i (ct.getProp "type")] at he
              exact hP e he
            · have hxnc : isCustomMember m (ct.getProp "type") = false := by
                rcases hbx : isCustomMember m (ct.getProp "type") with _ | _
                · rfl
                · exact absurd hbx hcust
              refine htrans _ (i + 1) h hQ2 ?_ hne2
              intro e he
              rw [list_set_take_succ td i (ct.getProp "type") hi] at he
              rcases List.mem_append.mp he with he | he
              · exact hP e he
              · rw [List.mem_singleton.mp he]
                exact hxnc
      · rw [dif_neg hi] at h
        simp only [Option.some.injEq, Prod.mk.injEq] at h
        obtain ⟨rfl, rfl⟩ := h
        refine ⟨hQ, ?_, fun hne => hne, ?_⟩
        · intro e he
          have : td.take i = td := List.take_of_length_le (by omega)
          rw [this] at hP
          exact hP e he
        · rintro fs rfl htc
          exact ⟨fs, rfl, htc⟩

/-- When no member is custom the loop scans to the end without touching the
state (or runs out of fuel). -/
theorem resolveDefn_allskip (m : List (String × Json)) :
    ∀ (fuel : Nat) (tc : Json) (td : List Json) (i : Nat),
      (∀ e ∈ td, isCustomMember m e = false) →
      resolveValidationTypeForDefinition m fuel tc td i = none ∨
      resolveValidationTypeForDefinition m fuel tc td i = some (tc, td) := by
  intro fuel
  induction fuel with
  | zero => intro tc td i _; exact Or.inl rfl
  | succ fuel ih =>
      intro tc td i h
      rw [resolveValidationTypeForDefinition]
      by_cases hi : i < td.length
      · rw [dif_pos hi]
        have hnc : isCustomMember m (td.get ⟨i, hi⟩) = false :=
          h _ (td.get_mem _ _)
        have hl : lookupCustom m (td.get ⟨i, hi⟩) = none := by
          rcases hl' : lookupCustom m (td.get ⟨i, hi⟩) with _ | ct
          · rfl
          · rw [show isCustomMember m (td.get ⟨i, hi⟩) =
                (lookupCustom m (td.get ⟨i, hi⟩)).isSome from rfl, hl'] at hnc
            cases hnc
        rw [hl]
        exact ih tc td (i + 1) h
      · rw [dif_neg hi]
        exact Or.inr rfl

/-- Unfolding `finishResolveValidationType` on an object node. -/
theorem finishResolveValidationType_obj (fs : List (String × Json)) (td : List Json) :
    finishResolveValidationType (.obj fs, td) =
      some (.obj (Json.setField fs "type"
        (match dedupSVZ td with
          | [x] => x
          | xs => Json.arr xs))) := rfl

/-- Re-resolving a node whose `type` binding is already fixed either runs out
of fuel or returns the node unchanged. -/
theorem resolveValidationType_refix (m : List (String × Json)) (hm : TypesOkP m)
    (fs : List (String × Json)) (T : Json)
    (hT : Json.lookupField fs "type" = some T)
    (hfix : typeValueFixed (m.map Prod.fst) T) :
    ∀ f2, resolveValidationType m f2 (.obj fs) = none ∨
          resolveValidationType m f2 (.obj fs) = some (.obj fs) := by
  intro f2
  unfold resolveValidationType
  have hgp : (Json.obj fs).getProp "type" = T := by
    show (Json.lookupField fs "type").getD .undef = T
    rw [hT]
    rfl
  rw [hgp]
  have hnc : ∀ e ∈ wrapTypeList T, isCustomMember m e = false := by
    intro e he
    exact (isCustomMember_eq_false_iff m hm e).mpr (hfix.1 e he)
  rcases resolveDefn_allskip m f2 (.obj fs) (wrapTypeList T) 0 hnc with h | h
  · rw [h]
    exact Or.inl rfl
  · rw [h]
    refine Or.inr ?_
    have hfin : finishResolveValidationType (.obj fs, wrapTypeList T) =
        some (.obj (Json.setField fs "type" T)) := by
      cases T with
      | arr xs =>
          obtain ⟨hded, hlen⟩ := hfix.2 xs rfl
          rw [finishResolveValidationType_obj,
            show wrapTypeList (Json.arr xs) = xs from rfl, hded]
          cases xs with
          | nil => rfl
          | cons a t =>
              cases t with
              | nil => simp at hlen
              | cons b u => rfl
      | undef => rfl
      | null => rfl
      | bool b => rfl
      | num n => rfl
      | str s => rfl
      | obj ofs => rfl
    show finishResolveValidationType (.obj fs, wrapTypeList T) = some (.obj fs)
    rw [hfin, Json.setField_same fs "type" T hT]

/-- The shape of a successful `resolveValidationType`: a well-formed truthy
object whose `type` binding is fixed for the map's key set. -/
theorem resolveValidationType_shape (m : List (String × Json)) (hm : TypesOkP m)
    (fuel : Nat) (tc tc1 : Json) (hwf : DeepOK tc)
    (h : resolveValidationType m fuel tc = some tc1) :
    DeepOK tc1 ∧ tc1.truthy = true ∧ ∃ fs1 T, tc1 = .obj fs1 ∧
      Json.lookupField fs1 "type" = some T ∧ typeValueFixed (m.map Prod.fst) T ∧
      (wrapTypeList (tc.getProp "type") ≠ [] → typeFieldOk T = true) := by
  cases tc with
  | undef => rw [resolveValidationType_nonobj m fuel _ (fun fs hfs => by cases hfs)] at h; cases h
  | null => rw [resolveValidationType_nonobj m fuel _ (fun fs hfs => by cases hfs)] at h; cases h
  | bool b => rw [resolveValidationType_nonobj m fuel _ (fun fs hfs => by cases hfs)] at h; cases h
  | num n => rw [resolveValidationType_nonobj m fuel _ (fun fs hfs => by cases hfs)] at h; cases h
  | str s => rw [resolveValidationType_nonobj m fuel _ (fun fs hfs => by cases hfs)] at h; cases h
  | arr xs => rw [resolveValidationType_nonobj m fuel _ (fun fs hfs => by cases hfs)] at h; cases h
  | obj tfs =>
      unfold resolveValidationType at h
      rcases hloop : resolveValidationTypeForDefinition m fuel (.obj tfs)
          (wrapTypeList ((Json.obj tfs).getProp "type")) 0 with _ | p
      · rw [hloop] at h
        cases h
      · rw [hloop] at h
        simp only [Option.bind_eq_bind, Option.some_bind] at h
        obtain ⟨tc0, td'⟩ := p
        have hQ0 : ∀ e ∈ wrapTypeList ((Json.obj tfs).getProp "type"),
            jsonNonArr e = true ∧ DeepOK e := by
          intro e he
          refine ⟨?_, DeepOK_wrap _ (DeepOK_getProp _ "type" hwf) e he⟩
          have htm := ((DeepOK_obj_iff tfs).mp hwf).2.1
          rcases hgp : (Json.obj tfs).getProp "type" with _ | _ | b2 | n2 | s2 | xs2 | fs2
          · rw [hgp] at he
            rw [List.mem_singleton.mp he]
            rfl
          · rw [hgp] at he
            rw [List.mem_singleton.mp he]
            rfl
          · rw [hgp] at he
            rw [List.mem_singleton.mp he]
            rfl
          · rw [hgp] at he
            rw [List.mem_singleton.mp he]
            rfl
          · rw [hgp] at he
            rw [List.mem_singleton.mp he]
            rfl
          · rw [hgp] at he
            rw [hgp, typeMembersNonArr] at htm
            simp only [List.all_eq_true] at htm
            exact htm e he
          · rw [hgp] at he
            rw [List.mem_singleton.mp he]
            rfl
        obtain ⟨hQ', hnc', hne', hobj'⟩ :=
          resolveDefn_invariant m hm fuel (.obj tfs) _ 0 tc0 td' hloop hQ0
            (by intro e he; cases he)
        obtain ⟨fs0, hfs0, hd0⟩ := hobj' tfs rfl hwf
        rw [hfs0] at h
        replace h : some (.obj (Json.setField fs0 "type"
            (match dedupSVZ td' with | [x] => x | xs => Json.arr xs))) = some tc1 := h
        have hsub : ∀ x ∈ dedupSVZ td', x ∈ td' := fun x hx => dedupSVZGo_subset x [] td' hx
        rcases hded : dedupSVZ td' with _ | ⟨x, t⟩
        · rw [hded] at h
          replace h : some (Json.obj (Json.setField fs0 "type" (Json.arr []))) = some tc1 := h
          have htc1 : tc1 = .obj (Json.setField fs0 "type" (.arr [])) := (Option.some.inj h).symm
          refine ⟨?_, by rw [htc1]; rfl, Json.setField fs0 "type" (.arr []), .arr [], htc1,
            by rw [Json.lookupField_setField, if_pos rfl], ⟨?_, ?_⟩, ?_⟩
          · rw [htc1]
            refine DeepOK_setField fs0 "type" (.arr []) ?_ ?_ (fun _ => rfl)
            · rw [← hfs0]
              exact hd0
            · exact (DeepOK_arr_iff []).mpr (by intro x hx; cases hx)
          · intro e he
            cases he
          · rintro xs2 h2
            obtain rfl : xs2 = ([] : List Json) := by
              injection h2 with h3
              exact h3.symm
            exact ⟨rfl, by decide⟩
          · intro hwne
            obtain ⟨c0, rest, rfl⟩ := List.exists_cons_of_ne_nil (hne' hwne)
            exact absurd hded (dedupSVZ_ne_nil c0 rest)
        · cases t with
          | nil =>
              rw [hded] at h
              replace h : some (Json.obj (Json.setField fs0 "type" x)) = some tc1 := h
              have htc1 : tc1 = .obj (Json.setField fs0 "type" x) := (Option.some.inj h).symm
              have hxmem : x ∈ td' := hsub x (by rw [hded]; exact List.mem_singleton.mpr rfl)
              have hxna : jsonNonArr x = true := (hQ' x hxmem).1
              have hxD : DeepOK x := (hQ' x hxmem).2
              have hxnc : isCustomMember m x = false := hnc' x hxmem
              have hxtm : typeMembersNonArr x = true := by
                cases x <;> first | rfl | cases hxna
              refine ⟨?_, by rw [htc1]; rfl, Json.setField fs0 "type" x, x, htc1,
                by rw [Json.lookupField_setField, if_pos rfl], ⟨?_, ?_⟩, fun _ => ?_⟩
              · rw [htc1]
                refine DeepOK_setField fs0 "type" x ?_ hxD (fun _ => hxtm)
                rw [← hfs0]
                exact hd0
              · intro e he
                have hwx : wrapTypeList x = [x] := by
                  cases x <;> first | rfl | cases hxna
                rw [hwx] at he
                rw [List.mem_singleton.mp he]
                exact (isCustomMember_eq_false_iff m hm x).mp hxnc
              · rintro xs2 rfl
                cases hxna
              · cases x <;> first | rfl | cases hxna
          | cons y u =>
              rw [hded] at h
              replace h : some (Json.obj (Json.setField fs0 "type" (Json.arr (x :: y :: u))))
                  = some tc1 := h
              have htc1 : tc1 = .obj (Json.setField fs0 "type" (.arr (x :: y :: u))) :=
                (Option.some.inj h).symm
              have hmem : ∀ e ∈ x :: y :: u, e ∈ td' := by
                intro e he
                exact hsub e (by rw [hded]; exact he)
              have hna : ∀ e ∈ x :: y :: u, jsonNonArr e = true :=
                fun e he => (hQ' e (hmem e he)).1
              refine ⟨?_, by rw [htc1]; rfl, Json.setField fs0 "type" (.arr (x :: y :: u)),
                .arr (x :: y :: u), htc1,
                by rw [Json.lookupField_setField, if_pos rfl], ⟨?_, ?_⟩, fun _ => ?_⟩
              · rw [htc1]
                refine DeepOK_setField fs0 "type" (.arr (x :: y :: u)) ?_ ?_ (fun _ => ?_)
                · rw [← hfs0]
                  exact hd0
                · exact (DeepOK_arr_iff _).mpr (fun e he => (hQ' e (hmem e he)).2)
                · rw [typeMembersNonArr]
                  simp only [List.all_eq_true]
                  exact hna
              · intro e he
                exact (isCustomMember_eq_false_iff m hm e).mp (hnc' e (hmem e he))
              · rintro xs2 h2
                obtain rfl : xs2 = x :: y :: u := by
                  injection h2 with h3
                  exact h3.symm
                constructor
                · have := dedupSVZGo_idem td' []
                  show dedupSVZGo [] (x :: y :: u) = x :: y :: u
                  rw [← hded]
                  show dedupSVZGo [] (dedupSVZGo [] td') = dedupSVZGo [] td'
                  exact this
                · simp
              · rw [typeFieldOk]
                simp only [Bool.and_eq_true, List.all_eq_true]
                exact ⟨rfl, hna⟩

/-! ## Resolving the map against itself: shape and fixed point -/

/-- The threaded fold of `resolveCustomInnerTypes` preserves well-formedness
and the key list, leaves keys outside the snapshot alone, and leaves every
processed key's value resolved. -/
theorem resolveTypesGo_shape :
    ∀ (fuel : Nat) (ks : List String) (m m' : List (String × Json)),
      TypesOkP m → resolveCustomInnerTypesGo fuel ks m = some m' →
      TypesOkP m' ∧ m'.map Prod.fst = m.map Prod.fst ∧
      (∀ k, k ∉ ks → Json.lookupField m' k = Json.lookupField m k) ∧
      (ks.Nodup → ∀ k ∈ ks, ∀ tc', Json.lookupField m' k = some tc' →
        ResolvedVal (m.map Prod.fst) tc') := by
  intro fuel ks
  induction ks with
  | nil =>
      intro m m' hm h
      replace h : some m = some m' := h
      obtain rfl := Option.some.inj h
      exact ⟨hm, rfl, fun _ _ => rfl, fun _ k hk => absurd hk (List.not_mem_nil k)⟩
  | cons k rest ih =>
      intro m m' hm h
      rw [resolveCustomInnerTypesGo] at h
      split at h
      · rename_i hlk
        obtain ⟨c1, c2, c3, c4⟩ := ih m m' hm h
        refine ⟨c1, c2, fun k' hk' => c3 k' (fun hmem => hk' (List.mem_cons_of_mem _ hmem)),
          ?_⟩
        intro hnd k'' hk'' tc' hl'
        rw [List.nodup_cons] at hnd
        rcases List.mem_cons.mp hk'' with rfl | hk''
        · rw [c3 k'' hnd.1, hlk] at hl'
          cases hl'
        · exact c4 hnd.2 k'' hk'' tc' hl'
      · rename_i tc hlk
        split at h
        · cases h
        · rename_i tc' hrv
          obtain ⟨⟨tfs, htcobj⟩, htcf, htcd⟩ := TypesOkP_lookup m hm k tc hlk
          obtain ⟨hd1, htr1, fs1, T, htc'eq, hlkT, hfixT, htfok⟩ :=
            resolveValidationType_shape m hm fuel tc tc' htcd hrv
          have hTok : typeFieldOk T = true := by
            refine htfok ?_
            rw [htcobj]
            rcases hgp : (Json.obj tfs).getProp "type" with _ | _ | b | n | s | xs | gfs
            · intro hc; cases hc
            · intro hc; cases hc
            · intro hc; cases hc
            · intro hc; cases hc
            · intro hc; cases hc
            · rw [htcobj, hgp, typeFieldOk] at htcf
              simp only [Bool.and_eq_true] at htcf
              intro hc
              rw [show wrapTypeList (Json.arr xs) = xs from rfl] at hc
              rw [hc] at htcf
              cases htcf.1
            · intro hc; cases hc
          have hkeys : (Json.setField m k tc').map Prod.fst = m.map Prod.fst :=
            Json.keys_setField_of_lookup m k tc' tc hlk
          have hok2 : TypesOkP (Json.setField m k tc') := by
            intro kv hkv
            rcases Json.mem_setField m k tc' kv hkv with rfl | hkv'
            · refine ⟨⟨fs1, htc'eq⟩, ?_, hd1⟩
              rw [htc'eq]
              show typeFieldOk ((Json.lookupField fs1 "type").getD .undef) = true
              rw [hlkT]
              exact hTok
            · exact hm kv hkv'
          obtain ⟨d1, d2, d3, d4⟩ := ih _ m' hok2 h
          refine ⟨d1, d2.trans hkeys, ?_, ?_⟩
          · intro k' hk'
            have hkk' : k ≠ k' := fun hc => hk' (hc ▸ List.mem_cons_self _ _)
            rw [d3 k' (fun hmem => hk' (List.mem_cons_of_mem _ hmem)),
              Json.lookupField_setField, if_neg hkk']
          · intro hnd k'' hk'' tc'' hl'
            rw [List.nodup_cons] at hnd
            rcases List.mem_cons.mp hk'' with rfl | hk''
            · rw [d3 k'' hnd.1, Json.lookupField_setField, if_pos rfl] at hl'
              obtain rfl := Option.some.inj hl'
              exact ⟨fs1, T, htc'eq, hlkT, hfixT⟩
            · have := d4 hnd.2 k'' hk'' tc'' hl'
              rw [hkeys] at this
              exact this

/-- Re-running the fold over an already-resolved map either runs out of fuel
or is the identity. -/
theorem resolveTypesGo_refix (m : List (String × Json)) (hm : TypesOkP m)
    (hvals : ∀ k tc', Json.lookupField m k = some tc' →
      ResolvedVal (m.map Prod.fst) tc') :
    ∀ (f2 : Nat) (ks : List String),
      resolveCustomInnerTypesGo f2 ks m = none ∨
      resolveCustomInnerTypesGo f2 ks m = some m := by
  intro f2 ks
  induction ks with
  | nil => exact Or.inr rfl
  | cons k rest ih =>
      rcases hgo : resolveCustomInnerTypesGo f2 (k :: rest) m with _ | m2
      · exact Or.inl rfl
      · rw [resolveCustomInnerTypesGo] at hgo
        split at hgo
        · rcases ih with hr | hr
          · rw [hr] at hgo
            cases hgo
          · rw [hr] at hgo
            obtain rfl := Option.some.inj hgo
            exact Or.inr rfl
        · rename_i tc hlk
          split at hgo
          · cases hgo
          · rename_i tc' hrv
            obtain ⟨fs, T, rfl, hlkT, hfix⟩ := hvals k tc hlk
            rcases resolveValidationType_refix m hm fs T hlkT hfix f2 with hr | hr
            · rw [hr] at hrv
              cases hrv
            · rw [hr] at hrv
              obtain rfl := Option.some.inj hrv
              rw [Json.setField_same m k (Json.obj fs) hlk] at hgo
              rcases ih with hr2 | hr2
              · rw [hr2] at hgo
                cases hgo
              · rw [hr2] at hgo
                obtain rfl := Option.some.inj hgo
                exact Or.inr rfl

/-- `resolveCustomInnerTypes` yields a well-formed map with the same keys, all
of whose values are resolved. -/
theorem resolveCustomInnerTypes_shape (fuel : Nat) (tys tys' : List (String × Json))
    (hnd : (tys.map Prod.fst).Nodup) (hok : TypesOkP tys)
    (h : resolveCustomInnerTypes fuel tys = some tys') :
    TypesOkP tys' ∧ tys'.map Prod.fst = tys.map Prod.fst ∧
    (∀ k tc', Json.lookupField tys' k = some tc' →
      ResolvedVal (tys'.map Prod.fst) tc') := by
  obtain ⟨c1, c2, _, c4⟩ := resolveTypesGo_shape fuel (tys.map Prod.fst) tys tys' hok h
  refine ⟨c1, c2, ?_⟩
  intro k tc' hlk
  have hkmem : k ∈ tys'.map Prod.fst :=
    List.mem_map_of_mem Prod.fst (Json.lookupField_mem _ _ _ hlk)
  rw [c2] at hkmem
  have := c4 hnd k hkmem tc' hlk
  rw [c2]
  exact this

/-- Re-running `resolveCustomInnerTypes` on its own output either runs out of
fuel or is the identity. -/
theorem resolveCustomInnerTypes_refix (tys' : List (String × Json))
    (hok : TypesOkP tys')
    (hvals : ∀ k tc', Json.lookupField tys' k = some tc' →
      ResolvedVal (tys'.map Prod.fst) tc') :
    ∀ f2, resolveCustomInnerTypes f2 tys' = none ∨
      resolveCustomInnerTypes f2 tys' = some tys' := by
  intro f2
  exact resolveTypesGo_refix tys' hok hvals f2 (tys'.map Prod.fst)

/-! ## Walker shape lemmas -/

/-- The walker leaves non-objects untouched (every guard reads a property,
and property reads on non-objects give `undefined`). -/
theorem resolveWalk_nonobj (m : List (String × Json)) (fuel : Nat) (v : Json)
    (h : ∀ fs, v ≠ .obj fs) :
    resolveCustomTypesForValidation m (fuel + 1) v = some v := by
  cases v with
  | obj fs => exact absurd rfl (h fs)
  | undef => rfl
  | null => rfl
  | bool b => rfl
  | num n => rfl
  | str s => rfl
  | arr xs => rfl

/-- `processValidationInner` rebinds the key only when it was truthy. -/
theorem processValidationInner_shape_truthy (r1 wc : Json → Option Json) (v v' : Json)
    (key : String) (h : processValidationInner r1 wc v key = some v') :
    v' = v ∨ ((v.getProp key).truthy = true ∧ ∃ w, v' = v.setProp key w) := by
  unfold processValidationInner at h
  split_ifs at h with htr
  · rcases hp : processInnerValue r1 wc (v.getProp key) with _ | upd
    · rw [hp] at h
      cases h
    · rw [hp] at h
      cases upd with
      | some w => exact Or.inr ⟨htr, w, (Option.some.inj h).symm⟩
      | none => exact Or.inl (Option.some.inj h).symm
  · exact Or.inl (Option.some.inj h).symm

/-- `processValidationItems` rebinds `items` only when it was truthy. -/
theorem processValidationItems_shape_truthy (r1 wc : Json → Option Json) (v v' : Json)
    (h : processValidationItems r1 wc v = some v') :
    v' = v ∨ ((v.getProp "items").truthy = true ∧ ∃ w, v' = v.setProp "items" w) := by
  unfold processValidationItems at h
  split_ifs at h with htr
  · rcases hp : processItemsValue r1 wc (v.getProp "items") with _ | w
    · rw [hp] at h
      cases h
    · rw [hp] at h
      exact Or.inr ⟨htr, w, (Option.some.inj h).symm⟩
  · exact Or.inl (Option.some.inj h).symm

/-- A truthy property of an object is a field. -/
theorem Json.lookupField_of_truthy (fs : List (String × Json)) (key : String)
    (htr : ((Json.obj fs).getProp key).truthy = true) :
    Json.lookupField fs key = some ((Json.obj fs).getProp key) := by
  rcases hl : Json.lookupField fs key with _ | u
  · exfalso
    have : (Json.obj fs).getProp key = .undef := by
      show (Json.lookupField fs key).getD .undef = .undef
      rw [hl]
      rfl
    rw [this] at htr
    cases htr
  · have hgp : (Json.obj fs).getProp key = u := by
      show (Json.lookupField fs key).getD .undef = u
      rw [hl]
      rfl
    rw [hgp]

/-- `processValidationInner` on an object: the fields keep their keys and
every other binding. -/
theorem processValidationInner_fields (r1 wc : Json → Option Json)
    (fs : List (String × Json)) (v' : Json) (key : String)
    (h : processValidationInner r1 wc (.obj fs) key = some v') :
    ∃ fs', v' = .obj fs' ∧ fs'.map Prod.fst = fs.map Prod.fst ∧
      ∀ k, k ≠ key → Json.lookupField fs' k = Json.lookupField fs k := by
  rcases processValidationInner_shape_truthy r1 wc (.obj fs) v' key h with
    rfl | ⟨htr, w, rfl⟩
  · exact ⟨fs, rfl, rfl, fun _ _ => rfl⟩
  · have hu := Json.lookupField_of_truthy fs key htr
    refine ⟨Json.setField fs key w, rfl,
      Json.keys_setField_of_lookup fs key w _ hu, ?_⟩
    intro k hk
    rw [Json.lookupField_setField, if_neg (fun hc => hk hc.symm)]

/-- `processValidationItems` on an object: the fields keep their keys and
every other binding. -/
theorem processValidationItems_fields (r1 wc : Json → Option Json)
    (fs : List (String × Json)) (v' : Json)
    (h : processValidationItems r1 wc (.obj fs) = some v') :
    ∃ fs', v' = .obj fs' ∧ fs'.map Prod.fst = fs.map Prod.fst ∧
      ∀ k, k ≠ "items" → Json.lookupField fs' k = Json.lookupField fs k := by
  rcases processValidationItems_shape_truthy r1 wc (.obj fs) v' h with
    rfl | ⟨htr, w, rfl⟩
  · exact ⟨fs, rfl, rfl, fun _ _ => rfl⟩
  · have hu := Json.lookupField_of_truthy fs "items" htr
    refine ⟨Json.setField fs "items" w, rfl,
      Json.keys_setField_of_lookup fs "items" w _ hu, ?_⟩
    intro k hk
    rw [Json.lookupField_setField, if_neg (fun hc => hk hc.symm)]

/-- The walker on an object yields an object with the same keys and untouched
bindings outside the five collection keys. -/
theorem resolveWalk_shape (m : List (String × Json)) (fuel : Nat)
    (fs : List (String × Json)) (v' : Json)
    (h : resolveCustomTypesForValidation m fuel (.obj fs) = some v') :
    ∃ fs', v' = .obj fs' ∧ fs'.map Prod.fst = fs.map Prod.fst ∧
      ∀ k, k ≠ "properties" → k ≠ "oneOf" → k ≠ "allOf" → k ≠ "anyOf" → k ≠ "items" →
        Json.lookupField fs' k = Json.lookupField fs k := by
  cases fuel with
  | zero => cases h
  | succ n =>
      rw [resolveCustomTypesForValidation] at h
      rcases e1 : processValidationInner (resolveValidationType m (n + 1))
          (fun tc => resolveCustomTypesForValidation m n tc) (.obj fs) "properties"
        with _ | v1
      · rw [e1] at h; cases h
      rw [e1] at h
      simp only [Option.bind_eq_bind, Option.some_bind] at h
      obtain ⟨fs1, rfl, hk1, hl1⟩ := processValidationInner_fields _ _ fs v1 "properties" e1
      rcases e2 : processValidationInner (resolveValidationType m (n + 1))
          (fun tc => resolveCustomTypesForValidation m n tc) (.obj fs1) "oneOf"
        with _ | v2
      · rw [e2] at h; cases h
      rw [e2] at h
      simp only [Option.bind_eq_bind, Option.some_bind] at h
      obtain ⟨fs2, rfl, hk2, hl2⟩ := processValidationInner_fields _ _ fs1 v2 "oneOf" e2
      rcases e3 : processValidationInner (resolveValidationType m (n + 1))
          (fun tc => resolveCustomTypesForValidation m n tc) (.obj fs2) "allOf"
        with _ | v3
      · rw [e3] at h; cases h
      rw [e3] at h
      simp only [Option.bind_eq_bind, Option.some_bind] at h
      obtain ⟨fs3, rfl, hk3, hl3⟩ := processValidationInner_fields _ _ fs2 v3 "allOf" e3
      rcases e4 : processValidationInner (resolveValidationType m (n + 1))
          (fun tc => resolveCustomTypesForValidation m n tc) (.obj fs3) "anyOf"
        with _ | v4
      · rw [e4] at h; cases h
      rw [e4] at h
      simp only [Option.bind_eq_bind, Option.some_bind] at h
      obtain ⟨fs4, rfl, hk4, hl4⟩ := processValidationInner_fields _ _ fs3 v4 "anyOf" e4
      obtain ⟨fs5, rfl, hk5, hl5⟩ := processValidationItems_fields _ _ fs4 v' h
      refine ⟨fs5, rfl, (hk5.trans (hk4.trans (hk3.trans (hk2.trans hk1)))), ?_⟩
      intro k h1 h2 h3 h4 h5
      rw [hl5 k h5, hl4 k h4, hl3 k h3, hl2 k h2, hl1 k h1]

/-- Walking the character fields of a nonempty string always fails: each
character is a string, whose resolution write-back fails. -/
theorem walkChildren_str_fail (m : List (String × Json)) (g : Nat)
    (wc : Json → Option Json) (s : String) (hs : s ≠ "") :
    walkChildrenWith (resolveValidationType m g) wc ((Json.str s).jsFields) = none := by
  obtain ⟨c, cs, hcs⟩ : ∃ c cs, s.toList = c :: cs := by
    rcases hl : s.toList with _ | ⟨c, cs⟩
    · exfalso
      obtain ⟨data⟩ := s
      simp only [String.toList] at hl
      subst hl
      exact hs rfl
    · exact ⟨c, cs, rfl⟩
  show walkChildrenWith (resolveValidationType m g) wc
    (s.toList.enum.map fun ic => (toString ic.1, Json.str ic.2.toString)) = none
  rw [hcs, List.enum_cons, List.map_cons]
  show (resolveValidationType m g (Json.str c.toString)).bind _ = none
  rw [resolveValidationType_nonobj m g _ (fun fs hf => by cases hf)]
  rfl

/-- Re-walking a list of children that each re-resolve and re-walk to
themselves rebuilds the same list (or runs out of fuel). -/
theorem walkChildren_pass2 (r1' wc' : Json → Option Json) :
    ∀ (kvs : List (String × Json)),
      (∀ kv ∈ kvs, (r1' kv.2 = none ∨ r1' kv.2 = some kv.2) ∧
        (wc' kv.2 = none ∨ wc' kv.2 = some kv.2)) →
      walkChildrenWith r1' wc' kvs = none ∨ walkChildrenWith r1' wc' kvs = some kvs
  | [], _ => Or.inr rfl
  | (k, tc) :: rest, h => by
      have hhead := h (k, tc) (List.mem_cons_self _ _)
      have heq : walkChildrenWith r1' wc' ((k, tc) :: rest) =
          (r1' tc).bind (fun tc1 => (wc' tc1).bind (fun tc2 =>
            (walkChildrenWith r1' wc' rest).bind
              (fun rest' => some ((k, tc2) :: rest')))) := rfl
      rcases hhead.1 with hr | hr
      · rw [heq, hr]
        exact Or.inl rfl
      · rcases hhead.2 with hw | hw
        · rw [heq, hr, Option.some_bind, hw]
          exact Or.inl rfl
        · rcases walkChildren_pass2 r1' wc' rest
            (fun kv hkv => h kv (List.mem_cons_of_mem _ hkv)) with hrest | hrest
          · rw [heq, hr, Option.some_bind, hw, Option.some_bind, hrest]
            exact Or.inl rfl
          · rw [heq, hr, Option.some_bind, hw, Option.some_bind, hrest]
            exact Or.inr rfl

/-- The first walk of a child list yields children that re-resolve and
re-walk to themselves, with the same keys. -/
theorem walkChildren_refix (r1 wc r1' wc' : Json → Option Json)
    (hres : ∀ tc tc1 tc2, DeepOK tc → r1 tc = some tc1 → wc tc1 = some tc2 →
      (r1' tc2 = none ∨ r1' tc2 = some tc2) ∧ (wc' tc2 = none ∨ wc' tc2 = some tc2)) :
    ∀ (kvs kvs1 : List (String × Json)),
      (∀ kv ∈ kvs, DeepOK kv.2) →
      walkChildrenWith r1 wc kvs = some kvs1 →
      kvs1.map Prod.fst = kvs.map Prod.fst ∧
      ∀ kv ∈ kvs1, (r1' kv.2 = none ∨ r1' kv.2 = some kv.2) ∧
        (wc' kv.2 = none ∨ wc' kv.2 = some kv.2)
  | [], kvs1, _, h => by
      replace h : some [] = some kvs1 := h
      obtain rfl := Option.some.inj h
      exact ⟨rfl, fun kv hkv => absurd hkv (List.not_mem_nil kv)⟩
  | (k, tc) :: rest, kvs1, hwf, h => by
      replace h : (r1 tc).bind (fun tc1 => (wc tc1).bind (fun tc2 =>
          (walkChildrenWith r1 wc rest).bind
            (fun rest' => some ((k, tc2) :: rest')))) = some kvs1 := h
      rcases hr : r1 tc with _ | tc1
      · rw [hr] at h
        cases h
      rw [hr, Option.some_bind] at h
      rcases hw : wc tc1 with _ | tc2
      · rw [hw] at h
        cases h
      rw [hw, Option.some_bind] at h
      rcases hrest : walkChildrenWith r1 wc rest with _ | rest1
      · rw [hrest] at h
        cases h
      rw [hrest, Option.some_bind] at h
      obtain rfl := Option.some.inj h
      obtain ⟨hkeys, hmem⟩ := walkChildren_refix r1 wc r1' wc' hres rest rest1
        (fun kv hkv => hwf kv (List.mem_cons_of_mem _ hkv)) hrest
      refine ⟨by rw [List.map_cons, List.map_cons, hkeys], ?_⟩
      intro kv hkv
      rcases List.mem_cons.mp hkv with heq | hkv'
      · rw [heq]
        exact hres tc tc1 tc2 (hwf (k, tc) (List.mem_cons_self _ _)) hr hw
      · exact hmem kv hkv'

/-- A resolved-then-walked child re-resolves and re-walks to itself at any
fuel (given the outer induction hypothesis for the re-walk). -/
theorem child_refix (m : List (String × Json)) (hm : TypesOkP m) (fuel g : Nat)
    (ih : ∀ v v', DeepOK v → resolveCustomTypesForValidation m fuel v = some v' →
      ∀ f2, resolveCustomTypesForValidation m f2 v' = none ∨
            resolveCustomTypesForValidation m f2 v' = some v') :
    ∀ (tc tc1 tc2 : Json), DeepOK tc →
      resolveValidationType m (fuel + 1) tc = some tc1 →
      resolveCustomTypesForValidation m fuel tc1 = some tc2 →
      (resolveValidationType m (g + 1) tc2 = none ∨
       resolveValidationType m (g + 1) tc2 = some tc2) ∧
      (resolveCustomTypesForValidation m g tc2 = none ∨
       resolveCustomTypesForValidation m g tc2 = some tc2) := by
  intro tc tc1 tc2 hwf hr hw
  obtain ⟨hd1, _, fs1, T, rfl, hlkT, hfix, _⟩ :=
    resolveValidationType_shape m hm (fuel + 1) tc tc1 hwf hr
  obtain ⟨fs2, rfl, hkeys2, hlks2⟩ := resolveWalk_shape m fuel fs1 tc2 hw
  have hlkT2 : Json.lookupField fs2 "type" = some T := by
    rw [hlks2 "type" (by decide) (by decide) (by decide) (by decide) (by decide)]
    exact hlkT
  exact ⟨resolveValidationType_refix m hm fs2 T hlkT2 hfix (g + 1),
    ih (.obj fs1) (.obj fs2) hd1 hw g⟩

/-- One collection stage of the walker, re-run on a node carrying the
already-walked collection, fails only by fuel or leaves the node unchanged. -/
theorem processInner_stage_refix (m : List (String × Json)) (hm : TypesOkP m)
    (fuel g : Nat)
    (ih : ∀ v v', DeepOK v → resolveCustomTypesForValidation m fuel v = some v' →
      ∀ f2, resolveCustomTypesForValidation m f2 v' = none ∨
            resolveCustomTypesForValidation m f2 v' = some v')
    (vin vout : Json) (key : String)
    (hc : DeepOK (vin.getProp key))
    (h : processValidationInner (resolveValidationType m (fuel + 1))
      (fun tc => resolveCustomTypesForValidation m fuel tc) vin key = some vout) :
    ∀ (u : Json) (ufs : List (String × Json)), u = Json.obj ufs →
      u.getProp key = vout.getProp key →
      processValidationInner (resolveValidationType m (g + 1))
        (fun tc => resolveCustomTypesForValidation m g tc) u key = none ∨
      processValidationInner (resolveValidationType m (g + 1))
        (fun tc => resolveCustomTypesForValidation m g tc) u key = some u := by
  have hstage : ∀ (u : Json) (ufs : List (String × Json)) (w : Json), u = Json.obj ufs →
      u.getProp key = w → w.truthy = true →
      (processInnerValue (resolveValidationType m (g + 1))
        (fun tc => resolveCustomTypesForValidation m g tc) w = none ∨
       processInnerValue (resolveValidationType m (g + 1))
        (fun tc => resolveCustomTypesForValidation m g tc) w = some (some w)) →
      processValidationInner (resolveValidationType m (g + 1))
        (fun tc => resolveCustomTypesForValidation m g tc) u key = none ∨
      processValidationInner (resolveValidationType m (g + 1))
        (fun tc => resolveCustomTypesForValidation m g tc) u key = some u := by
    rintro u ufs w rfl hu htw hpi
    unfold processValidationInner
    rw [hu, if_pos htw]
    rcases hpi with hpi | hpi
    · rw [hpi]
      exact Or.inl rfl
    · rw [hpi]
      right
      have hlk := Json.lookupField_of_truthy ufs key (by rw [hu]; exact htw)
      rw [hu] at hlk
      show some (Json.obj (Json.setField ufs key w)) = some (Json.obj ufs)
      rw [Json.setField_same ufs key w hlk]
  intro u ufs hueq hu
  unfold processValidationInner at h
  split_ifs at h with htr
  · obtain ⟨vfs, rfl⟩ : ∃ vfs, vin = .obj vfs := by
      rcases vin with _ | _ | b | n | s | xs | vfs
      · cases htr
      · cases htr
      · exact absurd htr (by simp [Json.getProp, Json.truthy])
      · exact absurd htr (by simp [Json.getProp, Json.truthy])
      · exact absurd htr (by simp [Json.getProp, Json.truthy])
      · exact absurd htr (by simp [Json.getProp, Json.truthy])
      · exact ⟨vfs, rfl⟩
    rcases hp : processInnerValue (resolveValidationType m (fuel + 1))
        (fun tc => resolveCustomTypesForValidation m fuel tc)
        ((Json.obj vfs).getProp key) with _ | upd
    · rw [hp] at h
      cases h
    rw [hp] at h
    rcases hcv : (Json.obj vfs).getProp key with _ | _ | b | n | s | xs | kvs
    · rw [hcv] at htr
      cases htr
    · rw [hcv] at htr
      cases htr
    · rw [hcv] at hp
      replace hp : (some (none : Option Json)) = some upd := hp
      obtain rfl := Option.some.inj hp
      replace h : some (Json.obj vfs) = some vout := h
      obtain rfl := Option.some.inj h
      right
      unfold processValidationInner
      rw [hu, hcv, if_pos (by rw [← hcv]; exact htr)]
      rfl
    · rw [hcv] at hp
      replace hp : (some (none : Option Json)) = some upd := hp
      obtain rfl := Option.some.inj hp
      replace h : some (Json.obj vfs) = some vout := h
      obtain rfl := Option.some.inj h
      right
      unfold processValidationInner
      rw [hu, hcv, if_pos (by rw [← hcv]; exact htr)]
      rfl
    · exfalso
      rw [hcv] at hp htr
      have hs : s ≠ "" := by
        intro hc
        rw [hc] at htr
        cases htr
      replace hp : (walkChildrenWith (resolveValidationType m (fuel + 1))
          (fun tc => resolveCustomTypesForValidation m fuel tc)
          ((Json.str s).jsFields)).bind (fun _ => some none) = some upd := hp
      rw [walkChildren_str_fail m (fuel + 1) _ s hs] at hp
      cases hp
    · rw [hcv] at hp hc
      replace hp : (walkChildrenWith (resolveValidationType m (fuel + 1))
          (fun tc => resolveCustomTypesForValidation m fuel tc)
          ((Json.arr xs).jsFields)).bind
            (fun kvs' => some (some (Json.arr (kvs'.map Prod.snd)))) = some upd := hp
      rcases hwc : walkChildrenWith (resolveValidationType m (fuel + 1))
          (fun tc => resolveCustomTypesForValidation m fuel tc)
          ((Json.arr xs).jsFields) with _ | kvs1
      · rw [hwc] at hp
        cases hp
      rw [hwc, Option.some_bind] at hp
      obtain rfl := Option.some.inj hp
      replace h : some ((Json.obj vfs).setProp key (Json.arr (kvs1.map Prod.snd)))
          = some vout := h
      obtain rfl := Option.some.inj h
      obtain ⟨hkeys1, hmem1⟩ := walkChildren_refix _ _ _ _
        (child_refix m hm fuel g ih) _ kvs1 (DeepOK_jsFields _ hc) hwc
      have hvw : ((Json.obj vfs).setProp key (Json.arr (kvs1.map Prod.snd))).getProp key
          = Json.arr (kvs1.map Prod.snd) := Json.getProp_setProp_self vfs key _
      have hmem2 : ∀ kv ∈ (Json.arr (kvs1.map Prod.snd)).jsFields,
          (resolveValidationType m (g + 1) kv.2 = none ∨
           resolveValidationType m (g + 1) kv.2 = some kv.2) ∧
          (resolveCustomTypesForValidation m g kv.2 = none ∨
           resolveCustomTypesForValidation m g kv.2 = some kv.2) := by
        intro kv hkv
        have hv2 : kv.2 ∈ kvs1.map Prod.snd := by
          have := List.mem_map_of_mem Prod.snd hkv
          rw [Json.jsFields_arr_map_snd] at this
          exact this
        obtain ⟨kv', hkv', heq⟩ := List.mem_map.mp hv2
        rw [← heq]
        exact hmem1 kv' hkv'
      refine hstage u ufs (Json.arr (kvs1.map Prod.snd)) hueq (hu.trans hvw) rfl ?_
      rcases walkChildren_pass2 _ _ _ hmem2 with hp2 | hp2
      · left
        show (walkChildrenWith (resolveValidationType m (g + 1))
          (fun tc => resolveCustomTypesForValidation m g tc)
          ((Json.arr (kvs1.map Prod.snd)).jsFields)).bind
            (fun kvs' => some (some (Json.arr (kvs'.map Prod.snd)))) = none
        rw [hp2]
        rfl
      · right
        show (walkChildrenWith (resolveValidationType m (g + 1))
          (fun tc => resolveCustomTypesForValidation m g tc)
          ((Json.arr (kvs1.map Prod.snd)).jsFields)).bind
            (fun kvs' => some (some (Json.arr (kvs'.map Prod.snd))))
          = some (some (Json.arr (kvs1.map Prod.snd)))
        rw [hp2, Option.some_bind, Json.jsFields_arr_map_snd]
    · rw [hcv] at hp hc
      replace hp : (walkChildrenWith (resolveValidationType m (fuel + 1))
          (fun tc => resolveCustomTypesForValidation m fuel tc) kvs).bind
            (fun kvs' => some (some (Json.obj kvs'))) = some upd := hp
      rcases hwc : walkChildrenWith (resolveValidationType m (fuel + 1))
          (fun tc => resolveCustomTypesForValidation m fuel tc) kvs with _ | kvs1
      · rw [hwc] at hp
        cases hp
      rw [hwc, Option.some_bind] at hp
      obtain rfl := Option.some.inj hp
      replace h : some ((Json.obj vfs).setProp key (Json.obj kvs1)) = some vout := h
      obtain rfl := Option.some.inj h
      obtain ⟨hkeys1, hmem1⟩ := walkChildren_refix _ _ _ _
        (child_refix m hm fuel g ih) kvs kvs1
        (fun kv hkv => ((DeepOK_obj_iff kvs).mp hc).2.2 kv hkv) hwc
      have hvw : ((Json.obj vfs).setProp key (Json.obj kvs1)).getProp key
          = Json.obj kvs1 := Json.getProp_setProp_self vfs key _
      refine hstage u ufs (Json.obj kvs1) hueq (hu.trans hvw) rfl ?_
      rcases walkChildren_pass2 _ _ kvs1 hmem1 with hp2 | hp2
      · left
        show (walkChildrenWith (resolveValidationType m (g + 1))
          (fun tc => resolveCustomTypesForValidation m g tc) kvs1).bind
            (fun kvs' => some (some (Json.obj kvs'))) = none
        rw [hp2]
        rfl
      · right
        show (walkChildrenWith (resolveValidationType m (g + 1))
          (fun tc => resolveCustomTypesForValidation m g tc) kvs1).bind
            (fun kvs' => some (some (Json.obj kvs'))) = some (some (Json.obj kvs1))
        rw [hp2, Option.some_bind]
  · obtain rfl : vin = vout := Option.some.inj h
    right
    unfold processValidationInner
    rw [hu]
    rw [if_neg htr]

/-- The `items` stage of the walker, re-run on a node carrying the
already-walked `items`, fails only by fuel or leaves the node unchanged. -/
theorem processItems_stage_refix (m : List (String × Json)) (hm : TypesOkP m)
    (fuel g : Nat)
    (ih : ∀ v v', DeepOK v → resolveCustomTypesForValidation m fuel v = some v' →
      ∀ f2, resolveCustomTypesForValidation m f2 v' = none ∨
            resolveCustomTypesForValidation m f2 v' = some v')
    (vin vout : Json)
    (hc : DeepOK (vin.getProp "items"))
    (h : processValidationItems (resolveValidationType m (fuel + 1))
      (fun tc => resolveCustomTypesForValidation m fuel tc) vin = some vout) :
    ∀ (u : Json) (ufs : List (String × Json)), u = Json.obj ufs →
      u.getProp "items" = vout.getProp "items" →
      processValidationItems (resolveValidationType m (g + 1))
        (fun tc => resolveCustomTypesForValidation m g tc) u = none ∨
      processValidationItems (resolveValidationType m (g + 1))
        (fun tc => resolveCustomTypesForValidation m g tc) u = some u := by
  have hstage : ∀ (u : Json) (ufs : List (String × Json)) (w : Json), u = Json.obj ufs →
      u.getProp "items" = w → w.truthy = true →
      (processItemsValue (resolveValidationType m (g + 1))
        (fun tc => resolveCustomTypesForValidation m g tc) w = none ∨
       processItemsValue (resolveValidationType m (g + 1))
        (fun tc => resolveCustomTypesForValidation m g tc) w = some w) →
      processValidationItems (resolveValidationType m (g + 1))
        (fun tc => resolveCustomTypesForValidation m g tc) u = none ∨
      processValidationItems (resolveValidationType m (g + 1))
        (fun tc => resolveCustomTypesForValidation m g tc) u = some u := by
    rintro u ufs w rfl hu htw hpi
    unfold processValidationItems
    rw [hu, if_pos htw]
    rcases hpi with hpi | hpi
    · rw [hpi]
      exact Or.inl rfl
    · rw [hpi]
      right
      have hlk := Json.lookupField_of_truthy ufs "items" (by rw [hu]; exact htw)
      rw [hu] at hlk
      show some (Json.obj (Json.setField ufs "items" w)) = some (Json.obj ufs)
      rw [Json.setField_same ufs "items" w hlk]
  intro u ufs hueq hu
  unfold processValidationItems at h
  split_ifs at h with htr
  · obtain ⟨vfs, rfl⟩ : ∃ vfs, vin = .obj vfs := by
      rcases vin with _ | _ | b | n | s | xs | vfs
      · cases htr
      · cases htr
      · exact absurd htr (by simp [Json.getProp, Json.truthy])
      · exact absurd htr (by simp [Json.getProp, Json.truthy])
      · exact absurd htr (by simp [Json.getProp, Json.truthy])
      · exact absurd htr (by simp [Json.getProp, Json.truthy])
      · exact ⟨vfs, rfl⟩
    rcases hp : processItemsValue (resolveValidationType m (fuel + 1))
        (fun tc => resolveCustomTypesForValidation m fuel tc)
        ((Json.obj vfs).getProp "items") with _ | w
    · rw [hp] at h
      cases h
    rw [hp] at h
    replace h : some ((Json.obj vfs).setProp "items" w) = some vout := h
    obtain rfl := Option.some.inj h
    have hvw : ((Json.obj vfs).setProp "items" w).getProp "items" = w :=
      Json.getProp_setProp_self vfs "items" w
    have hnonarr : ∀ (C : Json), DeepOK C →
        (resolveValidationType m (fuel + 1) C).bind
          (fun item1 => resolveCustomTypesForValidation m fuel item1) = some w →
        ((processItemsValue (resolveValidationType m (g + 1))
          (fun tc => resolveCustomTypesForValidation m g tc) w = none ∨
         processItemsValue (resolveValidationType m (g + 1))
          (fun tc => resolveCustomTypesForValidation m g tc) w = some w) ∧
        w.truthy = true) := by
      intro C hcD hbind
      rcases hr : resolveValidationType m (fuel + 1) C with _ | c1
      · rw [hr] at hbind
        cases hbind
      rw [hr, Option.some_bind] at hbind
      obtain ⟨hd1, _, fs1, T, rfl, hlkT, hfix, _⟩ :=
        resolveValidationType_shape m hm (fuel + 1) C c1 hcD hr
      obtain ⟨fs2, rfl, hkeys2, hlks2⟩ := resolveWalk_shape m fuel fs1 w hbind
      have hlkT2 : Json.lookupField fs2 "type" = some T := by
        rw [hlks2 "type" (by decide) (by decide) (by decide) (by decide) (by decide)]
        exact hlkT
      have hr1' := resolveValidationType_refix m hm fs2 T hlkT2 hfix (g + 1)
      have hw1' := ih (.obj fs1) (.obj fs2) hd1 hbind g
      refine ⟨?_, rfl⟩
      rcases hr1' with hx | hx
      · left
        show (resolveValidationType m (g + 1) (Json.obj fs2)).bind
          (fun item1 => resolveCustomTypesForValidation m g item1) = none
        rw [hx]
        rfl
      · rcases hw1' with hx2 | hx2
        · left
          show (resolveValidationType m (g + 1) (Json.obj fs2)).bind
            (fun item1 => resolveCustomTypesForValidation m g item1) = none
          rw [hx, Option.some_bind, hx2]
        · right
          show (resolveValidationType m (g + 1) (Json.obj fs2)).bind
            (fun item1 => resolveCustomTypesForValidation m g item1) = some (Json.obj fs2)
          rw [hx, Option.some_bind, hx2]
    rcases hcv : (Json.obj vfs).getProp "items" with _ | _ | b | n | s | xs | kvs
    · rw [hcv] at htr
      cases htr
    · rw [hcv] at htr
      cases htr
    · rw [hcv] at hp hc
      replace hp : (resolveValidationType m (fuel + 1) (Json.bool b)).bind
          (fun item1 => resolveCustomTypesForValidation m fuel item1) = some w := hp
      obtain ⟨hpi, htw⟩ := hnonarr (Json.bool b) hc hp
      exact hstage u ufs w hueq (hu.trans hvw) htw hpi
    · rw [hcv] at hp hc
      replace hp : (resolveValidationType m (fuel + 1) (Json.num n)).bind
          (fun item1 => resolveCustomTypesForValidation m fuel item1) = some w := hp
      obtain ⟨hpi, htw⟩ := hnonarr (Json.num n) hc hp
      exact hstage u ufs w hueq (hu.trans hvw) htw hpi
    · rw [hcv] at hp hc
      replace hp : (resolveValidationType m (fuel + 1) (Json.str s)).bind
          (fun item1 => resolveCustomTypesForValidation m fuel item1) = some w := hp
      obtain ⟨hpi, htw⟩ := hnonarr (Json.str s) hc hp
      exact hstage u ufs w hueq (hu.trans hvw) htw hpi
    · rw [hcv] at hp hc
      replace hp : (walkChildrenWith (resolveValidationType m (fuel + 1))
          (fun tc => resolveCustomTypesForValidation m fuel tc)
          ((Json.arr xs).jsFields)).bind
            (fun kvs' => some (Json.arr (kvs'.map Prod.snd))) = some w := hp
      rcases hwc : walkChildrenWith (resolveValidationType m (fuel + 1))
          (fun tc => resolveCustomTypesForValidation m fuel tc)
          ((Json.arr xs).jsFields) with _ | kvs1
      · rw [hwc] at hp
        cases hp
      rw [hwc, Option.some_bind] at hp
      obtain rfl := Option.some.inj hp
      obtain ⟨hkeys1, hmem1⟩ := walkChildren_refix _ _ _ _
        (child_refix m hm fuel g ih) _ kvs1 (DeepOK_jsFields _ hc) hwc
      have hmem2 : ∀ kv ∈ (Json.arr (kvs1.map Prod.snd)).jsFields,
          (resolveValidationType m (g + 1) kv.2 = none ∨
           resolveValidationType m (g + 1) kv.2 = some kv.2) ∧
          (resolveCustomTypesForValidation m g kv.2 = none ∨
           resolveCustomTypesForValidation m g kv.2 = some kv.2) := by
        intro kv hkv
        have hv2 : kv.2 ∈ kvs1.map Prod.snd := by
          have := List.mem_map_of_mem Prod.snd hkv
          rw [Json.jsFields_arr_map_snd] at this
          exact this
        obtain ⟨kv', hkv', heq⟩ := List.mem_map.mp hv2
        rw [← heq]
        exact hmem1 kv' hkv'
      refine hstage u ufs (Json.arr (kvs1.map Prod.snd)) hueq (hu.trans hvw) rfl ?_
      rcases walkChildren_pass2 _ _ _ hmem2 with hp2 | hp2
      · left
        show (walkChildrenWith (resolveValidationType m (g + 1))
          (fun tc => resolveCustomTypesForValidation m g tc)
          ((Json.arr (kvs1.map Prod.snd)).jsFields)).bind
            (fun kvs' => some (Json.arr (kvs'.map Prod.snd))) = none
        rw [hp2]
        rfl
      · right
        show (walkChildrenWith (resolveValidationType m (g + 1))
          (fun tc => resolveCustomTypesForValidation m g tc)
          ((Json.arr (kvs1.map Prod.snd)).jsFields)).bind
            (fun kvs' => some (Json.arr (kvs'.map Prod.snd)))
          = some (Json.arr (kvs1.map Prod.snd))
        rw [hp2, Option.some_bind, Json.jsFields_arr_map_snd]
    · rw [hcv] at hp hc
      replace hp : (resolveValidationType m (fuel + 1) (Json.obj kvs)).bind
          (fun item1 => resolveCustomTypesForValidation m fuel item1) = some w := hp
      obtain ⟨hpi, htw⟩ := hnonarr (Json.obj kvs) hc hp
      exact hstage u ufs w hueq (hu.trans hvw) htw hpi
  · obtain rfl : vin = vout := Option.some.inj h
    right
    unfold processValidationItems
    rw [hu]
    rw [if_neg htr]

/-- Re-walking an already-walked validation either runs out of fuel or is the
identity (over a well-formed map and a well-formed validation). -/
theorem resolveWalk_refix (m : List (String × Json)) (hm : TypesOkP m) :
    ∀ (fuel : Nat) (v v' : Json), DeepOK v →
      resolveCustomTypesForValidation m fuel v = some v' →
      ∀ f2, resolveCustomTypesForValidation m f2 v' = none ∨
            resolveCustomTypesForValidation m f2 v' = some v' := by
  intro fuel
  induction fuel with
  | zero => intro v v' _ h; cases h
  | succ fuel ih =>
      intro v v' hwf h f2
      rcases v with _ | _ | b | n | s | xs | fs
      case undef =>
        rw [resolveWalk_nonobj m fuel _ (fun fs2 hf => by cases hf)] at h
        obtain rfl := Option.some.inj h
        cases f2 with
        | zero => exact Or.inl rfl
        | succ g => exact Or.inr (resolveWalk_nonobj m g _ (fun fs2 hf => by cases hf))
      case null =>
        rw [resolveWalk_nonobj m fuel _ (fun fs2 hf => by cases hf)] at h
        obtain rfl := Option.some.inj h
        cases f2 with
        | zero => exact Or.inl rfl
        | succ g => exact Or.inr (resolveWalk_nonobj m g _ (fun fs2 hf => by cases hf))
      case bool =>
        rw [resolveWalk_nonobj m fuel _ (fun fs2 hf => by cases hf)] at h
        obtain rfl := Option.some.inj h
        cases f2 with
        | zero => exact Or.inl rfl
        | succ g => exact Or.inr (resolveWalk_nonobj m g _ (fun fs2 hf => by cases hf))
      case num =>
        rw [resolveWalk_nonobj m fuel _ (fun fs2 hf => by cases hf)] at h
        obtain rfl := Option.some.inj h
        cases f2 with
        | zero => exact Or.inl rfl
        | succ g => exact Or.inr (resolveWalk_nonobj m g _ (fun fs2 hf => by cases hf))
      case str =>
        rw [resolveWalk_nonobj m fuel _ (fun fs2 hf => by cases hf)] at h
        obtain rfl := Option.some.inj h
        cases f2 with
        | zero => exact Or.inl rfl
        | succ g => exact Or.inr (resolveWalk_nonobj m g _ (fun fs2 hf => by cases hf))
      case arr =>
        rw [resolveWalk_nonobj m fuel _ (fun fs2 hf => by cases hf)] at h
        obtain rfl := Option.some.inj h
        cases f2 with
        | zero => exact Or.inl rfl
        | succ g => exact Or.inr (resolveWalk_nonobj m g _ (fun fs2 hf => by cases hf))
      case obj =>
        obtain ⟨fs', hv'obj, hkeys', hlks'⟩ := resolveWalk_shape m (fuel + 1) fs v' h
        cases f2 with
        | zero => exact Or.inl rfl
        | succ g =>
            rw [resolveCustomTypesForValidation] at h
            rcases e1 : processValidationInner (resolveValidationType m (fuel + 1))
                (fun tc => resolveCustomTypesForValidation m fuel tc) (.obj fs)
                "properties" with _ | v1
            · rw [e1] at h; cases h
            rw [e1] at h
            simp only [Option.bind_eq_bind, Option.some_bind] at h
            rcases e2 : processValidationInner (resolveValidationType m (fuel + 1))
                (fun tc => resolveCustomTypesForValidation m fuel tc) v1
                "oneOf" with _ | v2
            · rw [e2] at h; cases h
            rw [e2] at h
            simp only [Option.bind_eq_bind, Option.some_bind] at h
            rcases e3 : processValidationInner (resolveValidationType m (fuel + 1))
                (fun tc => resolveCustomTypesForValidation m fuel tc) v2
                "allOf" with _ | v3
            · rw [e3] at h; cases h
            rw [e3] at h
            simp only [Option.bind_eq_bind, Option.some_bind] at h
            rcases e4 : processValidationInner (resolveValidationType m (fuel + 1))
                (fun tc => resolveCustomTypesForValidation m fuel tc) v3
                "anyOf" with _ | v4
            · rw [e4] at h; cases h
            rw [e4] at h
            simp only [Option.bind_eq_bind, Option.some_bind] at h
            have hp1 : v'.getProp "properties" = v1.getProp "properties" := by
              rw [processValidationItems_getProp_ne _ _ v4 v' "properties" (by decide) h,
                processValidationInner_getProp_ne _ _ v3 v4 "anyOf" "properties"
                  (by decide) e4,
                processValidationInner_getProp_ne _ _ v2 v3 "allOf" "properties"
                  (by decide) e3,
                processValidationInner_getProp_ne _ _ v1 v2 "oneOf" "properties"
                  (by decide) e2]
            have hp2 : v'.getProp "oneOf" = v2.getProp "oneOf" := by
              rw [processValidationItems_getProp_ne _ _ v4 v' "oneOf" (by decide) h,
                processValidationInner_getProp_ne _ _ v3 v4 "anyOf" "oneOf"
                  (by decide) e4,
                processValidationInner_getProp_ne _ _ v2 v3 "allOf" "oneOf"
                  (by decide) e3]
            have hp3 : v'.getProp "allOf" = v3.getProp "allOf" := by
              rw [processValidationItems_getProp_ne _ _ v4 v' "allOf" (by decide) h,
                processValidationInner_getProp_ne _ _ v3 v4 "anyOf" "allOf"
                  (by decide) e4]
            have hp4 : v'.getProp "anyOf" = v4.getProp "anyOf" := by
              rw [processValidationItems_getProp_ne _ _ v4 v' "anyOf" (by decide) h]
            have hc1 : DeepOK ((Json.obj fs).getProp "properties") :=
              DeepOK_getProp _ _ hwf
            have hc2 : DeepOK (v1.getProp "oneOf") := by
              rw [processValidationInner_getProp_ne _ _ (.obj fs) v1 "properties" "oneOf"
                (by decide) e1]
              exact DeepOK_getProp _ _ hwf
            have hc3 : DeepOK (v2.getProp "allOf") := by
              rw [processValidationInner_getProp_ne _ _ v1 v2 "oneOf" "allOf"
                  (by decide) e2,
                processValidationInner_getProp_ne _ _ (.obj fs) v1 "properties" "allOf"
                  (by decide) e1]
              exact DeepOK_getProp _ _ hwf
            have hc4 : DeepOK (v3.getProp "anyOf") := by
              rw [processValidationInner_getProp_ne _ _ v2 v3 "allOf" "anyOf"
                  (by decide) e3,
                processValidationInner_getProp_ne _ _ v1 v2 "oneOf" "anyOf"
                  (by decide) e2,
                processValidationInner_getProp_ne _ _ (.obj fs) v1 "properties" "anyOf"
                  (by decide) e1]
              exact DeepOK_getProp _ _ hwf
            have hc5 : DeepOK (v4.getProp "items") := by
              rw [processValidationInner_getProp_ne _ _ v3 v4 "anyOf" "items"
                  (by decide) e4,
                processValidationInner_getProp_ne _ _ v2 v3 "allOf" "items"
                  (by decide) e3,
                processValidationInner_getProp_ne _ _ v1 v2 "oneOf" "items"
                  (by decide) e2,
                processValidationInner_getProp_ne _ _ (.obj fs) v1 "properties" "items"
                  (by decide) e1]
              exact DeepOK_getProp _ _ hwf
            have s1 := processInner_stage_refix m hm fuel g ih (.obj fs) v1 "properties"
              hc1 e1 v' fs' hv'obj hp1
            have s2 := processInner_stage_refix m hm fuel g ih v1 v2 "oneOf"
              hc2 e2 v' fs' hv'obj hp2
            have s3 := processInner_stage_refix m hm fuel g ih v2 v3 "allOf"
              hc3 e3 v' fs' hv'obj hp3
            have s4 := processInner_stage_refix m hm fuel g ih v3 v4 "anyOf"
              hc4 e4 v' fs' hv'obj hp4
            have s5 := processItems_stage_refix m hm fuel g ih v4 v'
              hc5 h v' fs' hv'obj rfl
            rw [resolveCustomTypesForValidation]
            rcases s1 with s1 | s1
            · rw [s1]
              exact Or.inl rfl
            rw [s1]
            simp only [Option.bind_eq_bind, Option.some_bind]
            rcases s2 with s2 | s2
            · rw [s2]
              exact Or.inl rfl
            rw [s2]
            simp only [Option.bind_eq_bind, Option.some_bind]
            rcases s3 with s3 | s3
            · rw [s3]
              exact Or.inl rfl
            rw [s3]
            simp only [Option.bind_eq_bind, Option.some_bind]
            rcases s4 with s4 | s4
            · rw [s4]
              exact Or.inl rfl
            rw [s4]
            simp only [Option.bind_eq_bind, Option.some_bind]
            exact s5

/-! ## Claim C8: recompilation -/

/-- Unfolding `tryApplyConfigInherits` on a structured route. -/
theorem tryApplyConfigInherits_structured (fuel : Nat) (sd : ServerDefaults)
    (r : RouteRecord) :
    tryApplyConfigInherits fuel sd (.structured r) =
      ((match (if r.validation.truthy then applyValidation fuel r else r).inherits with
        | some _ => applyInherits fuel sd
            (if r.validation.truthy then applyValidation fuel r else r)
        | none => some (if r.validation.truthy then applyValidation fuel r else r)).bind
        (compileRouteValidation fuel sd)) := rfl

/-- The decidable map well-formedness implies the propositional one. -/
theorem typesOkB_to_P (W : Nat) (tys : List (String × Json))
    (h : typesOkB W tys = true) : TypesOkP tys := by
  intro kv hkv
  rw [typesOkB, List.all_eq_true] at h
  have hv := h kv hkv
  rcases hkv2 : kv.2 with _ | _ | b | n | s | xs | fs
  · rw [hkv2] at hv
    cases hv
  · rw [hkv2] at hv
    cases hv
  · rw [hkv2] at hv
    cases hv
  · rw [hkv2] at hv
    cases hv
  · rw [hkv2] at hv
    cases hv
  · rw [hkv2] at hv
    cases hv
  · rw [hkv2] at hv
    replace hv : (typeFieldOk ((Json.obj fs).getProp "type") &&
        deepWFF W (Json.obj fs)) = true := hv
    rw [Bool.and_eq_true] at hv
    exact ⟨⟨fs, rfl⟩, hv.1, ⟨W, hv.2⟩⟩

/-- The strict-object default is well-formed. -/
theorem DeepOK_defaults : DeepOK getDefaultValidationInherits := ⟨2, by decide⟩

/-- Decomposing a field list from its first two keys. -/
theorem keys_two_head_decomp (fs' : List (String × Json)) (k1 k2 : String)
    (ks : List String) (h : fs'.map Prod.fst = k1 :: k2 :: ks) :
    ∃ x y Z', fs' = (k1, x) :: (k2, y) :: Z' ∧ Z'.map Prod.fst = ks := by
  cases fs' with
  | nil => cases h
  | cons p1 t1 =>
      cases t1 with
      | nil =>
          rw [List.map_cons, List.map_nil] at h
          injection h with h1 h2
          cases h2
      | cons p2 t2 =>
          simp only [List.map_cons, List.cons.injEq] at h
          obtain ⟨h1, h2, h3⟩ := h
          obtain ⟨a1, b1⟩ := p1
          obtain ⟨a2, b2⟩ := p2
          refine ⟨b1, b2, t2, ?_, h3⟩
          simp only at h1 h2
          rw [h1, h2]

/-- Claim C8 counterexample: compiling `c8Route` once yields the before-chain
`[7]`; passing the compiled config through `tryApplyConfigInherits` a second
time (same defaults) prepends the parent's stages again, yielding `[7, 7]` —
the before-chain, hence the observable dispatch behavior, differs. -/
theorem c8_counterexample :
    (match tryApplyConfigInherits 3 c8Defaults c8Route with
      | some (_, .structured r') => r'.before
      | _ => none) = some [7] ∧
    (match tryApplyConfigInherits 3 c8Defaults c8Route with
      | some (sd', c') =>
          (match tryApplyConfigInherits 3 sd' c' with
            | some (_, .structured r'') => r''.before
            | _ => none)
      | none => none) = some [7, 7] := ⟨rfl, rfl⟩

/-- A falsy `validationTypes` short-circuits the custom-type pass. -/
theorem applyCustomValidationTypes_falsy (g : Nat) (vt v : Json)
    (h : vt.truthy = false) : applyCustomValidationTypes g vt v = some (vt, v) := by
  unfold applyCustomValidationTypes
  rw [h]
  rfl

/-- Unfolding the custom-type pass on an object mapping. -/
theorem applyCustomValidationTypes_obj (g : Nat) (tys : List (String × Json))
    (v : Json) :
    applyCustomValidationTypes g (.obj tys) v =
      (resolveCustomInnerTypes g tys).bind fun tysr =>
        (resolveCustomTypesForValidation tysr g v).bind fun vr =>
          some (.obj tysr, vr) := rfl

/-- The compile guard passes on a merged validation (truthy object with at
least the two default keys). -/
theorem compileRouteValidation_two_head (g : Nat) (sd : ServerDefaults)
    (r2 : RouteRecord) (tv av : Json) (Z : List (String × Json))
    (hv : r2.validation = .obj (("type", tv) :: ("additionalProperties", av) :: Z)) :
    compileRouteValidation g sd r2 =
      (applyCustomValidationTypes g sd.validationTypes r2.validation).bind fun p =>
        some ({ sd with validationTypes := p.1 },
          .structured { r2 with validation := p.2, validator := some p.2 }) := by
  have hcond : (r2.validation.truthy &&
      decide (0 < r2.validation.objKeys.length)) = true := by
    rw [hv]
    simp [Json.truthy, Json.objKeys]
  unfold compileRouteValidation
  rw [if_pos hcond]

/-- A structured route without `inherits` and with falsy validation passes
through `tryApplyConfigInherits` unchanged. -/
theorem tryApply_noinherits_falsy (g : Nat) (sd : ServerDefaults) (r : RouteRecord)
    (hinh : r.inherits = none) (htr : r.validation.truthy = false) :
    tryApplyConfigInherits g sd (.structured r) = some (sd, .structured r) := by
  rw [tryApplyConfigInherits_structured,
    if_neg (show ¬r.validation.truthy = true by rw [htr]; exact Bool.false_ne_true),
    hinh]
  have hcond : (r.validation.truthy &&
      decide (0 < r.validation.objKeys.length)) = false := by
    rw [htr]
    rfl
  show compileRouteValidation g sd r = some (sd, .structured r)
  unfold compileRouteValidation
  rw [hcond]
  rfl

/-- A structured route without `inherits` and with truthy validation reduces
to the compile step on the defaults-merged record. -/
theorem tryApply_noinherits_truthy (g : Nat) (sd : ServerDefaults) (r : RouteRecord)
    (hinh : r.inherits = none) (htr : r.validation.truthy = true) :
    tryApplyConfigInherits g sd (.structured r) =
      compileRouteValidation g sd (applyValidation g r) := by
  rw [tryApplyConfigInherits_structured, if_pos htr]
  have h2 : (applyValidation g r).inherits = none := hinh
  rw [h2]
  rfl

/-- On a record whose validation is a merge-fixed two-headed object and whose
`inherits` is gone, `tryApplyConfigInherits` is the compile step alone. -/
theorem tryApply_two_head (g : Nat) (sd : ServerDefaults) (r2 : RouteRecord)
    (tv av : Json) (Z : List (String × Json))
    (hv : r2.validation = .obj (("type", tv) :: ("additionalProperties", av) :: Z))
    (hinh : r2.inherits = none)
    (hfix : deepmergeF g getDefaultValidationInherits r2.validation = r2.validation) :
    tryApplyConfigInherits g sd (.structured r2) =
      (applyCustomValidationTypes g sd.validationTypes r2.validation).bind fun p =>
        some ({ sd with validationTypes := p.1 },
          .structured { r2 with validation := p.2, validator := some p.2 }) := by
  have htr : r2.validation.truthy = true := by rw [hv]; rfl
  rw [tryApplyConfigInherits_structured, if_pos htr]
  have happ : applyValidation g r2 = r2 := by
    unfold applyValidation
    rw [hfix]
  rw [happ]
  refine Eq.trans ?_ (compileRouteValidation_two_head g sd r2 tv av Z hv)
  rw [hinh]
  rfl

/-- Claim C8 (amended): route compilation is idempotent only for structured
routes without `inherits` (with `inherits`, the parents' stage chains are
prepended again on every pass — see the counterexample). For a structured
route whose `inherits` is absent, whose validation is falsy or a well-formed
object (unique keys at every nesting level and no nested-array `type`
members), and whose server `validationTypes` is falsy or a well-formed
mapping, a second pass of `tryApplyConfigInherits` over the compiled output
either runs out of resolution fuel or reproduces the compiled defaults and
route exactly. -/
theorem c8_recompile_fixed_without_inherits
    (fuel W : Nat) (sd : ServerDefaults) (r : RouteRecord)
    (sd' : ServerDefaults) (c' : RouteConfig)
    (hinh : r.inherits = none)
    (hval : r.validation.truthy = false ∨
      ∃ vfs, r.validation = .obj vfs ∧ deepWFF W (.obj vfs) = true)
    (hty : sd.validationTypes.truthy = false ∨
      ∃ tys, sd.validationTypes = .obj tys ∧ (tys.map Prod.fst).Nodup ∧
        typesOkB W tys = true)
    (hc : tryApplyConfigInherits (fuel + 1) sd (.structured r) = some (sd', c')) :
    ∀ f2, tryApplyConfigInherits f2 sd' c' = none ∨
      tryApplyConfigInherits f2 sd' c' = some (sd', c') := by
  rcases hval with htr | ⟨vfs, hveq, hwfv⟩
  · rw [tryApply_noinherits_falsy (fuel + 1) sd r hinh htr] at hc
    have hpair := Option.some.inj hc
    have h1 : sd = sd' := congrArg Prod.fst hpair
    have h2 : RouteConfig.structured r = c' := congrArg Prod.snd hpair
    subst h1
    subst h2
    intro f2
    exact Or.inr (tryApply_noinherits_falsy f2 sd r hinh htr)
  · have htr : r.validation.truthy = true := by rw [hveq]; rfl
    obtain ⟨tv, av, Z, hM⟩ := mergeDefaults_shape fuel vfs
    have happ : applyValidation (fuel + 1) r =
        { r with validation :=
            Json.obj (("type", tv) :: ("additionalProperties", av) :: Z) } := by
      unfold applyValidation
      rw [hveq, hM]
    rw [tryApply_noinherits_truthy (fuel + 1) sd r hinh htr, happ] at hc
    have hMok : DeepOK (Json.obj (("type", tv) :: ("additionalProperties", av) :: Z)) := by
      rw [← hM]
      exact DeepOK_merge (fuel + 1) _ _ DeepOK_defaults ⟨W, hwfv⟩ rfl
    obtain ⟨hndM, htmM, hfldsM⟩ := (DeepOK_obj_iff _).mp hMok
    have htvmerge : tv.isMergeable = true →
        (∃ ws, tv = Json.arr ws) ∨
          ∃ wfs, tv = Json.obj wfs ∧ (wfs.map Prod.fst).Nodup := by
      intro hm
      have hdtv : DeepOK tv := hfldsM ("type", tv) (List.mem_cons_self _ _)
      cases tv with
      | arr ws => exact Or.inl ⟨ws, rfl⟩
      | obj wfs => exact Or.inr ⟨wfs, rfl, ((DeepOK_obj_iff wfs).mp hdtv).1⟩
      | undef => simp [Json.isMergeable] at hm
      | null => simp [Json.isMergeable] at hm
      | bool b => simp [Json.isMergeable] at hm
      | num n => simp [Json.isMergeable] at hm
      | str s => simp [Json.isMergeable] at hm
    have havmerge : av.isMergeable = true →
        (∃ ws, av = Json.arr ws) ∨
          ∃ wfs, av = Json.obj wfs ∧ (wfs.map Prod.fst).Nodup := by
      intro hm
      have hdav : DeepOK av := hfldsM ("additionalProperties", av)
        (List.mem_cons_of_mem _ (List.mem_cons_self _ _))
      cases av with
      | arr ws => exact Or.inl ⟨ws, rfl⟩
      | obj wfs => exact Or.inr ⟨wfs, rfl, ((DeepOK_obj_iff wfs).mp hdav).1⟩
      | undef => simp [Json.isMergeable] at hm
      | null => simp [Json.isMergeable] at hm
      | bool b => simp [Json.isMergeable] at hm
      | num n => simp [Json.isMergeable] at hm
      | str s => simp [Json.isMergeable] at hm
    rcases hty with htyF | ⟨tys, hsdteq, hndty, hokB⟩
    · rw [compileRouteValidation_two_head (fuel + 1) sd _ tv av Z rfl,
        applyCustomValidationTypes_falsy (fuel + 1) _ _ htyF] at hc
      replace hc : some (sd, RouteConfig.structured { r with
          validation := Json.obj (("type", tv) :: ("additionalProperties", av) :: Z),
          validator := some (Json.obj
            (("type", tv) :: ("additionalProperties", av) :: Z)) }) =
          some (sd', c') := hc
      have hpair := Option.some.inj hc
      have h1 : sd = sd' := congrArg Prod.fst hpair
      have h2 : RouteConfig.structured { r with
          validation := Json.obj (("type", tv) :: ("additionalProperties", av) :: Z),
          validator := some (Json.obj
            (("type", tv) :: ("additionalProperties", av) :: Z)) } = c' :=
        congrArg Prod.snd hpair
      subst h1
      subst h2
      intro f2
      right
      rw [tryApply_two_head f2 sd ({ r with
          validation := Json.obj (("type", tv) :: ("additionalProperties", av) :: Z),
          validator := some (Json.obj
            (("type", tv) :: ("additionalProperties", av) :: Z)) })
        tv av Z rfl hinh
        (mergeDefaults_fixed tv av Z hndM htvmerge havmerge f2),
        applyCustomValidationTypes_falsy f2 _ _ htyF]
      rfl
    · rw [compileRouteValidation_two_head (fuel + 1) sd _ tv av Z rfl, hsdteq,
        applyCustomValidationTypes_obj] at hc
      rcases hin : resolveCustomInnerTypes (fuel + 1) tys with _ | tys1
      · rw [hin] at hc
        simp only [Option.bind_eq_bind, Option.none_bind] at hc
        exact Option.noConfusion hc
      · rw [hin] at hc
        simp only [Option.bind_eq_bind, Option.some_bind] at hc
        rcases hwalk : resolveCustomTypesForValidation tys1 (fuel + 1)
            (Json.obj (("type", tv) :: ("additionalProperties", av) :: Z)) with _ | M1
        · rw [hwalk] at hc
          simp only [Option.bind_eq_bind, Option.none_bind] at hc
          exact Option.noConfusion hc
        · rw [hwalk] at hc
          simp only [Option.bind_eq_bind, Option.some_bind] at hc
          replace hc : some (({ sd with validationTypes := Json.obj tys1 } :
              ServerDefaults),
              RouteConfig.structured { r with
                validation := M1,
                validator := some M1 }) = some (sd', c') := hc
          have hpair := Option.some.inj hc
          have h1 : ({ sd with validationTypes := Json.obj tys1 } :
              ServerDefaults) = sd' := congrArg Prod.fst hpair
          have h2 : RouteConfig.structured { r with
              validation := M1,
              validator := some M1 } = c' := congrArg Prod.snd hpair
          subst h1
          subst h2
          have hP : TypesOkP tys := typesOkB_to_P W tys hokB
          obtain ⟨hok1, hkeys1, hvals1⟩ :=
            resolveCustomInnerTypes_shape (fuel + 1) tys tys1 hndty hP hin
          obtain ⟨fs', hM1obj, hkeysM1, hlksM1⟩ := resolveWalk_shape tys1 (fuel + 1)
            (("type", tv) :: ("additionalProperties", av) :: Z) M1 hwalk
          rw [List.map_cons, List.map_cons] at hkeysM1
          obtain ⟨tv1, av1, Z', hfseq, hZ'keys⟩ := keys_two_head_decomp fs'
            "type" "additionalProperties" (Z.map Prod.fst) hkeysM1
          subst hfseq
          have e1 : Json.lookupField
              (("type", tv1) :: ("additionalProperties", av1) :: Z') "type" =
              some tv1 := by
            rw [Json.lookupField, if_pos rfl]
          have e2 : Json.lookupField
              (("type", tv) :: ("additionalProperties", av) :: Z) "type" =
              some tv := by
            rw [Json.lookupField, if_pos rfl]
          have htv1 : tv1 = tv := by
            have h := hlksM1 "type" (by decide) (by decide) (by decide)
              (by decide) (by decide)
            rw [e1, e2] at h
            exact Option.some.inj h
          subst tv1
          have e3 : Json.lookupField
              (("type", tv) :: ("additionalProperties", av1) :: Z')
              "additionalProperties" = some av1 := by
            rw [Json.lookupField, if_neg (by decide), Json.lookupField, if_pos rfl]
          have e4 : Json.lookupField
              (("type", tv) :: ("additionalProperties", av) :: Z)
              "additionalProperties" = some av := by
            rw [Json.lookupField, if_neg (by decide), Json.lookupField, if_pos rfl]
          have hav1 : av1 = av := by
            have h := hlksM1 "additionalProperties" (by decide) (by decide)
              (by decide) (by decide) (by decide)
            rw [e3, e4] at h
            exact Option.some.inj h
          subst av1
          subst hM1obj
          have hndM' : ((("type", tv) :: ("additionalProperties", av) :: Z').map
              Prod.fst).Nodup := by
            rw [List.map_cons, List.map_cons, hZ'keys]
            rw [List.map_cons, List.map_cons] at hndM
            exact hndM
          intro f2
          have hfix2 := mergeDefaults_fixed tv av Z' hndM' htvmerge havmerge f2
          rw [tryApply_two_head f2 ({ sd with validationTypes := Json.obj tys1 })
            ({ r with
              validation := Json.obj
                (("type", tv) :: ("additionalProperties", av) :: Z'),
              validator := some (Json.obj
                (("type", tv) :: ("additionalProperties", av) :: Z')) })
            tv av Z' rfl hinh hfix2]
          have hvt2 : ({ sd with validationTypes := Json.obj tys1 } :
              ServerDefaults).validationTypes = Json.obj tys1 := rfl
          rw [hvt2, applyCustomValidationTypes_obj]
          rcases resolveCustomInnerTypes_refix tys1 hok1 hvals1 f2 with hre | hre
          · left
            rw [hre]
            rfl
          · rw [hre]
            simp only [Option.bind_eq_bind, Option.some_bind]
            rcases resolveWalk_refix tys1 hok1 (fuel + 1)
              (Json.obj (("type", tv) :: ("additionalProperties", av) :: Z))
              (Json.obj (("type", tv) :: ("additionalProperties", av) :: Z'))
              hMok hwalk f2 with hw2 | hw2
            · left
              rw [hw2]
              rfl
            · right
              rw [hw2]
              simp only [Option.bind_eq_bind, Option.some_bind]

/-- Witness for the amended claim C8 theorem at a concrete route: compiling
the witness route once yields `c8WConfigOut`, and a second pass over the
compiled output reproduces it (or runs out of fuel). -/
theorem c8_recompile_fixed_witness :
    tryApplyConfigInherits 2 c8WDefaults c8WConfigOut = none ∨
    tryApplyConfigInherits 2 c8WDefaults c8WConfigOut =
      some (c8WDefaults, c8WConfigOut) :=
  c8_recompile_fixed_without_inherits 2 4 c8WDefaults c8WRoute c8WDefaults
    c8WConfigOut rfl
    (Or.inr ⟨[("properties", .obj [("m", .obj [("type", .str "message")])])],
      rfl, by decide⟩)
    (Or.inr ⟨[("message", .obj [("type", .str "string")])], rfl, by decide,
      by decide⟩)
    rfl 2
